import Mathlib

/-!
# Firewall dataplane: configuration generations, hook pipeline, virtual-wire pairing

A shallow embedding of `app/firewall` (`config.c`, `module.c`, `main.c`, `worker.c`,
`interface/interface.c`) and theorems about it.

Conventions of the embedding

* A C `int` is an `Int`; where the source adds to an `int`, the sum goes through
  `wrap_int` (32-bit two's complement, what the compiled code computes on overflow).
* A pointer that may be `NULL` is an `Option`; a pointer to one of the two static
  configuration slots is a `config_ref`.
* Callbacks of modules are functions on the object they receive by pointer.
* `printf`, `usleep` and the command shell have no effect on the modelled state.
-/

namespace Firewall

/-! ## `config.h`, `packet.h`, `worker.h`: constants and records -/

/-- Constant `#define MAX_WORKER_NUM 8` -/
abbrev MAX_WORKER_NUM : Nat := 8

/-- Constant `#define MAX_PORT_NUM 32` -/
abbrev MAX_PORT_NUM : Nat := 32

/-- Constant `#define MAX_QUEUE_NUM 16` -/
abbrev MAX_QUEUE_NUM : Nat := 16

/-- Constant `#define MAX_PKT_BURST 32` -/
abbrev MAX_PKT_BURST : Nat := 32

/-- Largest value of a 32-bit C `int`. -/
def INT_MAX : Int := 2147483647

/-- Smallest value of a 32-bit C `int`. -/
def INT_MIN : Int := -2147483648

/-- Result of an `int` computation whose mathematical value is `x`, reduced to 32 bits
in two's complement. -/
def wrap_int (x : Int) : Int := (x + 2147483648) % 4294967296 - 2147483648

/-- Embeds `ip4_tuple_t` of `packet.h`. -/
structure ip4_tuple_t where
  proto : Nat
  sip : Nat
  dip : Nat
  sp : Nat
  dp : Nat
deriving DecidableEq, Repr

/-- Embeds `ip6_tuple_t` of `packet.h`. -/
structure ip6_tuple_t where
  proto : Nat
  sip : List Nat
  dip : List Nat
  sp : Nat
  dp : Nat
deriving DecidableEq, Repr

/-- The anonymous `union { v4; v6 } tuple` of `packet_t`. -/
inductive tuple_t where
  | v4 (t : ip4_tuple_t)
  | v6 (t : ip6_tuple_t)
deriving DecidableEq, Repr

/-- Embeds `packet_t` of `packet.h`: the per-packet metadata kept in the private area of the
buffer (the `reserved` padding is not modelled). -/
structure packet_t where
  port_in : Nat
  port_out : Nat
  ptype : Nat
  flags : Nat
  queue_id : Nat
  smac : List Nat
  dmac : List Nat
  is_v4 : Bool
  tuple : tuple_t
deriving DecidableEq, Repr

/-- A packet buffer (`struct rte_mbuf`) as far as the firewall looks at it: what
`rte_mbuf_to_priv` yields (`none` for a `NULL` result) and whether `rte_pktmbuf_free`
has been called on it. -/
structure rte_mbuf where
  priv : Option packet_t
  freed : Bool
deriving DecidableEq, Repr

/-- Embeds `role_t` of `worker.h`. -/
inductive role_t where
  | ROLE_NONE
  | ROLE_MGMT
  | ROLE_RX
  | ROLE_TX
  | ROLE_RTX
  | ROLE_WORKER
  | ROLE_RTX_WORKER
deriving DecidableEq, Repr

/-- Embeds `worker_t` of `worker.h`; `work_queue` is a ring handle or `NULL`. -/
structure worker_t where
  lcore_id : Int
  role : role_t
  ports : List Nat
  queues : List Nat
  port_num : Nat
  queue_num : Nat
  work_queue : Option Nat
deriving DecidableEq, Repr

/-! ## `interface/interface.h` (not part of the sources at hand) -/

/-- Modelled from the spec: the port type tag `PORT_TYPE_NONE` of `interface.h`, the
value every type string other than the virtual-wire one maps to. -/
def PORT_TYPE_NONE : Nat := 0

/-- Modelled from the spec: the port type tag `PORT_TYPE_VWIRE` of `interface.h`, the
only recognised port type ("virtual wire"). -/
def PORT_TYPE_VWIRE : Nat := 1

/-- Modelled from the spec: `port_config_t` of `interface.h`, with the fields
`interface_load` fills in: numeric id, type tag, bus string, MAC string, pair id. -/
structure port_config_t where
  id : Nat
  type : Nat
  bus : String
  mac : String
  vwire : Nat
deriving DecidableEq, Repr

/-- Modelled from the spec: `vwire_pair_t` of `interface.h`, with the fields
`interface_vwire_init` and `interface_vwire_pair` use. -/
structure vwire_pair_t where
  vwire_id : Nat
  port1 : Nat
  port2 : Nat
deriving DecidableEq, Repr

/-- Modelled from the spec: `interface_config_t` of `interface.h`. `ports` holds the
populated entries `ports[0 .. port_num)` of the C array, so `port_num` is its length;
`vwire_pairs` is the `malloc`ed pair array or `NULL`. -/
structure interface_config_t where
  ports : List port_config_t
  vwire_pairs : Option (List vwire_pair_t)
  vwire_pair_num : Int
deriving DecidableEq, Repr

/-- Embeds `config_t` of `config.h`. Handles of external objects are numbers, `NULL` is
`none`; the interface configuration and the worker table are held by value. -/
structure config_t where
  pktmbuf_pool : Option Nat
  cli_def : Option Nat
  cli_show : Option Nat
  cli_sockfd : Int
  workers : Option (List worker_t)
  worker_num : Int
  worker_map : List Int
  rx_queues : List (Option Nat)
  tx_queues : List (List (Option Nat))
  rxq_num : Int
  txq_num : Int
  itf_cfg : Option interface_config_t
  promiscuous : Int
  port_num : Int
  queue_num : Int
  acl_ctx : Option Nat
  reload_mark : Int
  switch_mark : Int
deriving DecidableEq, Repr

/-- Pointer to one of the two static snapshots `config_a`, `config_b` of `config.c`. -/
inductive config_ref where
  | a
  | b
deriving DecidableEq, Repr

/-- The program's globals: `config_a`, `config_b`, `config_index`, `_config_index`
(`config.c`), the active pointer `config` and the per-thread pointer `_config`
(`main.c`), the latter indexed by lcore. -/
structure Globals where
  config_a : config_t
  config_b : config_t
  config_index : Int
  _config_index : Fin MAX_WORKER_NUM → Int
  config : config_ref
  _config : Fin MAX_WORKER_NUM → config_ref

/-- Dereference a slot pointer. -/
def Globals.get (g : Globals) : config_ref → config_t
  | .a => g.config_a
  | .b => g.config_b

/-- Store through a slot pointer. -/
def Globals.set (g : Globals) (c : config_ref) (v : config_t) : Globals :=
  match c with
  | .a => { g with config_a := v }
  | .b => { g with config_b := v }

/-- Embeds `(c == &config_a) ? &config_b : &config_a` -/
def config_ref.other : config_ref → config_ref
  | .a => .b
  | .b => .a

/-- Initial value of `config_a` (`config.c` lines 8-25). -/
def config_a_init : config_t :=
  { pktmbuf_pool := none, cli_def := none, cli_show := none, cli_sockfd := 0,
    workers := none, worker_num := 0,
    worker_map := List.replicate MAX_WORKER_NUM 0,
    rx_queues := List.replicate MAX_WORKER_NUM none,
    tx_queues := List.replicate MAX_PORT_NUM (List.replicate MAX_QUEUE_NUM none),
    rxq_num := 0, txq_num := 0, itf_cfg := none, promiscuous := 1, port_num := 0,
    queue_num := 0, acl_ctx := none, reload_mark := 0, switch_mark := 0 }

/-- Initial value of `config_b`: zero-initialised static storage. -/
def config_b_init : config_t := { config_a_init with promiscuous := 0 }

/-- Globals at program start: `config_index = 0`, every `_config_index[i] = -1`,
`config = &config_a`. -/
def Globals.initial : Globals :=
  { config_a := config_a_init, config_b := config_b_init, config_index := 0,
    _config_index := fun _ => -1, config := .a, _config := fun _ => .a }

/-! ## `module.h`, `module.c` -/

/-- Enumerator `MOD_ID_NONE`. -/
abbrev MOD_ID_NONE : Nat := 0

/-- Enumerator `MOD_ID_INTERFACE`. -/
abbrev MOD_ID_INTERFACE : Nat := 1

/-- Enumerator `MOD_ID_DECODER`. -/
abbrev MOD_ID_DECODER : Nat := 2

/-- Enumerator `MOD_ID_ACL`. -/
abbrev MOD_ID_ACL : Nat := 3

/-- Enumerator `MOD_ID_MAX`. -/
abbrev MOD_ID_MAX : Nat := 4

/-- Enumerator `MOD_HOOK_RECV`. -/
abbrev MOD_HOOK_RECV : Nat := 0

/-- Enumerator `MOD_HOOK_INGRESS`. -/
abbrev MOD_HOOK_INGRESS : Nat := 1

/-- Enumerator `MOD_HOOK_PREROUTING`. -/
abbrev MOD_HOOK_PREROUTING : Nat := 2

/-- Enumerator `MOD_HOOK_POSTROUTING`. -/
abbrev MOD_HOOK_POSTROUTING : Nat := 4

/-- Enumerator `MOD_HOOK_LOCALIN`. -/
abbrev MOD_HOOK_LOCALIN : Nat := 5

/-- Enumerator `MOD_HOOK_LOCALOUT`. -/
abbrev MOD_HOOK_LOCALOUT : Nat := 6

/-- Enumerator `MOD_HOOK_EGRESS`. -/
abbrev MOD_HOOK_EGRESS : Nat := 7

/-- Enumerator `MOD_HOOK_SEND`. -/
abbrev MOD_HOOK_SEND : Nat := 8

/-- Enumerator `MOD_RET_ACCEPT`. -/
abbrev MOD_RET_ACCEPT : Int := 0

/-- Enumerator `MOD_RET_STOLEN`. -/
abbrev MOD_RET_STOLEN : Int := 1

/-- Embeds `module_t` of `module.h`. `M` is the state a `proc` callback works on through its
`mbuf` argument; `init`, `conf` and `free` work on the snapshot they are handed and
return their `int` status. A `NULL` callback is `none`. -/
structure module_t (M : Type) where
  name : String
  id : Nat
  enabled : Bool
  log : Bool
  init : Option (config_t → Int × config_t)
  proc : Option (config_t → M → Nat → Int × M)
  conf : Option (config_t → Int × config_t)
  free : Option (config_t → Int × config_t)

/-- The table `module_t *modules[MAX_MODULE_NUM]`, indexed by module id. -/
abbrev module_table (M : Type) := Nat → Option (module_t M)

/-- Array `hook_ingress[]`. -/
def hook_ingress : List Nat := [ MOD_ID_DECODER, MOD_ID_ACL]

/-- Array `hook_prerouting[]`. -/
def hook_prerouting : List Nat := [ MOD_ID_INTERFACE]

/-- Array `hook_forward[]`. -/
def hook_forward : List Nat := [ MOD_ID_NONE]

/-- Array `hook_postrouting[]`. -/
def hook_postrouting : List Nat := [ MOD_ID_NONE]

/-- Array `hook_localin[]`. -/
def hook_localin : List Nat := [ MOD_ID_NONE]

/-- Array `hook_localout[]`. -/
def hook_localout : List Nat := [ MOD_ID_NONE]

/-- Array `hook_egress[]`. -/
def hook_egress : List Nat := [ MOD_ID_DECODER, MOD_ID_ACL]

/-- Embeds `mod_id_t *hooks[]` (`module.c` lines 39-47): seven entries, indices 0 to 6. -/
def hooks : List (List Nat) :=
  [hook_ingress, hook_prerouting, hook_forward, hook_postrouting, hook_localin,
   hook_localout, hook_egress]

/-- Embeds `int hook_size[]` (`module.c` lines 49-57): `sizeof(hook_x) / sizeof(mod_id_t)` for
the same seven arrays. -/
def hook_size : List Nat :=
  [hook_ingress.length, hook_prerouting.length, hook_forward.length,
   hook_postrouting.length, hook_localin.length, hook_localout.length,
   hook_egress.length]

/-- Body of `MODULE_FOREACH` as used by `modules_init`, `modules_conf` and
`modules_free`: visit the ids in turn, call the selected callback of every entry that
is registered, has the callback and is enabled, and stop with `-1` at the first
non-zero status. -/
def modules_foreach {M : Type} (modules : module_table M)
    (cb : module_t M → Option (config_t → Int × config_t)) :
    List Nat → config_t → Int × config_t
  | [], config => (0, config)
  | id :: rest, config =>
    match modules id with
    | none => modules_foreach modules cb rest config
    | some m =>
      match cb m with
      | none => modules_foreach modules cb rest config
      | some f =>
        if m.enabled then
          if (f config).1 ≠ 0 then (-1, (f config).2)
          else modules_foreach modules cb rest (f config).2
        else modules_foreach modules cb rest config

/-- Embeds `modules_init` (`module.c` lines 76-90). -/
def modules_init {M : Type} (modules : module_table M) (config : config_t) :
    Int × config_t :=
  modules_foreach modules (fun m => m.init) (List.range MOD_ID_MAX) config

/-- Embeds `modules_conf` (`module.c` lines 92-106). -/
def modules_conf {M : Type} (modules : module_table M) (config : config_t) :
    Int × config_t :=
  modules_foreach modules (fun m => m.conf) (List.range MOD_ID_MAX) config

/-- Embeds `modules_free` (`module.c` lines 108-122). -/
def modules_free {M : Type} (modules : module_table M) (config : config_t) :
    Int × config_t :=
  modules_foreach modules (fun m => m.free) (List.range MOD_ID_MAX) config

/-- Constant `MAX_MODULE_NUM` (`module.h` line 64), the number of entries of the array
`modules`. -/
def MAX_MODULE_NUM : Nat := 128

/-- The read `m = modules[hooks[hook][id]]` that the increment clause of
`MODULE_FOREACH_HOOK` (`module.c` lines 62-63) makes with `id = hook_size[hook]`, one past
the last entry of the hook's array, before the test `id < hook_size[hook]` ends the
loop. `over` is what `hooks[hook][id]` yields there: `none` when the entry lies outside
every array (undefined behaviour), `some v` when a value `v` is read, which then indexes
`modules`. The result is whether both reads are defined. -/
def hook_read_past (over : Option Nat) : Bool :=
  match over with
  | none => false
  | some v => decide (v < MAX_MODULE_NUM)

/-- Loop of `modules_proc` over the module-id sequence of a hook (`MODULE_FOREACH_HOOK`
and `module.c` lines 128-142). The result is the value returned, `none` when the
behaviour is undefined, with the packet as the callbacks that were invoked left it.
When a callback returns `MOD_RET_STOLEN` the function returns from inside the loop;
otherwise the loop ends through its increment clause, which reads `hooks[hook][id]` one
past the end of the sequence (`hook_read_past`). -/
def modules_proc_loop {M : Type} (modules : module_table M) (config : config_t)
    (hook : Nat) (over : Option Nat) : List Nat → M → Option Int × M
  | [], pkt => (if hook_read_past over then some MOD_RET_ACCEPT else none, pkt)
  | mid :: rest, pkt =>
    match modules mid with
    | none => modules_proc_loop modules config hook over rest pkt
    | some m =>
      match m.proc with
      | none => modules_proc_loop modules config hook over rest pkt
      | some f =>
        if m.enabled then
          if (f config pkt hook).1 = MOD_RET_STOLEN then
            (some (f config pkt hook).1, (f config pkt hook).2)
          else modules_proc_loop modules config hook over rest (f config pkt hook).2
        else modules_proc_loop modules config hook over rest pkt

/-- Embeds `modules_proc` (`module.c` lines 124-145) with the packet as the callbacks left
it, also when the value returned is undefined. `hooks[hook]` and `hook_size[hook]` are
array reads; outside the seven entries of the two tables the behaviour is undefined,
which is the result `none`. The entry one past the end of a hook's array lies outside
that array. -/
def modules_proc_run {M : Type} (modules : module_table M) (config : config_t) (pkt : M)
    (hook : Nat) : Option (Option Int × M) :=
  match hooks[hook]?, hook_size[hook]? with
  | some s, some n => some (modules_proc_loop modules config hook none (s.take n) pkt)
  | _, _ => none

/-- Embeds `modules_proc`: the value returned and the packet, `none` when the behaviour
is undefined. -/
def modules_proc {M : Type} (modules : module_table M) (config : config_t) (pkt : M)
    (hook : Nat) : Option (Int × M) :=
  match modules_proc_run modules config pkt hook with
  | some (some ret, pkt1) => some (ret, pkt1)
  | _ => none

/-! ## `config.c` -/

/-- Embeds `config_reload` (`config.c` lines 30-40): copy `c` into the other slot, run the
`conf` callbacks on the copy (their status is not looked at), clear both marks of the
copy, advance `config_index`, return 1. -/
def config_reload {M : Type} (modules : module_table M) (g : Globals) (c : config_ref) :
    Int × Globals :=
  let new := c.other
  let g1 := g.set new (g.get c)
  let g2 := g1.set new (modules_conf modules (g1.get new)).2
  let g3 := g2.set new { g2.get new with reload_mark := 0 }
  let g4 := g3.set new { g3.get new with switch_mark := 0 }
  (1, { g4 with config_index :=
          if g4.config_index ≤ 0 then 1 else wrap_int (g4.config_index + 1) })

/-- The `for` loop of `config_switch` (lines 48-53) over the remaining entries:
the value of `i` when the loop is left. -/
def config_switch_scan_from (ci : Int) : List Int → Nat → Nat
  | [], i => i
  | x :: rest, i =>
    if x = -1 then config_switch_scan_from ci rest (i + 1)
    else if x ≠ ci then i
    else config_switch_scan_from ci rest (i + 1)

/-- One poll of the generation table: the value of `i` after the `for` loop. -/
def config_switch_scan (g : Globals) : Nat :=
  config_switch_scan_from g.config_index (List.ofFn g._config_index) 0

/-- The `while (1)` loop of `config_switch(c, -1)` and the `modules_free` after it.
`env n` is what the other cores do to the globals during the `n`-th `usleep`; `fuel`
bounds the number of polls, and `none` means the loop is still running (nothing
freed, nothing returned). -/
def config_switch_wait {M : Type} (modules : module_table M) (env : Nat → Globals → Globals)
    (c : config_ref) : Nat → Nat → Globals → Option (config_ref × Globals)
  | 0, _, _ => none
  | fuel + 1, n, g =>
    let g1 := env n g
    if config_switch_scan g1 = MAX_WORKER_NUM then
      let g2 := g1.set c { g1.get c with switch_mark := 0 }
      let g3 := g2.set c (modules_free modules (g2.get c)).2
      some (c.other, g3)
    else config_switch_wait modules env c fuel (n + 1) g1

/-- Embeds `config_switch` (`config.c` lines 42-70). With `lcore_id = -1` it is the
management side; otherwise it writes `_config_index[lcore_id]`, which is defined for
`0 <= lcore_id < MAX_WORKER_NUM` only (`none` otherwise). -/
def config_switch {M : Type} (modules : module_table M) (env : Nat → Globals → Globals)
    (fuel : Nat) (g : Globals) (c : config_ref) (lcore_id : Int) :
    Option (config_ref × Globals) :=
  if lcore_id = -1 then config_switch_wait modules env c fuel 0 g
  else if h : 0 ≤ lcore_id ∧ lcore_id < MAX_WORKER_NUM then
    let k : Fin MAX_WORKER_NUM := ⟨lcore_id.toNat, by omega⟩
    let v : Int := if g._config_index k ≤ 0 then 1 else wrap_int (g._config_index k + 1)
    some (c.other, { g with _config_index := Function.update g._config_index k v })
  else none

/-! ## `main.c`: the two places that drive a configuration switch -/

/-- Embeds `main_loop` lines 72-73: a worker thread starts on the snapshot it is handed and
publishes generation 0. -/
def main_loop_enter (g : Globals) (arg : config_ref) (lcore_id : Int) : Option Globals :=
  if h : 0 ≤ lcore_id ∧ lcore_id < MAX_WORKER_NUM then
    let k : Fin MAX_WORKER_NUM := ⟨lcore_id.toNat, by omega⟩
    some { g with _config := Function.update g._config k arg,
                  _config_index := Function.update g._config_index k 0 }
  else none

/-- Embeds `main_loop` lines 76-78: the switch check at the top of every iteration,
`if (_config->switch_mark) _config = config_switch(_config, lcore_id);`. -/
def main_loop_switch {M : Type} (modules : module_table M) (g : Globals) (lcore_id : Int) :
    Option Globals :=
  if h : 0 ≤ lcore_id ∧ lcore_id < MAX_WORKER_NUM then
    let k : Fin MAX_WORKER_NUM := ⟨lcore_id.toNat, by omega⟩
    if (g.get (g._config k)).switch_mark ≠ 0 then
      match config_switch modules (fun _ x => x) 0 g (g._config k) lcore_id with
      | some r => some { r.2 with _config := Function.update r.2._config k r.1 }
      | none => none
    else some g
  else none

/-- Embeds `mgmt_loop` lines 105-112: the reload branch of one iteration of the management
loop, `_c` being its local pointer. The result is the new `_c` and the globals, or
`none` while `config_switch(_c, -1)` is still waiting. -/
def mgmt_loop_reload {M : Type} (modules : module_table M) (env : Nat → Globals → Globals)
    (fuel : Nat) (g : Globals) (_c : config_ref) : Option (config_ref × Globals) :=
  if (g.get _c).reload_mark ≠ 0 then
    let r := config_reload modules g _c
    if r.1 ≠ 0 then
      let g1 := r.2.set _c { r.2.get _c with reload_mark := 0 }
      let g2 := g1.set _c { g1.get _c with switch_mark := 1 }
      match config_switch modules env fuel g2 _c (-1) with
      | some r3 => some (r3.1, { r3.2 with config := r3.1 })
      | none => none
    else some (_c, r.2)
  else some (_c, g)

/-- The globals after the workers on the lcores `ks` have each run the switch check of
`main_loop` once, one after the other. -/
def workers_switch {M : Type} (modules : module_table M) :
    List (Fin MAX_WORKER_NUM) → Globals → Globals
  | [], g => g
  | k :: ks, g =>
    workers_switch modules ks ((main_loop_switch modules g (k.val : Int)).getD g)

/-- Interference in the sequential model of a reload cycle: during the first sleep of
the management core every worker of `ks` runs its switch check; afterwards nothing
else runs. -/
def cycle_env {M : Type} (modules : module_table M) (ks : List (Fin MAX_WORKER_NUM)) :
    Nat → Globals → Globals
  | 0, g => workers_switch modules ks g
  | _ + 1, g => g

/-- The globals the management core sees at its poll number `k` (counted from 0) when
it entered the wait loop in `g` just before sleep number `n`: the interference of the
sleeps `n, n + 1, .., n + k` applied in turn (the loop itself writes nothing before it
is left). -/
def observed (env : Nat → Globals → Globals) : Nat → Globals → Nat → Globals
  | n, g, 0 => env n g
  | n, g, k + 1 => observed env (n + 1) (env n g) k

/-- Every entry of `_config_index` is `-1` or equal to `config_index`. -/
def quiescent (g : Globals) : Prop :=
  ∀ i : Fin MAX_WORKER_NUM, g._config_index i = -1 ∨ g._config_index i = g.config_index

instance (g : Globals) : Decidable (quiescent g) := by
  unfold quiescent
  infer_instance

/-- The successor of a generation value as both `config_reload` and `config_switch`
compute it: `(x <= 0) ? 1 : x + 1`. -/
def next_index (x : Int) : Int := if x ≤ 0 then 1 else wrap_int (x + 1)

/-- What `config_switch(c, -1)` does once its wait loop is left in state `g`: clear
`c->switch_mark`, then `modules_free(c)`. -/
def retire {M : Type} (modules : module_table M) (g : Globals) (c : config_ref) : Globals :=
  let g2 := g.set c { g.get c with switch_mark := 0 }
  g2.set c (modules_free modules (g2.get c)).2

/-! ## `interface/interface.c` -/

/-- One entry of the `ports` array of `interface.json` as the JSON accessors see it:
a field that is absent makes `JV` return `NULL` (`none`). Numeric fields are taken in
the range of the C field they are stored in. -/
structure json_port where
  id : Option Nat
  type : Option String
  bus : Option String
  mac : Option String
  vwire : Option Nat
deriving DecidableEq, Repr

/-- The root object of `interface.json`; `ports = none` when `JA` finds no array. -/
structure json_root where
  ports : Option (List json_port)
deriving DecidableEq, Repr

/-- Embeds `interface_type_str2int` (lines 25-29). -/
def interface_type_str2int (str : String) : Nat :=
  if str = "vwire" then PORT_TYPE_VWIRE else PORT_TYPE_NONE

/-- Inner loop of `interface_vwire_init` (lines 48-69) for the port `p`, over the pair
slots from `j` on, with the counter `pairs`. `none` is the `goto done` of line 65. -/
def vwire_bind (p : port_config_t) : List vwire_pair_t → Nat → Option (List vwire_pair_t × Nat)
  | [], pairs => some ([], pairs)
  | s :: rest, pairs =>
    if s.vwire_id = 0 then
      some ({ s with vwire_id := p.vwire, port1 := p.id } :: rest, pairs)
    else if s.vwire_id = p.vwire then
      if s.port2 = 0 then some ({ s with port2 := p.id } :: rest, pairs + 1)
      else none
    else
      match vwire_bind p rest pairs with
      | some r => some (s :: r.1, r.2)
      | none => none

/-- Outer loop of `interface_vwire_init` (lines 46-71) over the ports. -/
def vwire_bind_ports : List port_config_t → List vwire_pair_t → Nat →
    Option (List vwire_pair_t × Nat)
  | [], slots, pairs => some (slots, pairs)
  | p :: ps, slots, pairs =>
    if p.type = PORT_TYPE_VWIRE then
      match vwire_bind p slots pairs with
      | some r => vwire_bind_ports ps r.1 r.2
      | none => none
    else vwire_bind_ports ps slots pairs

/-- Embeds `interface_vwire_init` (lines 31-88) on the interface configuration of the
snapshot; `malloc_ok` tells whether the allocation of the pair array succeeds. On
failure the array is freed (`none`). -/
def interface_vwire_init (malloc_ok : Bool) (itfc : interface_config_t) :
    Int × interface_config_t :=
  if malloc_ok then
    match vwire_bind_ports itfc.ports
        (List.replicate itfc.vwire_pair_num.toNat { vwire_id := 0, port1 := 0, port2 := 0 }) 0 with
    | none => (-1, { itfc with vwire_pairs := none })
    | some r =>
      if (r.2 : Int) ≠ itfc.vwire_pair_num then (-1, { itfc with vwire_pairs := none })
      else (0, { itfc with vwire_pairs := some r.1 })
  else (-1, { itfc with vwire_pairs := none })

/-- Loop of `interface_vwire_pair` (lines 94-100). -/
def vwire_pair_lookup (port_in : Nat) : List vwire_pair_t → Nat
  | [] => port_in
  | s :: rest =>
    if s.port1 = port_in then s.port2
    else if s.port2 = port_in then s.port1
    else vwire_pair_lookup port_in rest

/-- Embeds `interface_vwire_pair` (lines 90-101). The pair array is only read when
`vwire_pair_num > 0`, which `interface_load` arranges together with a successful
`interface_vwire_init`. -/
def interface_vwire_pair (itfc : interface_config_t) (port_in : Nat) : Nat :=
  vwire_pair_lookup port_in ((itfc.vwire_pairs.getD []).take itfc.vwire_pair_num.toNat)

/-- Port loop of `interface_load` (lines 131-157): fills `ports`, counts the
virtual-wire ports in `vwire_port_num`; status `-1` as soon as a field is missing. -/
def interface_load_ports : List json_port → interface_config_t → Int →
    Int × interface_config_t × Int
  | [], itfc, vwire_port_num => (0, itfc, vwire_port_num)
  | jo :: rest, itfc, vwire_port_num =>
    match jo.id, jo.type, jo.bus, jo.mac, jo.vwire with
    | some id, some ty, some bus, some mac, some vwire =>
      let portc : port_config_t :=
        { id := id, type := interface_type_str2int ty, bus := bus, mac := mac, vwire := vwire }
      interface_load_ports rest { itfc with ports := itfc.ports ++ [portc] }
        (if portc.type = PORT_TYPE_VWIRE then vwire_port_num + 1 else vwire_port_num)
    | _, _, _, _, _ => (-1, itfc, vwire_port_num)

/-- Embeds `interface_load` (lines 103-174) on the interface configuration of the snapshot.
`jr` is what `JR(CONFIG_PATH, "interface.json")` returns. -/
def interface_load (malloc_ok : Bool) (jr : Option json_root) (itfc : interface_config_t) :
    Int × interface_config_t :=
  match jr with
  | none => (-1, itfc)
  | some root =>
    match root.ports with
    | none => (-1, itfc)
    | some ja =>
      let r := interface_load_ports ja itfc 0
      if r.1 ≠ 0 then (-1, r.2.1)
      else if r.2.2 ≠ 0 ∧ r.2.2 % 2 = 0 then
        interface_vwire_init malloc_ok { r.2.1 with vwire_pair_num := r.2.2 / 2 }
      else (0, r.2.1)

/-- The zeroed `interface_config_t` that `interface_init` allocates (line 278). -/
def interface_config_zero : interface_config_t :=
  { ports := [], vwire_pairs := none, vwire_pair_num := 0 }

/-- Embeds `interface_init` (lines 263-302). `setup` stands for `interface_setup`, the
configuration of the devices through the port driver. -/
def interface_init (malloc_ok : Bool) (jr : Option json_root)
    (setup : config_t → Int × config_t) (c : config_t) : Int × config_t :=
  if c.itf_cfg.isSome then (-1, c)
  else if malloc_ok then
    let r := interface_load malloc_ok jr interface_config_zero
    if r.1 ≠ 0 then (r.1, { c with itf_cfg := none })
    else
      let c1 := { c with itf_cfg := some r.2 }
      if (setup c1).1 ≠ 0 then ((setup c1).1, { (setup c1).2 with itf_cfg := none })
      else (0, (setup c1).2)
  else (-1, c)

/-- The entry `ports[port_in]` of the port array: the populated entry, or the zeroed
one the array holds behind them. -/
def port_at (itfc : interface_config_t) (port_in : Nat) : port_config_t :=
  itfc.ports.getD port_in { id := 0, type := 0, bus := "", mac := "", vwire := 0 }

/-- Embeds `interface_proc_prerouting` (lines 304-324); `config->itf_cfg` is set whenever the
module runs, as `interface_init` either sets it or fails start-up. -/
def interface_proc_prerouting (config : config_t) (mbuf : rte_mbuf) : Int × rte_mbuf :=
  match mbuf.priv with
  | none => (-1, { mbuf with freed := true })
  | some p =>
    match config.itf_cfg with
    | none => (0, mbuf)
    | some itfc =>
      if (port_at itfc p.port_in).type = PORT_TYPE_VWIRE then
        (0, { mbuf with priv := some { p with port_out := interface_vwire_pair itfc p.port_in } })
      else (0, mbuf)

/-- Embeds `interface_proc` (lines 326-330). -/
def interface_proc (config : config_t) (mbuf : rte_mbuf) (hook : Nat) : Int × rte_mbuf :=
  if hook = MOD_HOOK_PREROUTING then
    (MOD_RET_ACCEPT, (interface_proc_prerouting config mbuf).2)
  else (MOD_RET_ACCEPT, mbuf)

/-- Embeds `MODULE_DECLARE(interface)` (lines 13-23). -/
def interface (malloc_ok : Bool) (jr : Option json_root) (setup : config_t → Int × config_t) :
    module_t rte_mbuf :=
  { name := "interface", id := MOD_ID_INTERFACE, enabled := true, log := true,
    init := some (interface_init malloc_ok jr setup), proc := some interface_proc,
    conf := none, free := none }

/-- Embeds `MODULE_REGISTER` (`module.h` lines 69-74). -/
def MODULE_REGISTER {M : Type} (modules : module_table M) (m : module_t M) : module_table M :=
  if MOD_ID_NONE < m.id ∧ m.id < MOD_ID_MAX ∧ (modules m.id).isNone then
    Function.update modules m.id (some m)
  else modules

/-- Embeds `modules_load` (`module.c` lines 65-74): register every module of the module
section, in section order. -/
def modules_load {M : Type} (sect : List (module_t M)) (modules : module_table M) :
    module_table M :=
  sect.foldl MODULE_REGISTER modules

/-! ## `worker.c`: the hook loop of `WORKER` -/

/-- The loop of `WORKER` over the hooks (lines 344-348), given the hooks still to
visit: `some (true, _)` when a hook made `modules_proc` return non-zero (`WORKER`
returns at once), `some (false, _)` when every hook was passed, `none` when a
`modules_proc` call is undefined. -/
def WORKER_hooks {M : Type} (modules : module_table M) (config : config_t) :
    List Nat → M → Option (Bool × M)
  | [], mbuf => some (false, mbuf)
  | hook :: rest, mbuf =>
    match modules_proc modules config mbuf hook with
    | none => none
    | some r => if r.1 ≠ 0 then some (true, r.2) else WORKER_hooks modules config rest r.2

/-- The hooks `MOD_HOOK_INGRESS .. MOD_HOOK_EGRESS` that `WORKER` visits, in order. -/
def WORKER_hook_range : List Nat :=
  List.range' MOD_HOOK_INGRESS (MOD_HOOK_EGRESS + 1 - MOD_HOOK_INGRESS)

/-! ## Concrete inputs used by the closed theorems below -/

/-- A module with id `MOD_ID_ACL` whose `conf` callback fails with `-1` and leaves the
snapshot as it is. -/
def failing_conf_module : module_t rte_mbuf :=
  { name := "acl", id := MOD_ID_ACL, enabled := true, log := false,
    init := none, proc := none, conf := some (fun c => (-1, c)), free := none }

/-- The module table after registering `failing_conf_module` into an empty table. -/
def failing_conf_table : module_table rte_mbuf :=
  MODULE_REGISTER (fun _ => none) failing_conf_module

/-- The start-up globals with the generation of lcore 0 at `INT_MAX`. -/
def globals_at_int_max : Globals :=
  { Globals.initial with _config_index := Function.update (fun _ => -1) 0 INT_MAX }

/-- The start-up globals with workers on lcores 0 and 1 at generation 0 and a reload
requested on `config_a`. -/
def globals_two_workers : Globals :=
  { Globals.initial with
    config_a := { config_a_init with reload_mark := 1 },
    _config_index := fun i => if i.val < 2 then 0 else -1 }

/-- A state in which lcore 0 is one generation behind: `config_index = 1`,
`_config_index[0] = 0`, and `config_a` is marked for the switch. -/
def globals_one_behind : Globals :=
  { Globals.initial with
    config_a := { config_a_init with switch_mark := 1 },
    config_index := 1,
    _config_index := fun i => if i.val = 0 then 0 else -1 }

/-- Interference in which the worker on lcore 0 runs its switch check during the
second sleep of the management core and nothing else happens. -/
def env_switch_second_sleep : Nat → Globals → Globals
  | 1, g => workers_switch failing_conf_table [0] g
  | _, g => g

/-- A module with id `MOD_ID_ACL` whose `free` callback drops the ACL context and
reports success. -/
def acl_free_module : module_t rte_mbuf :=
  { name := "acl", id := MOD_ID_ACL, enabled := true, log := false,
    init := none, proc := none, conf := none,
    free := some (fun c => (0, { c with acl_ctx := none })) }

/-- The module table after registering `acl_free_module` into an empty table. -/
def acl_free_table : module_table rte_mbuf :=
  MODULE_REGISTER (fun _ => none) acl_free_module

/-- The process callback of the entry of `modules` named at a position of a module-id
sequence, with the position, when the entry is registered, has a `proc` callback and is
enabled: the test `m && m->proc && m->enabled` of `modules_proc`. -/
def proc_entry {M : Type} (modules : module_table M) (e : Nat × Nat) :
    Option (Nat × (config_t → M → Nat → Int × M)) :=
  match modules e.2 with
  | none => none
  | some m => if m.enabled then m.proc.map (fun f => (e.1, f)) else none

/-- The process callbacks that `modules_proc` is to invoke for a module-id sequence:
those of the entries that are registered, have a `proc` callback and are enabled, each
with its position in the sequence (counted from `k`), in sequence order. -/
def proc_due {M : Type} (modules : module_table M) (k : Nat) (s : List Nat) :
    List (Nat × (config_t → M → Nat → Int × M)) :=
  (s.enumFrom k).filterMap (proc_entry modules)

/-- The packet after the process callbacks `fs` were invoked on it one after the other,
each on the packet as the one before left it. -/
def after_procs {M : Type} (config : config_t) (hook : Nat)
    (fs : List (Nat × (config_t → M → Nat → Int × M))) (pkt : M) : M :=
  fs.foldl (fun p e => (e.2 config p hook).2) pkt

/-- A module whose `proc` appends the module's id to a log and accepts. -/
def logging_module (id : Nat) (name : String) : module_t (List Nat) :=
  { name := name, id := id, enabled := true, log := false, init := none,
    proc := some (fun _ log _ => (MOD_RET_ACCEPT, log ++ [id])), conf := none, free := none }

/-- A module whose `proc` appends the module's id to a log and steals the packet. -/
def stealing_module (id : Nat) (name : String) : module_t (List Nat) :=
  { name := name, id := id, enabled := true, log := false, init := none,
    proc := some (fun _ log _ => (MOD_RET_STOLEN, log ++ [id])), conf := none, free := none }

/-- Interface, decoder and ACL modules that log and accept, loaded into an empty
table. -/
def logging_table : module_table (List Nat) :=
  modules_load [logging_module MOD_ID_INTERFACE "interface",
    logging_module MOD_ID_DECODER "decoder", logging_module MOD_ID_ACL "acl"] (fun _ => none)

/-- As `logging_table`, with a decoder that steals. -/
def stealing_table : module_table (List Nat) :=
  modules_load [logging_module MOD_ID_INTERFACE "interface",
    stealing_module MOD_ID_DECODER "decoder", logging_module MOD_ID_ACL "acl"] (fun _ => none)

/-- As `logging_table`, with an ACL module that steals. -/
def late_stealing_table : module_table (List Nat) :=
  modules_load [logging_module MOD_ID_INTERFACE "interface",
    logging_module MOD_ID_DECODER "decoder", stealing_module MOD_ID_ACL "acl"] (fun _ => none)

/-- An `interface.json` port entry of type "vwire" with the given id and pair id. -/
def vwire_port_json (id vwire : Nat) : json_port :=
  { id := some id, type := some "vwire", bus := some "0000:00:00.0",
    mac := some "00:00:00:00:00:00", vwire := some vwire }

/-- Runs `interface_load` on a fresh interface configuration for the given port entries. -/
def load_ports (ports : List json_port) : Int × interface_config_t :=
  interface_load true (some { ports := some ports }) interface_config_zero

/-- Snapshot whose interface configuration is loaded from two virtual-wire ports,
id 1 and id 2, both with pair id 7. -/
def config_pair_1_2 : config_t :=
  { config_a_init with
    itf_cfg := some (load_ports [vwire_port_json 1 7, vwire_port_json 2 7]).2 }

/-- The module table with the interface module registered. -/
def interface_table : module_table rte_mbuf :=
  modules_load [interface true none (fun c => (0, c))] (fun _ => none)

/-- A packet received on port 1, `port_out` still 0. -/
def packet_on_port_1 : rte_mbuf :=
  { priv := some { port_in := 1, port_out := 0, ptype := 0, flags := 0, queue_id := 0,
                   smac := [2, 0, 0, 0, 0, 1], dmac := [2, 0, 0, 0, 0, 2], is_v4 := true,
                   tuple := .v4 { proto := 6, sip := 1, dip := 2, sp := 1024, dp := 80 } },
    freed := false }

/-- Whether a port entry is of virtual-wire type. -/
def is_vwire (p : port_config_t) : Bool := decide (p.type = PORT_TYPE_VWIRE)

/-- The virtual-wire ports of a port table, in table order. -/
def vwire_ports (ports : List port_config_t) : List port_config_t := ports.filter is_vwire

/-- The ports of a list that carry the pair id `v`, in list order. -/
def same_vwire (L : List port_config_t) (v : Nat) : List port_config_t :=
  L.filter (fun p => decide (p.vwire = v))

/-- Virtual-wire pairing is symmetric and total on an interface configuration: every
port `P` of virtual-wire type has a partner, another virtual-wire port `Q` of the table
with the same pair id, such that `interface_vwire_pair` maps `P` to `Q` and `Q` to `P`. -/
def vwire_pairing_ok (itfc : interface_config_t) : Prop :=
  ∀ P ∈ itfc.ports, P.type = PORT_TYPE_VWIRE →
    ∃ Q ∈ itfc.ports, Q.type = PORT_TYPE_VWIRE ∧ Q.id = interface_vwire_pair itfc P.id ∧
      Q.id ≠ P.id ∧ Q.vwire = P.vwire ∧ interface_vwire_pair itfc Q.id = P.id

instance (itfc : interface_config_t) : Decidable (vwire_pairing_ok itfc) := by
  unfold vwire_pairing_ok
  infer_instance

/-- A virtual-wire port entry as `interface_load` stores it. -/
def vwire_port (id vwire : Nat) : port_config_t :=
  { id := id, type := PORT_TYPE_VWIRE, bus := "0000:00:00.0", mac := "00:00:00:00:00:00",
    vwire := vwire }

/-- Interface configuration, as `interface_load` hands it to `interface_vwire_init`,
for the port entries (id 1, pair 7), (id 2, pair 7), (id 1, pair 9), (id 3, pair 9): the
id 1 occurs twice. -/
def itfc_repeated_id : interface_config_t :=
  { ports := [vwire_port 1 7, vwire_port 2 7, vwire_port 1 9, vwire_port 3 9],
    vwire_pairs := none, vwire_pair_num := 2 }

/-- Interface configuration, as `interface_load` hands it to `interface_vwire_init`,
for the port entries (id 1, pair 7), (id 0, pair 7), (id 5, pair 7), (id 6, pair 9):
three ports share the pair id 7, the second of them being port 0. -/
def itfc_three_share : interface_config_t :=
  { ports := [vwire_port 1 7, vwire_port 0 7, vwire_port 5 7, vwire_port 6 9],
    vwire_pairs := none, vwire_pair_num := 2 }

/-- Interface configuration for two pairs, ports 0 and 1 on pair 7 and ports 2 and 3 on
pair 9, as `interface_load` hands it to `interface_vwire_init`. -/
def itfc_two_pairs : interface_config_t :=
  { ports := [vwire_port 0 7, vwire_port 2 9, vwire_port 1 7, vwire_port 3 9],
    vwire_pairs := none, vwire_pair_num := 2 }

/-- A pair slot is in use: its `vwire_id` is not 0. -/
def slot_taken (s : vwire_pair_t) : Bool := decide (s.vwire_id ≠ 0)

/-- A pair slot is in use and two ports of `L` carry its pair id. -/
def slot_full (L : List port_config_t) (s : vwire_pair_t) : Bool :=
  decide (s.vwire_id ≠ 0) && decide ((same_vwire L s.vwire_id).length = 2)

/-- Invariant of the port loop of `interface_vwire_init` after the virtual-wire ports
`L` have been handled, as long as no pair id is carried by more than two of them. -/
structure vwire_inv (L : List port_config_t) (slots : List vwire_pair_t) (pairs : Nat) :
    Prop where
  empty_port2 : ∀ s ∈ slots, s.vwire_id = 0 → s.port2 = 0
  taken_ok : ∀ s ∈ slots, s.vwire_id ≠ 0 →
    (∃ p1, same_vwire L s.vwire_id = [p1] ∧ s.port1 = p1.id ∧ s.port2 = 0) ∨
    (∃ p1 p2, same_vwire L s.vwire_id = [p1, p2] ∧ s.port1 = p1.id ∧ s.port2 = p2.id)
  order : slots.Pairwise
    (fun s t => t.vwire_id ≠ 0 → s.vwire_id ≠ 0 ∧ s.vwire_id ≠ t.vwire_id)
  pairs_eq : pairs = slots.countP (slot_full L)
  count_le : slots.countP slot_taken + pairs ≤ L.length
  bound : slots.countP slot_taken + pairs = L.length →
    ∀ p ∈ L, ∃ s ∈ slots, s.vwire_id ≠ 0 ∧ s.vwire_id = p.vwire
  seen : (∃ s ∈ slots, s.vwire_id = 0) →
    ∀ p ∈ L, p.vwire ≠ 0 → ∃ s ∈ slots, s.vwire_id = p.vwire

/-! ## The ring library (`rte_ring`; its sources are not at hand) -/

/-- The name under which `worker_setup` requests a ring: `worker-rx-queue-<n>` for an
inspection ring, `worker-tx-queue-<p>-<q>` for the transmit ring of port `p`, queue `q`. -/
inductive ring_name where
  | rx (n : Nat)
  | tx (p q : Nat)
deriving DecidableEq, Repr

/-- Modelled from the spec: the ring queues, bounded FIFOs of packet buffers. A ring is
known by a handle (the pointer `rte_ring_create` returned). `create_ok n` tells whether
the `n`-th creation request of the run succeeds, `requests` lists the names requested
so far, `live` the handles of the rings that exist, `queue` their contents, and
`capacity` is the bound on the length of a ring. -/
structure ring_env where
  create_ok : Nat → Bool
  capacity : Nat
  requests : List ring_name
  live : List Nat
  queue : Nat → List rte_mbuf

/-- Modelled from the spec: `rte_ring_create`, which yields the pointer to a new, empty
ring, different from every pointer handed out before, or `NULL` when the creation
fails. -/
def rte_ring_create (env : ring_env) (name : ring_name) : Option Nat × ring_env :=
  let n := env.requests.length
  if env.create_ok n then
    (some (n + 1),
      { env with requests := env.requests ++ [name], live := env.live ++ [n + 1],
                 queue := Function.update env.queue (n + 1) [] })
  else (none, { env with requests := env.requests ++ [name] })

/-- Modelled from the spec: `rte_ring_free`, which releases a ring. -/
def rte_ring_free (env : ring_env) (r : Nat) : ring_env :=
  { env with live := env.live.erase r }

/-- Modelled from the spec: `rte_ring_enqueue`, the bounded push of one buffer: 0 on
success, `-ENOBUFS` when the ring is full. The operation works on an existing ring;
the library does not test its pointer argument, so with `NULL` or a released ring the
behaviour is undefined (`none`). -/
def rte_ring_enqueue (env : ring_env) (r : Option Nat) (obj : rte_mbuf) :
    Option (Int × ring_env) :=
  match r with
  | none => none
  | some h =>
    if h ∈ env.live then
      if (env.queue h).length < env.capacity then
        some (0, { env with queue := Function.update env.queue h (env.queue h ++ [obj]) })
      else some (-105, env)
    else none

/-- Modelled from the spec: `rte_ring_enqueue_bulk`, the bounded push of several buffers,
all or none: the number of buffers pushed. Undefined on `NULL` or a released ring. -/
def rte_ring_enqueue_bulk (env : ring_env) (r : Option Nat) (objs : List rte_mbuf) :
    Option (Nat × ring_env) :=
  match r with
  | none => none
  | some h =>
    if h ∈ env.live then
      if (env.queue h).length + objs.length ≤ env.capacity then
        some (objs.length,
          { env with queue := Function.update env.queue h (env.queue h ++ objs) })
      else some (0, env)
    else none

/-- Modelled from the spec: `rte_ring_dequeue`, the non-blocking pop: status 0 and the
oldest buffer, or `-ENOENT` and no buffer when the ring is empty. Undefined on `NULL`
or a released ring. -/
def rte_ring_dequeue (env : ring_env) (r : Option Nat) :
    Option (Int × Option rte_mbuf × ring_env) :=
  match r with
  | none => none
  | some h =>
    if h ∈ env.live then
      match env.queue h with
      | [] => some (-2, none, env)
      | obj :: rest => some (0, some obj, { env with queue := Function.update env.queue h rest })
    else none

/-! ## `module.c` with the hook tables as parameters

`hooks` and `hook_size` are (non-constant) global arrays; the definitions below take
their contents as arguments, and with them what lies behind each hook array. -/

/-- Embeds `modules_proc` (`module.c` lines 124-145) for given contents of the global
arrays `hooks` and `hook_size` and of the memory behind the hook arrays: `over hook` is
what the read one past the end of `hooks[hook]` yields (`none` when nothing can be read
there). -/
def modules_proc_with {M : Type} (hooks_tbl : List (List Nat)) (size_tbl : List Nat)
    (over : Nat → Option Nat) (modules : module_table M) (config : config_t) (pkt : M)
    (hook : Nat) : Option (Int × M) :=
  match hooks_tbl[hook]?, size_tbl[hook]? with
  | some s, some n =>
    match modules_proc_loop modules config hook (over hook) (s.take n) pkt with
    | (some ret, pkt1) => some (ret, pkt1)
    | (none, _) => none
  | _, _ => none

/-! ## `worker.c`: `WORKER` -/

/-- The entry `tx_queues[p][q]` of a snapshot: the ring pointer stored there, or `none`
when the indices are outside the array. -/
def tx_queue_at (config : config_t) (p q : Nat) : Option (Option Nat) :=
  match config.tx_queues[p]? with
  | none => none
  | some row => row[q]?

/-- The loop of `WORKER` over the hooks (lines 344-348) for an arbitrary dispatch
function in the place of `modules_proc(config, ., .)`: besides what `WORKER_hooks`
returns, the list of the hooks dispatched with the value each call returned. -/
def WORKER_hooks_with {M : Type} (dispatch : M → Nat → Option (Int × M)) :
    List Nat → M → Option (Bool × M × List (Nat × Int))
  | [], mbuf => some (false, mbuf, [])
  | hook :: rest, mbuf =>
    match dispatch mbuf hook with
    | none => none
    | some r =>
      if r.1 ≠ 0 then some (true, r.2, [(hook, r.1)])
      else
        match WORKER_hooks_with dispatch rest r.2 with
        | none => none
        | some t => some (t.1, t.2.1, (hook, r.1) :: t.2.2)

/-- What one call of `WORKER` leaves behind: its return value, the rings, the buffer it
popped (in its final state; `none` when there was nothing to pop), and the hooks it
dispatched with the value `modules_proc` returned for each. -/
structure worker_result where
  ret : Int
  rings : ring_env
  mbuf : Option rte_mbuf
  dispatched : List (Nat × Int)

/-- Lines 350-364 of `WORKER`: forward a buffer that passed every hook. The result is
the return value, the rings and the buffer. -/
def WORKER_forward (config : config_t) (rings : ring_env) (mbuf : rte_mbuf) :
    Option (Int × ring_env × rte_mbuf) :=
  match mbuf.priv with
  | none => some (-1, rings, { mbuf with freed := true })
  | some p =>
    match tx_queue_at config p.port_out p.queue_id with
    | none => none
    | some ring =>
      match rte_ring_enqueue rings ring mbuf with
      | none => none
      | some r =>
        if r.1 ≠ 0 then some (-1, r.2, { mbuf with freed := true })
        else some (0, r.2, mbuf)

/-- The worker descriptor `(worker_t *)config->workers + config->worker_map[lcore]`;
`none` when a pointer is `NULL` or an index is outside its array. -/
def worker_of (config : config_t) (lcore : Nat) : Option worker_t :=
  match config.workers, config.worker_map[lcore]? with
  | some ws, some idx => if 0 ≤ idx then ws[idx.toNat]? else none
  | _, _ => none

/-- Embeds `WORKER` (`worker.c` lines 332-365) on the lcore `lcore`, with `dispatch` in the
place of `modules_proc(config, ., .)`. `none` is undefined behaviour. -/
def WORKER_with (dispatch : rte_mbuf → Nat → Option (Int × rte_mbuf)) (config : config_t)
    (lcore : Nat) (rings : ring_env) : Option worker_result :=
  match worker_of config lcore with
  | none => none
  | some worker =>
    match rte_ring_dequeue rings worker.work_queue with
    | none => none
    | some (_, none, rings1) =>
      some { ret := 0, rings := rings1, mbuf := none, dispatched := [] }
    | some (ret, some mbuf, rings1) =>
      if ret ≠ 0 then some { ret := 0, rings := rings1, mbuf := none, dispatched := [] }
      else
        match WORKER_hooks_with dispatch WORKER_hook_range mbuf with
        | none => none
        | some (true, mbuf1, tr) =>
          some { ret := 0, rings := rings1, mbuf := some mbuf1, dispatched := tr }
        | some (false, mbuf1, tr) =>
          match WORKER_forward config rings1 mbuf1 with
          | none => none
          | some f => some { ret := f.1, rings := f.2.1, mbuf := some f.2.2, dispatched := tr }

/-- Embeds `WORKER` with the module table and the hook tables compiled in. -/
def WORKER (modules : module_table rte_mbuf) (config : config_t) (lcore : Nat)
    (rings : ring_env) : Option worker_result :=
  WORKER_with (modules_proc modules config) config lcore rings
/-! ## `worker.c`: `RX` -/

/-- The entry `worker->ports[i]` of the `MAX_PORT_NUM`-entry array: the value stored, 0
behind the entries that were filled in, `none` outside the array. -/
def worker_port (w : worker_t) (i : Nat) : Option Nat :=
  if i < MAX_PORT_NUM then some (w.ports.getD i 0) else none

/-- The entry `worker->queues[j]` of the `MAX_QUEUE_NUM`-entry array. -/
def worker_queue (w : worker_t) (j : Nat) : Option Nat :=
  if j < MAX_QUEUE_NUM then some (w.queues.getD j 0) else none

/-- State threaded through `RX`: the rings and the receive bursts requested so far, as
(port, queue) pairs in the order of the requests. -/
structure rx_state where
  rings : ring_env
  bursts : List (Nat × Nat)

/-- The stamping of a received buffer (`RX` lines 277-281). -/
def rx_stamp (port_id queue_id : Nat) (m : rte_mbuf) : rte_mbuf :=
  { m with priv := m.priv.map (fun p => { p with port_in := port_id, queue_id := queue_id }) }

/-- The inner loop of `RX` (lines 270-288) from `j` on, `n` iterations being left, with the
current value of `i`; it returns the value of `i` at its end, since the stamping loop
(line 276) counts with the same variable `i` and leaves `nb_rx` in it. `rx_burst n p q`
is what the `n`-th call of `rte_eth_rx_burst` of the run returns for port `p`, queue `q`;
a push that finds the ring full is retried for ever (`none`, as nothing else runs). -/
def RX_queues (rx_burst : Nat → Nat → Nat → List rte_mbuf) (config : config_t) (w : worker_t) :
    Nat → Nat → Nat → rx_state → Option (Nat × rx_state)
  | 0, _, i, st => some (i, st)
  | n + 1, j, i, st =>
    match worker_port w i, worker_queue w j with
    | some port_id, some queue_id =>
      let pkts := (rx_burst st.bursts.length port_id queue_id).take MAX_PKT_BURST
      let st1 : rx_state := { st with bursts := st.bursts ++ [(port_id, queue_id)] }
      if pkts.length ≠ 0 then
        if config.rxq_num = 0 then none
        else
          match config.rx_queues[(((queue_id : Int) % config.rxq_num).toNat)]? with
          | none => none
          | some ring =>
            match rte_ring_enqueue_bulk st1.rings ring (pkts.map (rx_stamp port_id queue_id)) with
            | none => none
            | some r =>
              if r.1 = 0 then none
              else RX_queues rx_burst config w n (j + 1) pkts.length { st1 with rings := r.2 }
      else RX_queues rx_burst config w n (j + 1) i st1
    | _, _ => none

/-- The outer loop of `RX` (line 269) from the current value of `i`; `fuel` bounds the
number of its iterations, which the reuse of `i` leaves unbounded. -/
def RX_ports (rx_burst : Nat → Nat → Nat → List rte_mbuf) (config : config_t) (w : worker_t) :
    Nat → Nat → rx_state → Option rx_state
  | 0, _, _ => none
  | fuel + 1, i, st =>
    if i < w.port_num then
      match RX_queues rx_burst config w w.queue_num 0 i st with
      | none => none
      | some r => RX_ports rx_burst config w fuel (r.1 + 1) r.2
    else some st

/-- Embeds `RX` (`worker.c` lines 261-291) on the lcore `lcore`. -/
def RX (rx_burst : Nat → Nat → Nat → List rte_mbuf) (config : config_t) (lcore : Nat)
    (fuel : Nat) (st : rx_state) : Option rx_state :=
  match worker_of config lcore with
  | none => none
  | some w => RX_ports rx_burst config w fuel 0 st

/-! ## `worker.c`: `worker_load`, `worker_setup`, `worker_init` -/

/-- Whether a byte is white space for `isspace`. -/
def c_isspace (c : Char) : Bool :=
  c.toNat = 32 || (9 ≤ c.toNat && c.toNat ≤ 13)

/-- The digits of `atoi`: accumulate decimal digits up to the first other byte. -/
def atoi_digits : List Char → Int → Int
  | [], acc => acc
  | c :: cs, acc =>
    if 48 ≤ c.toNat ∧ c.toNat ≤ 57 then atoi_digits cs (acc * 10 + ((c.toNat : Int) - 48))
    else acc

/-- The C library function `atoi`: optional white space, an optional sign, decimal
digits (values within the range of `int`). -/
def atoi (s : List Char) : Int :=
  match s.dropWhile c_isspace with
  | [] => 0
  | c :: cs =>
    if c.toNat = 45 then - atoi_digits cs 0
    else if c.toNat = 43 then atoi_digits cs 0
    else atoi_digits (c :: cs) 0

/-- The fields of a string between its commas, as the `strchr` loop of
`worker_split_port_by_comma` cuts them. -/
def comma_fields : List Char → List (List Char)
  | [] => [[]]
  | c :: cs =>
    if c.toNat = 44 then [] :: comma_fields cs
    else
      match comma_fields cs with
      | [] => [[c]]
      | f :: fs => (c :: f) :: fs

/-- Embeds `worker_split_port_by_comma` (lines 15-43): the values it stores in
`ports[0 ..]`, each an `atoi` result converted to `uint16_t`; its return value is the
number of them. -/
def worker_split_port_by_comma (str : String) (max : Nat) : List Nat :=
  if str.utf8ByteSize ≥ 512 then []
  else ((comma_fields str.toList).take max).map (fun f => (atoi f % 65536).toNat)

/-- Embeds `worker_split_queue_by_comma` (lines 45-47). -/
def worker_split_queue_by_comma (str : String) (max : Nat) : List Nat :=
  worker_split_port_by_comma str max

/-- One entry of the `lcores` array of `worker.json` as the JSON accessors see it; an
absent field makes `JV` return `NULL` (`none`). -/
structure json_lcore where
  lcore_id : Option Int
  role : Option String
  ports : Option String
  queues : Option String
deriving DecidableEq, Repr

/-- The root object of `worker.json`; `lcores = none` when `JA` finds no array. -/
structure json_worker_root where
  lcores : Option (List json_lcore)
deriving DecidableEq, Repr

/-- The role named by the `role` string (lines 92-106). -/
def role_of_string (s : String) : role_t :=
  if s = "RX" then .ROLE_RX
  else if s = "TX" then .ROLE_TX
  else if s = "RTX" then .ROLE_RTX
  else if s = "WORKER" then .ROLE_WORKER
  else if s = "RTX_WORKER" then .ROLE_RTX_WORKER
  else if s = "MGMT" then .ROLE_MGMT
  else .ROLE_NONE

/-- The roles for which `worker_load` reads the `ports` and `queues` fields (lines
108-111), the same for which `worker_setup` creates transmit rings (lines 180-183). -/
def role_owns_queues (r : role_t) : Bool :=
  decide (r = .ROLE_RX) || decide (r = .ROLE_TX) || decide (r = .ROLE_RTX) ||
    decide (r = .ROLE_RTX_WORKER)

/-- The loop of `worker_load` (lines 83-131) over the entries from index `i` on, with
the `worker_map` array and the workers filled in so far: status 0 or -1 with the two,
or `none` when `worker_map[lcore_id]` is written outside the array. -/
def worker_load_entries : List json_lcore → Nat → List Int → List worker_t →
    Option (Int × List Int × List worker_t)
  | [], _, map, ws => some (0, map, ws)
  | jo :: rest, i, map, ws =>
    match jo.lcore_id, jo.role with
    | some lcore_id, some role_str =>
      let role := role_of_string role_str
      let w0 : worker_t :=
        { lcore_id := lcore_id, role := role, ports := [], queues := [], port_num := 0,
          queue_num := 0, work_queue := none }
      let store (w : worker_t) : Option (Int × List Int × List worker_t) :=
        if 0 ≤ lcore_id ∧ lcore_id < MAX_WORKER_NUM then
          worker_load_entries rest (i + 1) (map.set lcore_id.toNat (i : Int)) (ws ++ [w])
        else none
      if role_owns_queues role then
        match jo.ports with
        | none => some (-1, map, ws)
        | some ports_str =>
          let ports := worker_split_port_by_comma ports_str MAX_PORT_NUM
          if ports.length = 0 then some (-1, map, ws)
          else
            match jo.queues with
            | none => some (-1, map, ws)
            | some queues_str =>
              let queues := worker_split_queue_by_comma queues_str MAX_QUEUE_NUM
              if queues.length = 0 then some (-1, map, ws)
              else
                store { w0 with ports := ports, port_num := ports.length, queues := queues,
                                queue_num := queues.length }
      else store w0
    | _, _ => some (-1, map, ws)

/-- Embeds `worker_load` (lines 49-152). `jr` is what `JR(CONFIG_PATH, "worker.json")`
returns, `malloc_ok` whether the worker table can be allocated. -/
def worker_load (malloc_ok : Bool) (jr : Option json_worker_root) (config : config_t) :
    Option (Int × config_t) :=
  if config.workers.isSome then some (-1, config)
  else
    match jr with
    | none => some (-1, config)
    | some root =>
      match root.lcores with
      | none => some (-1, config)
      | some ja =>
        if malloc_ok then
          match worker_load_entries ja 0 config.worker_map [] with
          | none => none
          | some r =>
            if r.1 ≠ 0 then some (-1, { config with worker_map := r.2.1 })
            else
              some (0, { config with worker_map := r.2.1, workers := some r.2.2,
                                     worker_num := ja.length })
        else some (-1, config)

/-- State of `worker_setup`: the snapshot, the rings, the counters `rxq` and `txq`. -/
structure setup_state where
  config : config_t
  rings : ring_env
  rxq : Nat
  txq : Nat

/-- How a part of `worker_setup` ends: with undefined behaviour (an array index out of
range), at `goto done` after a failed ring creation, or normally. -/
inductive setup_step where
  | undefined
  | failed (s : setup_state)
  | next (s : setup_state)

/-- Lines 164-177 of `worker_setup` for the worker `w`: the state after them and the
worker with its `work_queue`. -/
def setup_rx (w : worker_t) (s : setup_state) : setup_step × worker_t :=
  if w.role = .ROLE_WORKER ∨ w.role = .ROLE_RTX_WORKER then
    match s.config.rx_queues[s.rxq]? with
    | none => (.undefined, w)
    | some (some _) => (.next s, w)
    | some none =>
      match rte_ring_create s.rings (.rx s.rxq) with
      | (none, rings) => (.failed { s with rings := rings }, w)
      | (some h, rings) =>
        let c1 : config_t := { s.config with rx_queues := s.config.rx_queues.set s.rxq (some h) }
        (.next { s with rings := rings, rxq := s.rxq + 1, config := c1 },
         { w with work_queue := some h })
  else (.next s, w)

/-- The (port, queue) pairs the two nested loops of lines 185-186 visit for a worker, in
the order of the visits. -/
def worker_pairs (w : worker_t) : List (Nat × Nat) :=
  (List.range w.port_num).flatMap (fun j =>
    (List.range w.queue_num).map (fun k => (w.ports.getD j 0, w.queues.getD k 0)))

/-- Lines 187-199 of `worker_setup` for the pairs still to visit. -/
def setup_tx : List (Nat × Nat) → setup_state → setup_step
  | [], s => .next s
  | (p, q) :: rest, s =>
    match tx_queue_at s.config p q with
    | none => .undefined
    | some (some _) => setup_tx rest s
    | some none =>
      match rte_ring_create s.rings (.tx p q) with
      | (none, rings) => .failed { s with rings := rings }
      | (some h, rings) =>
        let row := (s.config.tx_queues.getD p []).set q (some h)
        let c1 : config_t := { s.config with tx_queues := s.config.tx_queues.set p row }
        setup_tx rest
          { s with rings := rings, txq := if s.txq < q then q else s.txq, config := c1 }

/-- The loop of `worker_setup` over the workers (lines 160-203): the workers still to
visit, the state, the workers visited (with their `work_queue`). -/
def setup_workers : List worker_t → setup_state → List worker_t → setup_step × List worker_t
  | [], s, visited => (.next s, visited)
  | w :: rest, s, visited =>
    match setup_rx w s with
    | (.undefined, _) => (.undefined, visited ++ w :: rest)
    | (.failed s1, w1) => (.failed s1, visited ++ w1 :: rest)
    | (.next s1, w1) =>
      if role_owns_queues w1.role then
        match setup_tx (worker_pairs w1) s1 with
        | .undefined => (.undefined, visited ++ w1 :: rest)
        | .failed s2 => (.failed s2, visited ++ w1 :: rest)
        | .next s2 => setup_workers rest s2 (visited ++ [w1])
      else setup_workers rest s1 (visited ++ [w1])

/-- The first clean-up loop of `worker_setup` (lines 211-216) over the indices given. -/
def cleanup_rx : List Nat → config_t → ring_env → Option (config_t × ring_env)
  | [], config, rings => some (config, rings)
  | i :: rest, config, rings =>
    match config.rx_queues[i]? with
    | none => none
    | some none => cleanup_rx rest config rings
    | some (some h) =>
      cleanup_rx rest { config with rx_queues := config.rx_queues.set i none }
        (rte_ring_free rings h)

/-- The second clean-up loop of `worker_setup` (lines 218-225) over the index pairs
given. -/
def cleanup_tx : List (Nat × Nat) → config_t → ring_env → Option (config_t × ring_env)
  | [], config, rings => some (config, rings)
  | (i, j) :: rest, config, rings =>
    match tx_queue_at config i j with
    | none => none
    | some none => cleanup_tx rest config rings
    | some (some h) =>
      let row := (config.tx_queues.getD i []).set j none
      cleanup_tx rest { config with tx_queues := config.tx_queues.set i row }
        (rte_ring_free rings h)

/-- Embeds `worker_setup` (lines 154-229): return value, snapshot and rings; `none` is
undefined behaviour. The worker table is the array `config->workers` of `worker_num`
entries. -/
def worker_setup (config : config_t) (rings : ring_env) : Option (Int × config_t × ring_env) :=
  match config.workers with
  | none => if config.worker_num ≤ 0 then
      some (0, { config with rxq_num := 0, txq_num := 1 }, rings) else none
  | some ws =>
    if config.worker_num.toNat ≤ ws.length then
      match setup_workers (ws.take config.worker_num.toNat)
          { config := config, rings := rings, rxq := 0, txq := 0 } [] with
      | (.undefined, _) => none
      | (.next s, visited) =>
        some (0, { s.config with workers := some (visited ++ ws.drop config.worker_num.toNat),
                                 rxq_num := s.rxq, txq_num := (s.txq : Int) + 1 }, s.rings)
      | (.failed s, visited) =>
        let c1 : config_t :=
          { s.config with workers := some (visited ++ ws.drop config.worker_num.toNat) }
        match cleanup_rx (List.range c1.rxq_num.toNat) c1 s.rings with
        | none => none
        | some r1 =>
          match cleanup_tx
              ((List.range r1.1.port_num.toNat).flatMap (fun i =>
                (List.range r1.1.txq_num.toNat).map (fun j => (i, j)))) r1.1 r1.2 with
          | none => none
          | some r2 => some (-1, r2.1, r2.2)
    else none

/-- Embeds `worker_init` (lines 231-259). -/
def worker_init (malloc_ok : Bool) (jr : Option json_worker_root) (config : config_t)
    (rings : ring_env) : Option (Int × config_t × ring_env) :=
  if config.workers.isSome then some (-1, config, rings)
  else
    match worker_load malloc_ok jr config with
    | none => none
    | some l =>
      if l.1 ≠ 0 then some (l.1, { l.2 with workers := none }, rings)
      else
        match worker_setup l.2 rings with
        | none => none
        | some r =>
          if r.1 ≠ 0 then some (r.1, { r.2.1 with workers := none }, r.2.2)
          else some (r.1, r.2.1, r.2.2)

/-- A packet received on port 2, `port_out` still 0. -/
def packet_on_port_2 : rte_mbuf :=
  { priv := some { port_in := 2, port_out := 0, ptype := 0, flags := 0, queue_id := 0,
                   smac := [2, 0, 0, 0, 0, 2], dmac := [2, 0, 0, 0, 0, 1], is_v4 := true,
                   tuple := .v4 { proto := 6, sip := 2, dip := 1, sp := 80, dp := 1024 } },
    freed := false }

/-- A hook table with one entry for each of the nine hook points of `mod_hook_t`, the
sequences of `module.c` standing at the index of the hook they are named after. -/
def hooks_by_hook : List (List Nat) :=
  [[ MOD_ID_NONE], hook_ingress, hook_prerouting, hook_forward, hook_postrouting,
   hook_localin, hook_localout, hook_egress, [ MOD_ID_NONE]]

/-- The sizes of the sequences of `hooks_by_hook`. -/
def hook_size_by_hook : List Nat := hooks_by_hook.map List.length

/-- Rings at start-up: none requested, none alive, every creation request succeeding,
1023 buffers to a ring. -/
def rings_initial : ring_env :=
  { create_ok := fun _ => true, capacity := 1023, requests := [], live := [],
    queue := fun _ => [] }

/-- An `interface.json` port entry of a type other than "vwire". -/
def plain_port_json (id : Nat) : json_port :=
  { id := some id, type := some "none", bus := some "0000:00:00.0",
    mac := some "00:00:00:00:00:00", vwire := some 0 }

/-- A `worker.json` entry with every field that is given. -/
def lcore_json (lcore_id : Int) (role : String) (ports queues : Option String) : json_lcore :=
  { lcore_id := some lcore_id, role := some role, ports := ports, queues := queues }

/-- Set-up of a snapshot with two ports, 0 and 1, neither of virtual-wire type, an
`RTX` worker on lcore 1 owning both ports with queue 0, and a `WORKER` on lcore 2:
what `worker_init` returns at start-up, the interface configuration loaded into the
snapshot. -/
def plain_setup : Option (Int × config_t × ring_env) :=
  (worker_init true
    (some { lcores := some [lcore_json 1 "RTX" (some "0,1") (some "0"),
                            lcore_json 2 "WORKER" none none] })
    config_a_init rings_initial).map
    (fun r => (r.1,
      { r.2.1 with itf_cfg := some (load_ports [plain_port_json 0, plain_port_json 1]).2 },
      r.2.2))

/-- A buffer as the pool hands it out again: the metadata of an earlier packet on port
0 still in it. -/
def stale_buffer : rte_mbuf :=
  { priv := some { port_in := 0, port_out := 0, ptype := 0, flags := 0, queue_id := 0,
                   smac := [2, 0, 0, 0, 0, 1], dmac := [2, 0, 0, 0, 0, 2], is_v4 := true,
                   tuple := .v4 { proto := 6, sip := 1, dip := 2, sp := 1024, dp := 80 } },
    freed := false }

/-- A port driver on which the only packet is received by the first burst on port 1,
queue 0, in the buffer `stale_buffer`. -/
def one_packet_on_port_1 (_n : Nat) (p q : Nat) : List rte_mbuf :=
  if p = 1 ∧ q = 0 then [stale_buffer] else []

/-- The run of C12: after `plain_setup`, `RX` on lcore 1 receives the packet of
`one_packet_on_port_1`, then `WORKER` on lcore 2 handles it with the given dispatch
function. The result is `WORKER`'s return value with the contents of the transmit
rings of (port 0, queue 0) and (port 1, queue 0). -/
def plain_run (dispatch : config_t → rte_mbuf → Nat → Option (Int × rte_mbuf)) :
    Option (Int × List rte_mbuf × List rte_mbuf) :=
  match plain_setup with
  | none => none
  | some s =>
    match RX (fun n p q => if n = 1 then one_packet_on_port_1 n p q else []) s.2.1 1 8
        { rings := s.2.2, bursts := [] } with
    | none => none
    | some st =>
      match WORKER_with (dispatch s.2.1) s.2.1 2 st.rings with
      | none => none
      | some res =>
        match tx_queue_at s.2.1 0 0, tx_queue_at s.2.1 1 0 with
        | some (some h0), some (some h1) => some (res.ret, res.rings.queue h0, res.rings.queue h1)
        | _, _ => none

/-- A dispatch function that accepts at every hook and leaves the buffer alone. -/
def accept_everywhere (m : rte_mbuf) (_hook : Nat) : Option (Int × rte_mbuf) :=
  some (MOD_RET_ACCEPT, m)

/-- The snapshot that `plain_setup` builds. -/
def plain_config : config_t := (plain_setup.map (fun s => s.2.1)).getD config_a_init

/-- The rings that `plain_setup` builds: the transmit rings 1 of (port 0, queue 0) and 2
of (port 1, queue 0), the inspection ring 3. -/
def plain_rings : ring_env := (plain_setup.map (fun s => s.2.2)).getD rings_initial

/-- A buffer whose metadata names the destination port 0, queue 1. -/
def buffer_for_queue_1 : rte_mbuf :=
  { priv := some { port_in := 1, port_out := 0, ptype := 0, flags := 0, queue_id := 1,
                   smac := [2, 0, 0, 0, 0, 1], dmac := [2, 0, 0, 0, 0, 2], is_v4 := true,
                   tuple := .v4 { proto := 6, sip := 1, dip := 2, sp := 1024, dp := 80 } },
    freed := false }

/-- The rings of `plain_setup` with `buffer_for_queue_1` waiting in the inspection
ring. -/
def plain_rings_queue_1 : ring_env :=
  { plain_rings with queue := Function.update plain_rings.queue 3 [buffer_for_queue_1] }

/-- A buffer without metadata: `rte_mbuf_to_priv` yields `NULL`. -/
def buffer_without_priv : rte_mbuf := { priv := none, freed := false }

/-- A port driver whose first burst of the run returns two packets and every later one
none. -/
def two_packets_first (n : Nat) (_p _q : Nat) : List rte_mbuf :=
  if n = 0 then [stale_buffer, stale_buffer] else []

/-- A port driver that never returns a packet. -/
def no_packets (_n _p _q : Nat) : List rte_mbuf := []

/-- A `worker.json` whose `lcores` array is the given list of entries. -/
def worker_json (entries : List json_lcore) : Option json_worker_root :=
  some { lcores := some entries }

/-- Rings at start-up when only the first creation request of the run succeeds. -/
def rings_one_creation : ring_env :=
  { rings_initial with create_ok := fun n => decide (n = 0) }

/-- Whether the entry `tx_queues[p][q]` of a snapshot holds a ring. -/
def tx_has (config : config_t) (p q : Nat) : Bool :=
  match tx_queue_at config p q with
  | some (some _) => true
  | _ => false

/-- Whether a worker has the role `WORKER` or `RTX_WORKER`. -/
def inspects (w : worker_t) : Bool :=
  decide (w.role = .ROLE_WORKER) || decide (w.role = .ROLE_RTX_WORKER)

/-- Whether a snapshot holds no ring: every entry of `rx_queues` and of `tx_queues` is
`NULL`. -/
def no_rings (config : config_t) : Bool :=
  config.rx_queues.all Option.isNone &&
    config.tx_queues.all (fun row => row.all Option.isNone)

/-- A worker entry with its `work_queue` field cleared: two entries that agree up to
`work_queue` have the same image. -/
def without_queue (w : worker_t) : worker_t := { w with work_queue := none }

/-- The snapshot that `worker_load` builds at start-up from a `worker.json` with an
`RTX` worker on lcore 1 (ports 0 and 1, queue 0), an `RTX_WORKER` on lcore 2 (port 1,
queues 0 and 1) and a `WORKER` on lcore 3: the pair (port 1, queue 0) is referenced by
two workers. -/
def shared_pair_config : config_t :=
  ((worker_load true
    (worker_json [lcore_json 1 "RTX" (some "0,1") (some "0"),
                  lcore_json 2 "RTX_WORKER" (some "1") (some "0,1"),
                  lcore_json 3 "WORKER" none none])
    config_a_init).map (fun r => r.2)).getD config_a_init

/-- The selected callback of the entry `modules[id]`, with the id, when the entry is
registered, has the callback and is enabled: the test `m && m->init && m->enabled` of
the loop body. -/
def callback_entry {M : Type} (modules : module_table M)
    (cb : module_t M → Option (config_t → Int × config_t)) (id : Nat) :
    Option (Nat × (config_t → Int × config_t)) :=
  match modules id with
  | none => none
  | some m => if m.enabled then (cb m).map (fun f => (id, f)) else none

/-- The callbacks that the `MODULE_FOREACH` loop of `modules_init`, `modules_conf` and
`modules_free` is to invoke over the ids `ids`: the selected callback of every entry that
is registered, has the callback and is enabled, each with its id, in the order of
`ids`. -/
def due_callbacks {M : Type} (modules : module_table M)
    (cb : module_t M → Option (config_t → Int × config_t)) (ids : List Nat) :
    List (Nat × (config_t → Int × config_t)) :=
  ids.filterMap (callback_entry modules cb)

/-- The snapshot after the callbacks `fs` were invoked on it one after the other, each on
the snapshot as the one before left it. -/
def after_calls (fs : List (Nat × (config_t → Int × config_t))) (config : config_t) :
    config_t :=
  fs.foldl (fun c e => (e.2 c).2) config

/-- Whether the entry `modules[id]` is registered, has the selected callback and is
enabled: the test `m && m->init && m->enabled` of the loop body. -/
def callback_due {M : Type} (modules : module_table M)
    (cb : module_t M → Option (config_t → Int × config_t)) (id : Nat) : Bool :=
  match modules id with
  | none => false
  | some m => (cb m).isSome && m.enabled

/-- A module whose `conf` callback returns `status` and appends the decimal digit `id`
to the field `cli_sockfd` of the snapshot, which so records the callbacks invoked. -/
def conf_module (id : Nat) (name : String) (status : Int) : module_t rte_mbuf :=
  { name := name, id := id, enabled := true, log := false, init := none, proc := none,
    conf := some (fun c => (status, { c with cli_sockfd := c.cli_sockfd * 10 + id })),
    free := none }

/-- Interface, decoder and ACL modules with a `conf` callback, that of the decoder
failing with status 5, loaded into an empty table. -/
def conf_table : module_table rte_mbuf :=
  modules_load [conf_module MOD_ID_INTERFACE "interface" 0,
    conf_module MOD_ID_DECODER "decoder" 5, conf_module MOD_ID_ACL "acl" 0] (fun _ => none)

/-- The set-up at start-up from a `worker.json` with a single `RTX` worker on lcore 1
owning port 0 with queue 0, and no inspection worker: what `worker_init` returns. -/
def receive_only_setup : Option (Int × config_t × ring_env) :=
  worker_init true (worker_json [lcore_json 1 "RTX" (some "0") (some "0")])
    config_a_init rings_initial

/-- The comma-separated fields of a string as the spec names them: the string split at
every comma. -/
def comma_separated_fields (s : String) : List (List Char) := s.toList.splitOn ','

/-! ## `drivers/net/ntnic/nthw/flow_api/flow_api.c`: the resource pools -/

/-- Largest value of a `uint32_t`, `(uint32_t)-1`. -/
def UINT32_MAX : Nat := 4294967295

/-- Subtraction of two `unsigned int` values, modulo 2^32. -/
def u32_sub (a b : Nat) : Nat := (a % 4294967296 + 4294967296 - b % 4294967296) % 4294967296

/-- Addition of two `unsigned int` values, modulo 2^32. -/
def u32_add (a b : Nat) : Nat := (a + b) % 4294967296

/-- Modelled from the spec: one resource pool `ndev->res[res_type]` of
`struct flow_nic_dev` (`flow_api.h`, not part of the sources at hand): fixed-capacity
arrays of slots with the used/free bitmap `alloc_bm`, one bit per slot, the reference
counts `ref`, one `uint32_t` per slot, and the number of slots `resource_count`, a
`uint32_t` as `init_resource_elements` assigns it. -/
structure flow_nic_res where
  alloc_bm : List Bool
  ref : List Nat
  resource_count : Nat
deriving DecidableEq, Repr

/-- How a call on a resource pool ends: a slot outside `0 .. resource_count - 1` is read
or written (undefined behaviour, with the index of the slot), an assertion fails, the
loop has not ended within the bound on its iterations, or the call returns a value and
leaves the pool in a state. -/
inductive res_result where
  | outside (slot : Int)
  | aborted
  | running
  | ret (r : Int) (res : flow_nic_res)
deriving DecidableEq, Repr

/-- Modelled from the spec: `flow_nic_is_resource_used` of `flow_api.h`, the used bit
of a slot; `none` for a slot outside the pool. -/
def flow_nic_is_resource_used (res : flow_nic_res) (index : Nat) : Option Bool :=
  if index < res.resource_count then some (res.alloc_bm.getD index false) else none

/-- Modelled from the spec: `flow_nic_mark_resource_used` of `flow_api.h`, which sets
the used bit of a slot; `none` for a slot outside the pool. -/
def flow_nic_mark_resource_used (res : flow_nic_res) (index : Nat) : Option flow_nic_res :=
  if index < res.resource_count then
    some { res with alloc_bm := res.alloc_bm.set index true }
  else none

/-- Modelled from the spec: `flow_nic_mark_resource_unused` of `flow_api.h`, which
clears the used bit of a slot; `none` for a slot outside the pool. -/
def flow_nic_mark_resource_unused (res : flow_nic_res) (index : Nat) : Option flow_nic_res :=
  if index < res.resource_count then
    some { res with alloc_bm := res.alloc_bm.set index false }
  else none

/-- The read of `ndev->res[res_type].ref[index]`; `none` outside the array. -/
def res_ref_get (res : flow_nic_res) (index : Nat) : Option Nat :=
  if index < res.resource_count then some (res.ref.getD index 0) else none

/-- The write `ndev->res[res_type].ref[index] = v`; `none` outside the array. -/
def res_ref_set (res : flow_nic_res) (index : Nat) (v : Nat) : Option flow_nic_res :=
  if index < res.resource_count then some { res with ref := res.ref.set index v } else none

/-- The lines 105-106 and 131-132: mark a slot used and set its reference count to 1.
The result is the pool, or the index of the slot when it lies outside the pool. -/
def res_take (res : flow_nic_res) (index : Nat) : Sum Int flow_nic_res :=
  match flow_nic_mark_resource_used res index with
  | none => .inl index
  | some r1 =>
    match res_ref_set r1 index 1 with
    | none => .inl index
    | some r2 => .inr r2

/-- The loop of `flow_nic_alloc_resource` (lines 103-109) from the index `i` on; the
increment `i += alignment` is made modulo 2^32, and the first argument bounds the
number of iterations. -/
def flow_nic_alloc_resource_loop (res : flow_nic_res) (alignment : Nat) :
    Nat → Nat → res_result
  | 0, _ => .running
  | fuel + 1, i =>
    if i < res.resource_count then
      match flow_nic_is_resource_used res i with
      | none => .outside i
      | some false =>
        match res_take res i with
        | .inl slot => .outside slot
        | .inr r => .ret (wrap_int i) r
      | some true => flow_nic_alloc_resource_loop res alignment fuel (u32_add i alignment)
    else .ret (-1) res

/-- Embeds `flow_nic_alloc_resource` (lines 100-112) on the pool `ndev->res[res_type]`. -/
def flow_nic_alloc_resource (res : flow_nic_res) (alignment : Nat) (fuel : Nat) : res_result :=
  flow_nic_alloc_resource_loop res alignment fuel 0

/-- The loop of lines 122-124 from `idx_offs` on: the value of `idx_offs` when the loop
is left (`inr`), or the index of a slot outside the pool that it reads (`inl`). The
first argument bounds the iterations; `num` of them are enough. -/
def alloc_config_scan (res : flow_nic_res) (res_idx num : Nat) : Nat → Nat → Sum Int Nat
  | 0, idx_offs => .inr idx_offs
  | n + 1, idx_offs =>
    if idx_offs < num then
      match flow_nic_is_resource_used res (u32_add res_idx idx_offs) with
      | none => .inl (u32_add res_idx idx_offs)
      | some true => .inr idx_offs
      | some false => alloc_config_scan res res_idx num n (idx_offs + 1)
    else .inr idx_offs

/-- The loop of lines 130-133 from `idx_offs` on: the pool with the slots marked, or the
index of a slot outside the pool that it writes. -/
def alloc_config_mark (res_idx num : Nat) : Nat → Nat → flow_nic_res → Sum Int flow_nic_res
  | 0, _, res => .inr res
  | n + 1, idx_offs, res =>
    if idx_offs < num then
      match res_take res (u32_add res_idx idx_offs) with
      | .inl slot => .inl slot
      | .inr r => alloc_config_mark res_idx num n (idx_offs + 1) r
    else .inr res

/-- The outer loop of `flow_nic_alloc_resource_config` (lines 119-137) from `res_idx` on.
Its bound `resource_count - (num - 1)` is computed in `unsigned int`. -/
def flow_nic_alloc_resource_config_loop (res : flow_nic_res) (num alignment : Nat) :
    Nat → Nat → res_result
  | 0, _ => .running
  | fuel + 1, res_idx =>
    if res_idx < u32_sub res.resource_count (u32_sub num 1) then
      match flow_nic_is_resource_used res res_idx with
      | none => .outside res_idx
      | some true =>
        flow_nic_alloc_resource_config_loop res num alignment fuel (u32_add res_idx alignment)
      | some false =>
        match alloc_config_scan res res_idx num num 1 with
        | .inl slot => .outside slot
        | .inr idx_offs =>
          if idx_offs < num then
            flow_nic_alloc_resource_config_loop res num alignment fuel
              (u32_add res_idx alignment)
          else
            match alloc_config_mark res_idx num num 0 res with
            | .inl slot => .outside slot
            | .inr r => .ret (wrap_int res_idx) r
    else .ret (-1) res

/-- Embeds `flow_nic_alloc_resource_config` (lines 114-140). -/
def flow_nic_alloc_resource_config (res : flow_nic_res) (num alignment : Nat) (fuel : Nat) :
    res_result :=
  flow_nic_alloc_resource_config_loop res num alignment fuel 0

/-- Embeds `flow_nic_free_resource` (lines 142-145). -/
def flow_nic_free_resource (res : flow_nic_res) (idx : Int) : Option flow_nic_res :=
  if 0 ≤ idx then flow_nic_mark_resource_unused res idx.toNat else none

/-- Embeds `flow_nic_ref_resource` (lines 147-158). -/
def flow_nic_ref_resource (res : flow_nic_res) (index : Int) : res_result :=
  if index < 0 then .outside index
  else
    match flow_nic_is_resource_used res index.toNat, res_ref_get res index.toNat with
    | some used, some r =>
      if used then
        if r = UINT32_MAX then .ret (-1) res
        else
          match res_ref_set res index.toNat (u32_add r 1) with
          | none => .outside index
          | some r1 => .ret 0 r1
      else .aborted
    | _, _ => .outside index

/-- Embeds `flow_nic_deref_resource` (lines 160-173). -/
def flow_nic_deref_resource (res : flow_nic_res) (index : Int) : res_result :=
  if index < 0 then .outside index
  else
    match flow_nic_is_resource_used res index.toNat, res_ref_get res index.toNat with
    | some used, some r =>
      if used then
        if r = 0 then .aborted
        else
          match res_ref_set res index.toNat (u32_sub r 1) with
          | none => .outside index
          | some r1 =>
            if u32_sub r 1 = 0 then
              match flow_nic_free_resource r1 index with
              | none => .outside index
              | some r2 => .ret 0 r2
            else .ret 1 r1
      else .aborted
    | _, _ => .outside index

/-- Embeds `init_resource_elements` (lines 442-458): the status and the pool; `calloc`
clears the bitmap and the reference counts. -/
def init_resource_elements (calloc_ok : Bool) (count : Nat) : Int × Option flow_nic_res :=
  if calloc_ok then
    (0, some { alloc_bm := List.replicate count false, ref := List.replicate count 0,
               resource_count := count })
  else (-1, none)

/-- The all-free pool of `count` slots that `init_resource_elements` builds. -/
def res_initial (count : Nat) : flow_nic_res :=
  { alloc_bm := List.replicate count false, ref := List.replicate count 0,
    resource_count := count }

/-- The resource-pool invariant: the bitmap and the reference counts have one entry per
slot, every count is a `uint32_t` value, and a slot is marked used if and only if its
reference count is greater than 0. -/
def res_consistent (res : flow_nic_res) : Prop :=
  res.alloc_bm.length = res.resource_count ∧ res.ref.length = res.resource_count ∧
    ∀ i, i < res.resource_count →
      res.ref.getD i 0 ≤ UINT32_MAX ∧ (res.alloc_bm.getD i false = true ↔ 0 < res.ref.getD i 0)

/-- The pool `res1` is `res` up to slots that were taken: every slot is as in `res`, or
marked used with reference count 1. -/
def res_grows (res res1 : flow_nic_res) : Prop :=
  res1.resource_count = res.resource_count ∧ res1.alloc_bm.length = res.alloc_bm.length ∧
    res1.ref.length = res.ref.length ∧
    ∀ i, (res1.alloc_bm.getD i false = res.alloc_bm.getD i false ∧
          res1.ref.getD i 0 = res.ref.getD i 0) ∨
         (res1.alloc_bm.getD i false = true ∧ res1.ref.getD i 0 = 1)

/-- A call of one of the four operations on a resource pool, with its arguments (and
the bound on the iterations of the loop for the two allocations). -/
inductive res_op where
  | alloc (alignment fuel : Nat)
  | alloc_config (num alignment fuel : Nat)
  | ref_resource (index : Int)
  | deref_resource (index : Int)
deriving DecidableEq, Repr

/-- The call that a `res_op` names, on the pool `res`. -/
def res_apply (res : flow_nic_res) : res_op → res_result
  | .alloc alignment fuel => flow_nic_alloc_resource res alignment fuel
  | .alloc_config num alignment fuel => flow_nic_alloc_resource_config res num alignment fuel
  | .ref_resource index => flow_nic_ref_resource res index
  | .deref_resource index => flow_nic_deref_resource res index

/-- The pool after a sequence of calls, each of which returns; `none` when one of them
does not return. -/
def res_run : List res_op → flow_nic_res → Option flow_nic_res
  | [], res => some res
  | op :: ops, res =>
    match res_apply res op with
    | .ret _ r => res_run ops r
    | _ => none

/-! # Theorems -/

/-! ## Lemmas on the generation poll -/

theorem scan_from_eq_iff (ci : Int) (l : List Int) (i : Nat) :
    config_switch_scan_from ci l i = i + l.length ↔ ∀ x ∈ l, x = -1 ∨ x = ci := by
  have hle : ∀ (l : List Int) (i : Nat), config_switch_scan_from ci l i ≤ i + l.length := by
    intro l
    induction l with
    | nil => intro i; simp [config_switch_scan_from]
    | cons x rest ih =>
      intro i
      simp only [config_switch_scan_from, List.length_cons]
      split_ifs
      · have := ih (i + 1); omega
      · omega
      · have := ih (i + 1); omega
  induction l generalizing i with
  | nil => simp [config_switch_scan_from]
  | cons x rest ih =>
    simp only [config_switch_scan_from, List.length_cons, List.mem_cons, forall_eq_or_imp]
    have e : i + (rest.length + 1) = (i + 1) + rest.length := by omega
    split_ifs with h1 h2
    · rw [e]
      exact (ih (i + 1)).trans (by simp [h1])
    · constructor
      · intro h; omega
      · rintro ⟨h | h, _⟩ <;> contradiction
    · have h3 : x = ci := by
        by_contra hne
        exact h2 hne
      rw [e]
      exact (ih (i + 1)).trans (by simp [h3])

theorem scan_eq_max_iff (g : Globals) :
    config_switch_scan g = MAX_WORKER_NUM ↔ quiescent g := by
  unfold config_switch_scan quiescent
  have h := scan_from_eq_iff g.config_index (List.ofFn g._config_index) 0
  simp only [List.length_ofFn, Nat.zero_add] at h
  rw [h, List.forall_mem_ofFn_iff]

theorem wait_some {M : Type} (modules : module_table M) (env : Nat → Globals → Globals)
    (c : config_ref) (fuel : Nat) :
    ∀ (n : Nat) (g : Globals) (r : config_ref × Globals),
      config_switch_wait modules env c fuel n g = some r →
      ∃ k, k < fuel ∧ quiescent (observed env n g k) ∧
        (∀ j, j < k → ¬ quiescent (observed env n g j)) ∧
        r = (c.other, retire modules (observed env n g k) c) := by
  induction fuel with
  | zero => intro n g r h; simp [config_switch_wait] at h
  | succ fuel ih =>
    intro n g r h
    simp only [config_switch_wait] at h
    split_ifs at h with hq
    · refine ⟨0, Nat.succ_pos _, ?_, ?_, ?_⟩
      · exact (scan_eq_max_iff _).1 hq
      · intro j hj; omega
      · simp only [Option.some.injEq] at h
        rw [← h]; rfl
    · obtain ⟨k, hk, hqk, hlt, hr⟩ := ih (n + 1) (env n g) r h
      refine ⟨k + 1, by omega, hqk, ?_, hr⟩
      intro j hj
      cases j with
      | zero => exact fun hq0 => hq ((scan_eq_max_iff _).2 hq0)
      | succ j => exact hlt j (by omega)

theorem wait_none_iff {M : Type} (modules : module_table M) (env : Nat → Globals → Globals)
    (c : config_ref) (fuel : Nat) :
    ∀ (n : Nat) (g : Globals),
      config_switch_wait modules env c fuel n g = none ↔
      ∀ k, k < fuel → ¬ quiescent (observed env n g k) := by
  induction fuel with
  | zero => intro n g; simp [config_switch_wait]
  | succ fuel ih =>
    intro n g
    simp only [config_switch_wait]
    split_ifs with hq
    · simp only [reduceCtorEq, false_iff, not_forall]
      exact ⟨0, Nat.succ_pos _, fun h => h ((scan_eq_max_iff _).1 hq)⟩
    · rw [ih]
      constructor
      · intro h k hk
        cases k with
        | zero => exact fun hq0 => hq ((scan_eq_max_iff _).2 hq0)
        | succ k => exact h k (by omega)
      · intro h k hk
        exact h (k + 1) (by omega)

theorem config_switch_mgmt_eq {M : Type} (modules : module_table M)
    (env : Nat → Globals → Globals) (fuel : Nat) (g : Globals) (c : config_ref) :
    config_switch modules env fuel g c (-1) = config_switch_wait modules env c fuel 0 g := by
  simp [config_switch]

/-- C1. Grace period of `config_switch(c, -1)`: when it returns, it does so at the
first poll that finds every entry of `_config_index` equal to `-1` or to
`config_index`, and what it returns is the other slot together with the state of that
poll after clearing `switch_mark` and running `modules_free` on `c`; while every poll
so far has found an entry that is neither, it has neither freed nor returned; and a
poll that finds the table quiescent makes it return. -/
theorem config_switch_grace_period {M : Type} (modules : module_table M)
    (env : Nat → Globals → Globals) (fuel : Nat) (g : Globals) (c : config_ref) :
    (∀ r, config_switch modules env fuel g c (-1) = some r →
      ∃ k, k < fuel ∧ quiescent (observed env 0 g k) ∧
        (∀ j, j < k → ¬ quiescent (observed env 0 g j)) ∧
        r = (c.other, retire modules (observed env 0 g k) c)) ∧
    ((∀ k, k < fuel → ¬ quiescent (observed env 0 g k)) →
      config_switch modules env fuel g c (-1) = none) ∧
    (∀ k, k < fuel → quiescent (observed env 0 g k) →
      (config_switch modules env fuel g c (-1)).isSome = true) := by
  rw [config_switch_mgmt_eq]
  refine ⟨wait_some modules env c fuel 0 g, (wait_none_iff modules env c fuel 0 g).2, ?_⟩
  intro k hk hq
  cases hw : config_switch_wait modules env c fuel 0 g with
  | some r => rfl
  | none => exact absurd hq ((wait_none_iff modules env c fuel 0 g).1 hw k hk)

/-! ## Lemmas on the two slots -/

@[simp] theorem other_other (c : config_ref) : c.other.other = c := by
  cases c <;> rfl

theorem other_ne (c : config_ref) : c.other ≠ c := by
  cases c <;> simp [config_ref.other]

@[simp] theorem get_set_same (g : Globals) (c : config_ref) (v : config_t) :
    (g.set c v).get c = v := by
  cases c <;> rfl

@[simp] theorem get_set_other (g : Globals) (c : config_ref) (v : config_t) :
    (g.set c v).get c.other = g.get c.other := by
  cases c <;> rfl

@[simp] theorem get_other_set (g : Globals) (c : config_ref) (v : config_t) :
    (g.set c.other v).get c = g.get c := by
  cases c <;> rfl

@[simp] theorem set_config_index (g : Globals) (c : config_ref) (v : config_t) :
    (g.set c v).config_index = g.config_index := by
  cases c <;> rfl

@[simp] theorem set_lcore_index (g : Globals) (c : config_ref) (v : config_t) :
    (g.set c v)._config_index = g._config_index := by
  cases c <;> rfl

@[simp] theorem set_config (g : Globals) (c : config_ref) (v : config_t) :
    (g.set c v).config = g.config := by
  cases c <;> rfl

@[simp] theorem set_lcore_config (g : Globals) (c : config_ref) (v : config_t) :
    (g.set c v)._config = g._config := by
  cases c <;> rfl

theorem wrap_int_succ (x : Int) (h0 : 0 < x) (h1 : x < INT_MAX) : wrap_int (x + 1) = x + 1 := by
  unfold INT_MAX at h1
  unfold wrap_int
  omega

theorem config_switch_worker_eq {M : Type} (modules : module_table M)
    (env : Nat → Globals → Globals) (fuel : Nat) (g : Globals) (c : config_ref)
    (k : Fin MAX_WORKER_NUM) :
    config_switch modules env fuel g c (k.val : Int) =
      some (c.other,
        { g with _config_index := Function.update g._config_index k (next_index (g._config_index k)) }) := by
  have h1 : (k.val : Int) ≠ -1 := by omega
  have h2 : 0 ≤ (k.val : Int) ∧ (k.val : Int) < MAX_WORKER_NUM := by
    have := k.isLt
    constructor <;> omega
  unfold config_switch
  rw [if_neg h1, dif_pos h2]
  simp only [Int.toNat_ofNat, Fin.eta, next_index]

theorem retire_lcore_index {M : Type} (modules : module_table M) (g : Globals) (c : config_ref) :
    (retire modules g c)._config_index = g._config_index := by
  simp [retire]

/-- C3 (the code at the failing input). With a module table whose `conf` callback
fails, `modules_conf` reports the failure, yet `config_reload` returns 1 and advances
`config_index`, whatever the state and the slot. -/
theorem config_reload_ignores_conf_failure :
    (modules_conf failing_conf_table config_a_init).1 = -1 ∧
    ∀ (g : Globals) (c : config_ref),
      (config_reload failing_conf_table g c).1 = 1 ∧
      (config_reload failing_conf_table g c).2.config_index = next_index g.config_index := by
  refine ⟨by decide, ?_⟩
  intro g c
  simp [config_reload, next_index]

/-- C4 (counterexample). At generation `INT_MAX` the worker-side `config_switch`
leaves `_config_index[0]` at `INT_MIN`: the entry has not increased. -/
theorem config_switch_worker_overflow :
    ∃ g', config_switch failing_conf_table (fun _ x => x) 0 globals_at_int_max .a 0
        = some (.b, g') ∧
      g'._config_index 0 = INT_MIN ∧
      ¬ (globals_at_int_max._config_index 0 < g'._config_index 0) := by
  refine ⟨_, rfl, by decide, by decide⟩

/-- C4 (amended). For both slots `c` and every core id `k` below `MAX_WORKER_NUM`
whose generation is below `INT_MAX`, the worker-side `config_switch(c, k)` returns the
other slot, strictly increases `_config_index[k]` (to 1 from a value `<= 0`, by exactly
1 otherwise) and changes nothing else: no other entry of `_config_index`, not
`config_index`, neither slot, neither pointer. The management-side
`config_switch(c, -1)` leaves `_config_index` as it found it at the poll it returned
from. -/
theorem config_switch_worker_frame {M : Type} (modules : module_table M)
    (env : Nat → Globals → Globals) (fuel : Nat) (g : Globals) (c : config_ref)
    (k : Fin MAX_WORKER_NUM) (h : g._config_index k < INT_MAX) :
    (∃ g', config_switch modules env fuel g c (k.val : Int) = some (c.other, g') ∧
      g._config_index k < g'._config_index k ∧
      g'._config_index k = (if g._config_index k ≤ 0 then 1 else g._config_index k + 1) ∧
      (∀ j, j ≠ k → g'._config_index j = g._config_index j) ∧
      g'.config_index = g.config_index ∧ g'.config_a = g.config_a ∧
      g'.config_b = g.config_b ∧ g'.config = g.config ∧ g'._config = g._config) ∧
    (∀ r, config_switch modules env fuel g c (-1) = some r →
      ∃ n, n < fuel ∧ r.1 = c.other ∧
        r.2._config_index = (observed env 0 g n)._config_index) := by
  constructor
  · refine ⟨_, config_switch_worker_eq modules env fuel g c k, ?_, ?_, ?_, rfl, rfl, rfl, rfl, rfl⟩
    · simp only [Function.update_same, next_index]
      split_ifs with h0
      · omega
      · rw [wrap_int_succ _ (by omega) h]; omega
    · simp only [Function.update_same, next_index]
      split_ifs with h0
      · rfl
      · exact wrap_int_succ _ (by omega) h
    · intro j hj
      simp [Function.update_noteq hj]
  · intro r hr
    rw [config_switch_mgmt_eq] at hr
    obtain ⟨n, hn, _, _, rfl⟩ := wait_some modules env c fuel 0 g r hr
    exact ⟨n, hn, rfl, retire_lcore_index modules _ c⟩

/-- C4 (witness). -/
theorem config_switch_worker_frame_witness :
    Globals.initial._config_index 3 < INT_MAX ∧
    ∃ g', config_switch failing_conf_table (fun _ x => x) 0 Globals.initial .a
        (((3 : Fin MAX_WORKER_NUM).val : Nat) : Int) = some (.b, g') ∧
      g'._config_index 3 = 1 :=
  ⟨by decide,
   match (config_switch_worker_frame failing_conf_table (fun _ x => x) 0 Globals.initial .a 3
      (by decide)).1 with
   | ⟨g', h1, _, h3, _⟩ => ⟨g', h1, by rw [h3]; decide⟩⟩

/-- C1 (a run of the wait loop). With lcore 0 one generation behind and switching
during the second sleep, the first poll does not find the table quiescent, the second
does, and `config_switch(c, -1)` returns. -/
theorem config_switch_grace_period_witness :
    ¬ quiescent (observed env_switch_second_sleep 0 globals_one_behind 0) ∧
    (config_switch failing_conf_table env_switch_second_sleep 2 globals_one_behind .a (-1)).isSome
      = true :=
  ⟨by decide,
   (config_switch_grace_period failing_conf_table env_switch_second_sleep 2
      globals_one_behind .a).2.2 1 (by decide) (by decide)⟩

/-! ## The reload cycle -/

theorem foreach_marks {M : Type} (modules : module_table M)
    (cb : module_t M → Option (config_t → Int × config_t))
    (hcb : ∀ id m f, modules id = some m → cb m = some f →
      ∀ c, (f c).2.reload_mark = c.reload_mark ∧ (f c).2.switch_mark = c.switch_mark)
    (ids : List Nat) :
    ∀ c, (modules_foreach modules cb ids c).2.reload_mark = c.reload_mark ∧
      (modules_foreach modules cb ids c).2.switch_mark = c.switch_mark := by
  induction ids with
  | nil => intro c; simp [modules_foreach]
  | cons id rest ih =>
    intro c
    unfold modules_foreach
    cases hm : modules id with
    | none => simpa using ih c
    | some m =>
      cases hf : cb m with
      | none => simpa [hf] using ih c
      | some f =>
        have hp := hcb id m f hm hf c
        simp only [hf]
        split_ifs
        · exact hp
        · have := ih (f c).2
          exact ⟨this.1.trans hp.1, this.2.trans hp.2⟩
        · exact ih c

theorem main_loop_switch_eq {M : Type} (modules : module_table M) (g : Globals)
    (k : Fin MAX_WORKER_NUM) (h : (g.get (g._config k)).switch_mark ≠ 0) :
    main_loop_switch modules g (k.val : Int) =
      some { g with
        _config_index := Function.update g._config_index k (next_index (g._config_index k)),
        _config := Function.update g._config k (g._config k).other } := by
  have h2 : 0 ≤ (k.val : Int) ∧ (k.val : Int) < MAX_WORKER_NUM := by
    have := k.isLt
    constructor <;> omega
  unfold main_loop_switch
  rw [dif_pos h2]
  simp only [Int.toNat_ofNat, Fin.eta]
  rw [if_pos h, config_switch_worker_eq]

theorem main_loop_switch_idle {M : Type} (modules : module_table M) (g : Globals)
    (k : Fin MAX_WORKER_NUM) (h : (g.get (g._config k)).switch_mark = 0) :
    main_loop_switch modules g (k.val : Int) = some g := by
  have h2 : 0 ≤ (k.val : Int) ∧ (k.val : Int) < MAX_WORKER_NUM := by
    have := k.isLt
    constructor <;> omega
  unfold main_loop_switch
  rw [dif_pos h2]
  simp only [Int.toNat_ofNat, Fin.eta]
  rw [if_neg (by simpa using h)]

theorem workers_switch_eq {M : Type} (modules : module_table M) (S : config_ref)
    (ks : List (Fin MAX_WORKER_NUM)) :
    ∀ g : Globals, ks.Nodup → (∀ k, k ∈ ks → g._config k = S) →
      (g.get S).switch_mark ≠ 0 →
      workers_switch modules ks g =
        { g with
          _config_index := fun k =>
            if k ∈ ks then next_index (g._config_index k) else g._config_index k,
          _config := fun k => if k ∈ ks then S.other else g._config k } := by
  induction ks with
  | nil => intro g _ _ _; simp [workers_switch]
  | cons k ks ih =>
    intro g hnd hloc hmark
    have hk : g._config k = S := hloc k (List.mem_cons_self _ _)
    have hnd' := List.nodup_cons.1 hnd
    unfold workers_switch
    rw [main_loop_switch_eq modules g k (by rw [hk]; exact hmark), Option.getD_some]
    rw [ih _ hnd'.2]
    · congr 1
      · funext j
        by_cases hj : j = k
        · subst hj
          simp [hnd'.1]
        · by_cases hjm : j ∈ ks
          · simp [hj, hjm, Function.update_noteq hj]
          · simp [hj, hjm, Function.update_noteq hj]
      · funext j
        by_cases hj : j = k
        · subst hj
          simp [hnd'.1, hk]
        · by_cases hjm : j ∈ ks
          · simp [hj, hjm]
          · simp [hj, hjm, Function.update_noteq hj]
    · intro j hj
      have hne : j ≠ k := fun e => hnd'.1 (e ▸ hj)
      simp only [Function.update_noteq hne]
      exact hloc j (List.mem_cons_of_mem _ hj)
    · cases S <;> exact hmark
theorem retire_config_index {M : Type} (modules : module_table M) (g : Globals) (c : config_ref) :
    (retire modules g c).config_index = g.config_index := by
  simp [retire]

theorem retire_lcore_config {M : Type} (modules : module_table M) (g : Globals) (c : config_ref) :
    (retire modules g c)._config = g._config := by
  simp [retire]

theorem retire_get_other {M : Type} (modules : module_table M) (g : Globals) (c : config_ref) :
    (retire modules g c).get c.other = g.get c.other := by
  simp [retire]

theorem retire_get_same {M : Type} (modules : module_table M) (g : Globals) (c : config_ref) :
    (retire modules g c).get c = (modules_free modules { g.get c with switch_mark := 0 }).2 := by
  simp [retire]

/-- C5. Reload cycle in the sequential model. Start in a state where every active
worker (`_config_index[k] != -1`) has the generation `config_index` and reads slot
`S`, as does the management core, and where a reload is requested on `S`; let `ks`
list the active workers, each once. Then the reload branch of `mgmt_loop` -
`config_reload(S)`, `S.reload_mark = 0`, `S.switch_mark = 1`, `config_switch(S, -1)`,
during whose first sleep every worker of `ks` runs its switch check - returns with
the other slot, and in the resulting state every active worker's generation equals
`config_index`, the management core and every active worker hold the other slot,
`reload_mark` and `switch_mark` are 0 on both slots, and the switch check of every
lcore is a no-op. The `free` callbacks are assumed to leave the two marks alone. -/
theorem reload_cycle_invariant {M : Type} (modules : module_table M) (g : Globals)
    (S : config_ref) (ks : List (Fin MAX_WORKER_NUM)) (fuel : Nat)
    (hfree : ∀ id m f, modules id = some m → m.free = some f →
      ∀ c, (f c).2.reload_mark = c.reload_mark ∧ (f c).2.switch_mark = c.switch_mark)
    (hgen : ∀ k, g._config_index k ≠ -1 → g._config_index k = g.config_index)
    (hmg : g.config = S)
    (hwk : ∀ k, g._config_index k ≠ -1 → g._config k = S)
    (hks : ks.Nodup) (hmem : ∀ k, k ∈ ks ↔ g._config_index k ≠ -1)
    (hreq : (g.get S).reload_mark ≠ 0) :
    ∃ g', mgmt_loop_reload modules (cycle_env modules ks) (fuel + 1) g S = some (S.other, g') ∧
      (∀ k, g'._config_index k ≠ -1 → g'._config_index k = g'.config_index) ∧
      g'.config = S.other ∧
      (∀ k, g'._config_index k ≠ -1 → g'._config k = S.other) ∧
      g'.config_a.reload_mark = 0 ∧ g'.config_a.switch_mark = 0 ∧
      g'.config_b.reload_mark = 0 ∧ g'.config_b.switch_mark = 0 ∧
      (∀ k : Fin MAX_WORKER_NUM, main_loop_switch modules g' (k.val : Int) = some g') := by
  -- the state in which the management core starts to wait
  obtain ⟨g2, hg2, hci, hlci, hlc, hS1, hS2, hO1, hO2⟩ :
      ∃ g2 : Globals,
        g2 = ((config_reload modules g S).2.set S
                { (config_reload modules g S).2.get S with reload_mark := 0 }).set S
              { ((config_reload modules g S).2.set S
                  { (config_reload modules g S).2.get S with reload_mark := 0 }).get S with
                switch_mark := 1 } ∧
        g2.config_index = next_index g.config_index ∧
        g2._config_index = g._config_index ∧ g2._config = g._config ∧
        (g2.get S).reload_mark = 0 ∧ (g2.get S).switch_mark = 1 ∧
        (g2.get S.other).reload_mark = 0 ∧ (g2.get S.other).switch_mark = 0 := by
    refine ⟨_, rfl, ?_, ?_, ?_, ?_, ?_, ?_, ?_⟩ <;>
      cases S <;> simp [config_reload, Globals.get, Globals.set, config_ref.other, next_index]
  -- the workers switch during the first sleep
  have hw : workers_switch modules ks g2 =
      { g2 with
        _config_index := fun k =>
          if k ∈ ks then next_index (g2._config_index k) else g2._config_index k,
        _config := fun k => if k ∈ ks then S.other else g2._config k } := by
    apply workers_switch_eq modules S ks g2 hks
    · intro k hk
      rw [hlc]
      exact hwk k ((hmem k).1 hk)
    · rw [hS2]; decide
  have hget : ∀ c, (workers_switch modules ks g2).get c = g2.get c := by
    intro c; rw [hw]; cases c <;> rfl
  have hq : quiescent (workers_switch modules ks g2) := by
    intro i
    rw [hw]
    simp only [hlci, hci]
    by_cases hi : i ∈ ks
    · right
      rw [if_pos hi, hgen i ((hmem i).1 hi)]
    · left
      rw [if_neg hi]
      by_contra hne
      exact hi ((hmem i).2 hne)
  have hrun : mgmt_loop_reload modules (cycle_env modules ks) (fuel + 1) g S =
      some (S.other,
        { retire modules (workers_switch modules ks g2) S with config := S.other }) := by
    unfold mgmt_loop_reload
    rw [if_pos hreq]
    have h1 : (config_reload modules g S).1 ≠ 0 := by simp [config_reload]
    simp only []
    rw [if_pos h1, ← hg2, config_switch_mgmt_eq]
    simp only [config_switch_wait, cycle_env]
    rw [if_pos ((scan_eq_max_iff _).2 hq)]
    rfl
  have hfm := foreach_marks modules (fun m => m.free) hfree (List.range MOD_ID_MAX)
  have hSm : ((retire modules (workers_switch modules ks g2) S).get S).reload_mark = 0 ∧
      ((retire modules (workers_switch modules ks g2) S).get S).switch_mark = 0 := by
    rw [retire_get_same, hget]
    have := hfm { g2.get S with switch_mark := 0 }
    unfold modules_free
    exact ⟨this.1.trans hS1, this.2⟩
  have hOm : ((retire modules (workers_switch modules ks g2) S).get S.other).reload_mark = 0 ∧
      ((retire modules (workers_switch modules ks g2) S).get S.other).switch_mark = 0 := by
    rw [retire_get_other, hget]
    exact ⟨hO1, hO2⟩
  have hmarks : ∀ c, ((retire modules (workers_switch modules ks g2) S).get c).reload_mark = 0 ∧
      ((retire modules (workers_switch modules ks g2) S).get c).switch_mark = 0 := by
    intro c
    cases S <;> cases c <;> first | exact hSm | exact hOm
  have hidx : (retire modules (workers_switch modules ks g2) S)._config_index =
      fun k => if k ∈ ks then next_index (g._config_index k) else g._config_index k := by
    rw [retire_lcore_index, hw, ← hlci]
  have hloc : (retire modules (workers_switch modules ks g2) S)._config =
      fun k => if k ∈ ks then S.other else g._config k := by
    rw [retire_lcore_config, hw, ← hlc]
  have hcidx : (retire modules (workers_switch modules ks g2) S).config_index =
      next_index g.config_index := by
    rw [retire_config_index, hw]; exact hci
  refine ⟨_, hrun, ?_, rfl, ?_, (hmarks .a).1, (hmarks .a).2, (hmarks .b).1, (hmarks .b).2, ?_⟩
  · intro k hk
    show (retire modules (workers_switch modules ks g2) S)._config_index k =
      (retire modules (workers_switch modules ks g2) S).config_index
    have hk' : (retire modules (workers_switch modules ks g2) S)._config_index k ≠ -1 := hk
    rw [hcidx]
    rw [hidx] at hk' ⊢
    by_cases hi : k ∈ ks
    · simp only [if_pos hi]
      rw [hgen k ((hmem k).1 hi)]
    · simp only [if_neg hi] at hk'
      exact absurd ((hmem k).2 hk') hi
  · intro k hk
    show (retire modules (workers_switch modules ks g2) S)._config k = S.other
    have hk' : (retire modules (workers_switch modules ks g2) S)._config_index k ≠ -1 := hk
    rw [hloc]
    rw [hidx] at hk'
    by_cases hi : k ∈ ks
    · simp only [if_pos hi]
    · simp only [if_neg hi] at hk'
      exact absurd ((hmem k).2 hk') hi
  · intro k
    apply main_loop_switch_idle
    show (Globals.get { retire modules (workers_switch modules ks g2) S with config := S.other }
      _).switch_mark = 0
    have : ∀ c, Globals.get
        { retire modules (workers_switch modules ks g2) S with config := S.other } c =
        (retire modules (workers_switch modules ks g2) S).get c := by
      intro c; cases c <;> rfl
    rw [this]
    exact (hmarks _).2

theorem acl_free_table_marks (id : Nat) (m : module_t rte_mbuf)
    (f : config_t → Int × config_t) (hm : acl_free_table id = some m) (hf : m.free = some f)
    (c : config_t) :
    (f c).2.reload_mark = c.reload_mark ∧ (f c).2.switch_mark = c.switch_mark := by
  have htab : acl_free_table = Function.update (fun _ => none) MOD_ID_ACL (some acl_free_module) := by
    simp [acl_free_table, MODULE_REGISTER, acl_free_module]
  rw [htab] at hm
  by_cases hid : id = MOD_ID_ACL
  · rw [hid, Function.update_same] at hm
    have hm' : acl_free_module = m := Option.some.inj hm
    rw [← hm'] at hf
    have hf' : (fun c : config_t => ((0 : Int), { c with acl_ctx := none })) = f :=
      Option.some.inj hf
    rw [← hf']
    exact ⟨rfl, rfl⟩
  · rw [Function.update_noteq hid] at hm
    exact absurd hm (by simp)

/-- C5 (witness). Workers on lcores 0 and 1 at generation 0, a reload requested on
`config_a`, an ACL module with a `free` callback: one cycle ends on `config_b` with
every generation at 1 and all marks clear. -/
theorem reload_cycle_invariant_witness :
    (globals_two_workers.get .a).reload_mark ≠ 0 ∧
    (∀ k, globals_two_workers._config_index k ≠ -1 →
      globals_two_workers._config_index k = globals_two_workers.config_index) ∧
    ∃ g', mgmt_loop_reload acl_free_table (cycle_env acl_free_table [0, 1]) 1
        globals_two_workers .a = some (.b, g') ∧
      g'.config = .b ∧ g'.config_a.switch_mark = 0 ∧ g'.config_b.switch_mark = 0 :=
  ⟨by decide, by decide,
   match reload_cycle_invariant acl_free_table globals_two_workers .a [0, 1] 0
      acl_free_table_marks (by decide) rfl (by decide) (by decide) (by decide) (by decide) with
   | ⟨g', h1, _, h3, _, _, h6, _, h8, _⟩ => ⟨g', h1, h3, h6, h8⟩⟩

/-! ## The hook pipeline -/

theorem hook_size_of_hooks (hook : Nat) (s : List Nat) (h : hooks[hook]? = some s) :
    hook_size[hook]? = some s.length := by
  have e : hook_size = hooks.map List.length := rfl
  rw [e, List.getElem?_map, h]
  rfl

theorem after_procs_cons {M : Type} (config : config_t) (hook : Nat)
    (e : Nat × (config_t → M → Nat → Int × M))
    (fs : List (Nat × (config_t → M → Nat → Int × M))) (pkt : M) :
    after_procs config hook (e :: fs) pkt = after_procs config hook fs (e.2 config pkt hook).2 :=
  rfl

theorem modules_proc_loop_spec {M : Type} (modules : module_table M) (config : config_t)
    (hook : Nat) (over : Option Nat) (s : List Nat) :
    ∀ (k : Nat) (pkt : M),
      ∃ called rest, proc_due modules k s = called ++ rest ∧
        (modules_proc_loop modules config hook over s pkt).2
          = after_procs config hook called pkt ∧
        (∀ pre e post, called = pre ++ e :: post → post ≠ [] →
          (e.2 config (after_procs config hook pre pkt) hook).1 ≠ MOD_RET_STOLEN) ∧
        ((∃ pre e, called = pre ++ [e] ∧
            (e.2 config (after_procs config hook pre pkt) hook).1 = MOD_RET_STOLEN ∧
            (modules_proc_loop modules config hook over s pkt).1 = some MOD_RET_STOLEN) ∨
         (rest = [] ∧
            (∀ pre e post, called = pre ++ e :: post →
              (e.2 config (after_procs config hook pre pkt) hook).1 ≠ MOD_RET_STOLEN) ∧
            (modules_proc_loop modules config hook over s pkt).1
              = if hook_read_past over then some MOD_RET_ACCEPT else none)) := by
  induction s with
  | nil =>
    intro k pkt
    refine ⟨[], [], rfl, rfl, ?_, Or.inr ⟨rfl, ?_, rfl⟩⟩
    · intro pre e post h
      exact absurd h (by simp)
    · intro pre e post h
      exact absurd h (by simp)
  | cons mid tl ih =>
    intro k pkt
    have hskip : proc_entry modules (k, mid) = none →
        modules_proc_loop modules config hook over (mid :: tl) pkt
          = modules_proc_loop modules config hook over tl pkt →
        ∃ called rest, proc_due modules k (mid :: tl) = called ++ rest ∧
          (modules_proc_loop modules config hook over (mid :: tl) pkt).2
            = after_procs config hook called pkt ∧
          (∀ pre e post, called = pre ++ e :: post → post ≠ [] →
            (e.2 config (after_procs config hook pre pkt) hook).1 ≠ MOD_RET_STOLEN) ∧
          ((∃ pre e, called = pre ++ [e] ∧
              (e.2 config (after_procs config hook pre pkt) hook).1 = MOD_RET_STOLEN ∧
              (modules_proc_loop modules config hook over (mid :: tl) pkt).1
                = some MOD_RET_STOLEN) ∨
           (rest = [] ∧
              (∀ pre e post, called = pre ++ e :: post →
                (e.2 config (after_procs config hook pre pkt) hook).1 ≠ MOD_RET_STOLEN) ∧
              (modules_proc_loop modules config hook over (mid :: tl) pkt).1
                = if hook_read_past over then some MOD_RET_ACCEPT else none)) := by
      intro hd hl
      have hp : proc_due modules k (mid :: tl) = proc_due modules (k + 1) tl := by
        unfold proc_due
        rw [List.enumFrom_cons, List.filterMap_cons, hd]
      rw [hp, hl]
      exact ih (k + 1) pkt
    cases hm : modules mid with
    | none =>
      exact hskip (by simp [proc_entry, hm]) (by rw [modules_proc_loop]; simp only [hm])
    | some m =>
      cases hf : m.proc with
      | none =>
        exact hskip (by simp [proc_entry, hm, hf]) (by rw [modules_proc_loop]; simp only [hm, hf])
      | some f =>
        by_cases he : m.enabled = true
        · have hp : proc_due modules k (mid :: tl) = (k, f) :: proc_due modules (k + 1) tl := by
            have hentry : proc_entry modules (k, mid) = some (k, f) := by
              simp [proc_entry, hm, he, hf]
            unfold proc_due
            rw [List.enumFrom_cons, List.filterMap_cons, hentry]
          by_cases hst : (f config pkt hook).1 = MOD_RET_STOLEN
          · have hl : modules_proc_loop modules config hook over (mid :: tl) pkt
                = (some (f config pkt hook).1, (f config pkt hook).2) := by
              rw [modules_proc_loop]
              simp only [hm, hf, he, if_true, if_pos hst]
            rw [hp, hl]
            refine ⟨[(k, f)], proc_due modules (k + 1) tl, rfl, rfl, ?_, Or.inl ⟨[], (k, f), rfl, hst, ?_⟩⟩
            · intro pre e post h hne
              cases pre with
              | nil =>
                simp only [List.nil_append, List.cons.injEq] at h
                exact absurd h.2.symm hne
              | cons x pre =>
                simp only [List.cons_append, List.cons.injEq] at h
                exact absurd h.2 (by simp)
            · simp only
              rw [hst]
          · have hl : modules_proc_loop modules config hook over (mid :: tl) pkt
                = modules_proc_loop modules config hook over tl (f config pkt hook).2 := by
              rw [modules_proc_loop]
              simp only [hm, hf, he, if_true, if_neg hst]
            obtain ⟨called, rest, h1, h2, h3, h4⟩ := ih (k + 1) (f config pkt hook).2
            rw [hp, hl]
            have hall : ∀ (P : Prop),
                (∀ pre e post, called = pre ++ e :: post → (post ≠ [] ∨ P) →
                  (e.2 config (after_procs config hook pre (f config pkt hook).2) hook).1
                    ≠ MOD_RET_STOLEN) →
                ∀ pre e post, (k, f) :: called = pre ++ e :: post → (post ≠ [] ∨ P) →
                  (e.2 config (after_procs config hook pre pkt) hook).1 ≠ MOD_RET_STOLEN := by
              intro P hh pre e post h hne
              cases pre with
              | nil =>
                simp only [List.nil_append, List.cons.injEq] at h
                rw [← h.1]
                exact hst
              | cons x pre =>
                simp only [List.cons_append, List.cons.injEq] at h
                rw [← h.1, after_procs_cons]
                exact hh pre e post h.2 hne
            refine ⟨(k, f) :: called, rest, by rw [h1]; rfl, by rw [h2]; rfl, ?_, ?_⟩
            · intro pre e post h hne
              exact hall False (fun pre e post h hn => h3 pre e post h
                (hn.resolve_right id)) pre e post h (Or.inl hne)
            · rcases h4 with ⟨pre, e, c1, c2, c3⟩ | ⟨c1, c2, c3⟩
              · exact Or.inl ⟨(k, f) :: pre, e, by rw [c1]; rfl, by rw [after_procs_cons]; exact c2, c3⟩
              · refine Or.inr ⟨c1, ?_, c3⟩
                intro pre e post h
                exact hall True (fun pre e post h _ => c2 pre e post h) pre e post h (Or.inr trivial)
        · exact hskip (by simp [proc_entry, hm, he])
            (by rw [modules_proc_loop]; simp only [hm, hf, he]; rfl)

theorem modules_proc_never_accepts {M : Type} (modules : module_table M) (config : config_t)
    (pkt : M) (hook : Nat) (r : Int × M) (h : modules_proc modules config pkt hook = some r) :
    r.1 = MOD_RET_STOLEN := by
  unfold modules_proc at h
  cases hrun : modules_proc_run modules config pkt hook with
  | none => rw [hrun] at h; exact absurd h (by simp)
  | some t =>
    obtain ⟨v, p⟩ := t
    rw [hrun] at h
    cases v with
    | none => exact absurd h (by simp)
    | some ret =>
      simp only [Option.some.injEq] at h
      rw [← h]
      unfold modules_proc_run at hrun
      cases hs : hooks[hook]? with
      | none => rw [hs] at hrun; exact absurd hrun (by simp)
      | some s =>
        cases hn : hook_size[hook]? with
        | none => rw [hs, hn] at hrun; exact absurd hrun (by simp)
        | some n =>
          rw [hs, hn] at hrun
          simp only [Option.some.injEq] at hrun
          obtain ⟨called, rest, _, _, _, h4⟩ :=
            modules_proc_loop_spec modules config hook none (s.take n) 0 pkt
          rw [hrun] at h4
          rcases h4 with ⟨_, _, _, _, c⟩ | ⟨_, _, c⟩
          · simp only [Option.some.injEq] at c
            exact c
          · exact absurd c (by simp [hook_read_past])

theorem modules_proc_run_eq {M : Type} (modules : module_table M) (config : config_t)
    (pkt : M) (hook : Nat) (s : List Nat) (hs : hooks[hook]? = some s) :
    modules_proc_run modules config pkt hook
      = some (modules_proc_loop modules config hook none s pkt) := by
  unfold modules_proc_run
  rw [hs, hook_size_of_hooks hook s hs]
  simp

/-- C2 (the code at the failing input). For a hook whose module-id sequence is `s`,
`modules_proc` invokes the process callbacks of the registered, enabled,
process-capable modules of `s` in sequence order, each on the packet as the one before
left it, until one returns stolen; then it returns stolen and invokes nothing after it.
But when none returns stolen the call is undefined instead of returning accept: the
increment clause of `MODULE_FOREACH_HOOK`, `id++, m = modules[hooks[hook][id]]`, is
evaluated before the loop test and reads `hooks[hook][hook_size[hook]]`, one past the
end of the hook's array, so `modules_proc` never returns accept. At `MOD_HOOK_INGRESS`,
as `WORKER` calls it, the interface module is invoked and accepts, then
`hook_prerouting[1]` is read; at hook index 6 the decoder and the ACL module are invoked
in this order, then `hook_egress[2]` is read. Where the entry behind the array can be
read, the call without a steal returns accept. -/
theorem modules_proc_reads_past_sequence {M : Type} (modules : module_table M)
    (config : config_t) (pkt : M) (hook : Nat) :
    (∀ r, modules_proc modules config pkt hook = some r → r.1 = MOD_RET_STOLEN) ∧
    (∀ s, hooks[hook]? = some s →
      ∃ called rest, proc_due modules 0 s = called ++ rest ∧
        (∀ pre e post, called = pre ++ e :: post → post ≠ [] →
          (e.2 config (after_procs config hook pre pkt) hook).1 ≠ MOD_RET_STOLEN) ∧
        ((∃ pre e, called = pre ++ [e] ∧
            (e.2 config (after_procs config hook pre pkt) hook).1 = MOD_RET_STOLEN ∧
            modules_proc modules config pkt hook
              = some (MOD_RET_STOLEN, after_procs config hook called pkt)) ∨
         (rest = [] ∧
            (∀ pre e post, called = pre ++ e :: post →
              (e.2 config (after_procs config hook pre pkt) hook).1 ≠ MOD_RET_STOLEN) ∧
            modules_proc_run modules config pkt hook
              = some (none, after_procs config hook called pkt) ∧
            modules_proc modules config pkt hook = none))) ∧
    hooks[ MOD_HOOK_INGRESS]? = some hook_prerouting ∧ hook_prerouting[1]? = none ∧
    modules_proc_run logging_table config_a_init [] MOD_HOOK_INGRESS
      = some (none, [ MOD_ID_INTERFACE]) ∧
    modules_proc logging_table config_a_init [] MOD_HOOK_INGRESS = none ∧
    hooks[6]? = some hook_egress ∧ hook_egress[2]? = none ∧
    modules_proc_run logging_table config_a_init [] 6
      = some (none, [ MOD_ID_DECODER, MOD_ID_ACL]) ∧
    modules_proc logging_table config_a_init [] 6 = none ∧
    modules_proc stealing_table config_a_init [] 6
      = some (MOD_RET_STOLEN, [ MOD_ID_DECODER]) ∧
    modules_proc late_stealing_table config_a_init [] 6
      = some (MOD_RET_STOLEN, [ MOD_ID_DECODER, MOD_ID_ACL]) ∧
    modules_proc_with hooks hook_size (fun _ => some MOD_ID_NONE) logging_table config_a_init
        [] 6
      = some (MOD_RET_ACCEPT, [ MOD_ID_DECODER, MOD_ID_ACL]) := by
  refine ⟨fun r h => modules_proc_never_accepts modules config pkt hook r h, ?_, by decide,
    by decide, by decide, by decide, by decide, by decide, by decide, by decide, by decide,
    by decide, by decide⟩
  intro s hs
  have hrun := modules_proc_run_eq modules config pkt hook s hs
  obtain ⟨called, rest, h1, h2, h3, h4⟩ :=
    modules_proc_loop_spec modules config hook none s 0 pkt
  refine ⟨called, rest, h1, h3, ?_⟩
  cases hl : modules_proc_loop modules config hook none s pkt with
  | mk v p =>
    rw [hl] at h2 h4 hrun
    simp only at h2 h4
    rcases h4 with ⟨pre, e, c1, c2, c3⟩ | ⟨c1, c2, c3⟩
    · refine Or.inl ⟨pre, e, c1, c2, ?_⟩
      unfold modules_proc
      rw [hrun, c3, h2]
    · have hv : v = none := by
        rw [c3]
        rfl
      refine Or.inr ⟨c1, c2, by rw [hrun, hv, h2], ?_⟩
      unfold modules_proc
      rw [hrun, hv]

/-- C7 (the code at the failing input). The hook table has no entry for
`MOD_HOOK_RECV`, so the entry read for `MOD_HOOK_INGRESS` is `hook_prerouting` and the
one read for `MOD_HOOK_PREROUTING` is `hook_forward`: with interface, decoder and ACL
modules registered, `modules_proc` at `MOD_HOOK_INGRESS` calls the interface module
only, and at `MOD_HOOK_PREROUTING` it calls no module. Both calls return accept where
the entry behind the hook's array can be read, and end in the read one past the end of
that array as the arrays stand. -/
theorem hooks_table_shifted :
    hooks[ MOD_HOOK_INGRESS]? = some [ MOD_ID_INTERFACE] ∧
    hooks[ MOD_HOOK_PREROUTING]? = some [ MOD_ID_NONE] ∧
    modules_proc_with hooks hook_size (fun _ => some MOD_ID_NONE) logging_table config_a_init
        [] MOD_HOOK_INGRESS
      = some (MOD_RET_ACCEPT, [ MOD_ID_INTERFACE]) ∧
    modules_proc_with hooks hook_size (fun _ => some MOD_ID_NONE) logging_table config_a_init
        [] MOD_HOOK_PREROUTING
      = some (MOD_RET_ACCEPT, []) ∧
    modules_proc_run logging_table config_a_init [] MOD_HOOK_INGRESS
      = some (none, [ MOD_ID_INTERFACE]) ∧
    modules_proc_run logging_table config_a_init [] MOD_HOOK_PREROUTING
      = some (none, []) := by
  decide

/-- C6 (the code at the failing input). Ports 1 and 2 are loaded as the virtual-wire
pair 7, `interface_vwire_pair` maps 1 to 2 and `interface_proc` called with
`MOD_HOOK_PREROUTING` sets `port_out` to 2, but the hook loop of `WORKER` never calls
the interface module with `MOD_HOOK_PREROUTING`: after the hooks
`MOD_HOOK_INGRESS .. MOD_HOOK_LOCALOUT` the packet is as it was, `port_out` still 0
(each of these calls leaves the packet as it was; it returns accept where the entry
behind the hook's array can be read, and is undefined as the arrays stand), and at
`MOD_HOOK_EGRESS` the hook table is read past its end. -/
theorem worker_hooks_skip_prerouting :
    (load_ports [vwire_port_json 1 7, vwire_port_json 2 7]).1 = 0 ∧
    (config_pair_1_2.itf_cfg.map (fun itfc => interface_vwire_pair itfc 1)) = some 2 ∧
    ((interface_proc config_pair_1_2 packet_on_port_1 MOD_HOOK_PREROUTING).2.priv.map
      (fun p => p.port_out)) = some 2 ∧
    (WORKER_hooks_with
        (modules_proc_with hooks hook_size (fun _ => some MOD_ID_NONE) interface_table
          config_pair_1_2)
        [1, 2, 3, 4, 5, 6] packet_on_port_1).map (fun r => (r.1, r.2.1))
      = some (false, packet_on_port_1) ∧
    (∀ hook ∈ [1, 2, 3, 4, 5, 6],
      modules_proc_run interface_table config_pair_1_2 packet_on_port_1 hook
        = some (none, packet_on_port_1)) ∧
    modules_proc_with hooks hook_size (fun _ => some MOD_ID_NONE) interface_table
      config_pair_1_2 packet_on_port_1 MOD_HOOK_EGRESS = none ∧
    modules_proc interface_table config_pair_1_2 packet_on_port_1 MOD_HOOK_EGRESS = none ∧
    WORKER_hooks interface_table config_pair_1_2 [1, 2, 3, 4, 5, 6] packet_on_port_1 = none ∧
    WORKER_hooks interface_table config_pair_1_2 WORKER_hook_range packet_on_port_1 = none := by
  refine ⟨by decide, by decide, by decide, by decide, by decide, by decide, by decide,
    by decide, by decide⟩

/-! ## Virtual-wire pairing -/

/-- C8 (counterexample). With the port id 1 used by two virtual-wire ports,
`interface_vwire_init` succeeds, yet the port (id 1, pair 9) is mapped to port 2, which
belongs to pair 7. -/
theorem vwire_pairing_repeated_id :
    (interface_vwire_init true itfc_repeated_id).1 = 0 ∧
    interface_vwire_pair (interface_vwire_init true itfc_repeated_id).2 1 = 2 ∧
    ¬ vwire_pairing_ok (interface_vwire_init true itfc_repeated_id).2 := by
  decide

/-- C9 (the code at the failing input). Three virtual-wire ports share the pair id 7,
the second of them being port 0: `interface_vwire_init` takes the stored `port2 = 0`
for an unset field, binds the third port over it and returns 0; so does
`interface_load` on the same four ports, and on three ports that share one pair id it
returns 0 without pairing at all. -/
theorem vwire_init_accepts_third_port :
    interface_vwire_init true itfc_three_share =
      (0, { itfc_three_share with
            vwire_pairs := some [{ vwire_id := 7, port1 := 1, port2 := 5 },
                                 { vwire_id := 9, port1 := 6, port2 := 0 }] }) ∧
    (load_ports [vwire_port_json 1 7, vwire_port_json 0 7, vwire_port_json 5 7,
      vwire_port_json 6 9]).1 = 0 ∧
    (load_ports [vwire_port_json 1 7, vwire_port_json 2 7, vwire_port_json 3 7]).1 = 0 := by
  decide

/-- C10 (the code at the failing input). With one virtual-wire port, and with three,
`interface_load` returns 0 and leaves the configuration without any pair. -/
theorem interface_load_accepts_odd :
    (load_ports [vwire_port_json 1 7]).1 = 0 ∧
    (load_ports [vwire_port_json 1 7]).2.vwire_pairs = none ∧
    (load_ports [vwire_port_json 1 7]).2.vwire_pair_num = 0 ∧
    (load_ports [vwire_port_json 1 7, vwire_port_json 2 7, vwire_port_json 3 9]).1 = 0 ∧
    (load_ports [vwire_port_json 1 7, vwire_port_json 2 7, vwire_port_json 3 9]).2.vwire_pairs
      = none := by
  decide

theorem vwire_bind_shape (p : port_config_t) (slots : List vwire_pair_t) :
    ∀ (pairs : Nat) (r : List vwire_pair_t × Nat), vwire_bind p slots pairs = some r →
      (r = (slots, pairs) ∧ ∀ s ∈ slots, s.vwire_id ≠ 0 ∧ s.vwire_id ≠ p.vwire) ∨
      (∃ pre s post, slots = pre ++ s :: post ∧
        (∀ t ∈ pre, t.vwire_id ≠ 0 ∧ t.vwire_id ≠ p.vwire) ∧
        ((s.vwire_id = 0 ∧
            r = (pre ++ { s with vwire_id := p.vwire, port1 := p.id } :: post, pairs)) ∨
         (s.vwire_id ≠ 0 ∧ s.vwire_id = p.vwire ∧ s.port2 = 0 ∧
            r = (pre ++ { s with port2 := p.id } :: post, pairs + 1)))) := by
  induction slots with
  | nil =>
    intro pairs r h
    simp only [vwire_bind, Option.some.injEq] at h
    left
    exact ⟨h.symm, by simp⟩
  | cons s rest ih =>
    intro pairs r h
    unfold vwire_bind at h
    by_cases h0 : s.vwire_id = 0
    · rw [if_pos h0] at h
      right
      refine ⟨[], s, rest, rfl, by simp, Or.inl ⟨h0, ?_⟩⟩
      simp only [Option.some.injEq] at h
      exact h.symm
    · rw [if_neg h0] at h
      by_cases hv : s.vwire_id = p.vwire
      · rw [if_pos hv] at h
        by_cases h2 : s.port2 = 0
        · rw [if_pos h2] at h
          right
          refine ⟨[], s, rest, rfl, by simp, Or.inr ⟨h0, hv, h2, ?_⟩⟩
          simp only [Option.some.injEq] at h
          exact h.symm
        · rw [if_neg h2] at h
          exact absurd h (by simp)
      · rw [if_neg hv] at h
        cases hrec : vwire_bind p rest pairs with
        | none => rw [hrec] at h; exact absurd h (by simp)
        | some r' =>
          rw [hrec] at h
          simp only [Option.some.injEq] at h
          rcases ih pairs r' hrec with ⟨hr, hall⟩ | ⟨pre, t, post, hsplit, hpre, hcase⟩
          · left
            refine ⟨?_, ?_⟩
            · rw [← h, hr]
            · intro u hu
              rcases List.mem_cons.1 hu with e | e
              · rw [e]; exact ⟨h0, hv⟩
              · exact hall u e
          · right
            refine ⟨s :: pre, t, post, by rw [hsplit]; rfl, ?_, ?_⟩
            · intro u hu
              rcases List.mem_cons.1 hu with e | e
              · rw [e]; exact ⟨h0, hv⟩
              · exact hpre u e
            · rcases hcase with ⟨ht, hr⟩ | ⟨ht0, htv, ht2, hr⟩
              · left
                exact ⟨ht, by rw [← h, hr]; rfl⟩
              · right
                exact ⟨ht0, htv, ht2, by rw [← h, hr]; rfl⟩

theorem same_vwire_snoc_ne (L : List port_config_t) (p : port_config_t) (v : Nat)
    (h : p.vwire ≠ v) : same_vwire (L ++ [p]) v = same_vwire L v := by
  simp [same_vwire, List.filter_append, h]

theorem same_vwire_snoc_eq (L : List port_config_t) (p : port_config_t) :
    same_vwire (L ++ [p]) p.vwire = same_vwire L p.vwire ++ [p] := by
  simp [same_vwire, List.filter_append]

theorem slot_full_snoc_ne (L : List port_config_t) (p : port_config_t) (s : vwire_pair_t)
    (h : s.vwire_id ≠ p.vwire) : slot_full (L ++ [p]) s = slot_full L s := by
  unfold slot_full
  rw [same_vwire_snoc_ne L p s.vwire_id (fun e => h e.symm)]

theorem slot_full_empty (L : List port_config_t) (s : vwire_pair_t) (h : s.vwire_id = 0) :
    slot_full L s = false := by
  simp [slot_full, h]

theorem vwire_inv_ignored (L : List port_config_t) (slots : List vwire_pair_t) (pairs : Nat)
    (p : port_config_t) (hinv : vwire_inv L slots pairs)
    (hall : ∀ s ∈ slots, s.vwire_id ≠ 0 ∧ s.vwire_id ≠ p.vwire) :
    vwire_inv (L ++ [p]) slots pairs := by
  refine ⟨hinv.empty_port2, ?_, hinv.order, ?_, ?_, ?_, ?_⟩
  · intro s hs h0
    rw [same_vwire_snoc_ne L p s.vwire_id (fun e => (hall s hs).2 e.symm)]
    exact hinv.taken_ok s hs h0
  · rw [hinv.pairs_eq]
    apply List.countP_congr
    intro s hs
    rw [slot_full_snoc_ne L p s (hall s hs).2]
  · have := hinv.count_le
    simp only [List.length_append, List.length_singleton]
    omega
  · intro h
    have := hinv.count_le
    simp only [List.length_append, List.length_singleton] at h
    omega
  · rintro ⟨s, hs, h0⟩
    exact absurd h0 (hall s hs).1

theorem mem_split_cases {α : Type} {t x : α} {pre post : List α} (h : t ∈ pre ++ x :: post) :
    t ∈ pre ∨ t = x ∨ t ∈ post := by
  rcases List.mem_append.1 h with h | h
  · exact Or.inl h
  · rcases List.mem_cons.1 h with h | h
    · exact Or.inr (Or.inl h)
    · exact Or.inr (Or.inr h)

theorem mem_split_pre {α : Type} {t : α} (x : α) {pre : List α} (post : List α) (h : t ∈ pre) :
    t ∈ pre ++ x :: post :=
  List.mem_append.2 (Or.inl h)

theorem mem_split_mid {α : Type} (x : α) (pre post : List α) : x ∈ pre ++ x :: post :=
  List.mem_append.2 (Or.inr (List.mem_cons_self _ _))

theorem mem_split_post {α : Type} {t : α} (x : α) (pre : List α) {post : List α} (h : t ∈ post) :
    t ∈ pre ++ x :: post :=
  List.mem_append.2 (Or.inr (List.mem_cons_of_mem _ h))

theorem vwire_inv_fill (L : List port_config_t) (pre post : List vwire_pair_t)
    (s : vwire_pair_t) (pairs : Nat) (p : port_config_t)
    (hinv : vwire_inv L (pre ++ s :: post) pairs)
    (hpre : ∀ t ∈ pre, t.vwire_id ≠ 0 ∧ t.vwire_id ≠ p.vwire)
    (h0 : s.vwire_id ≠ 0) (hv : s.vwire_id = p.vwire)
    (hcap : (same_vwire (L ++ [p]) p.vwire).length ≤ 2) :
    vwire_inv (L ++ [p]) (pre ++ { s with port2 := p.id } :: post) (pairs + 1) := by
  have hord := List.pairwise_append.1 hinv.order
  have hsp := List.pairwise_cons.1 hord.2.1
  have hpost : ∀ t ∈ post, t.vwire_id ≠ p.vwire := by
    intro t ht e
    have ht0 : t.vwire_id ≠ 0 := by rw [e, ← hv]; exact h0
    exact (hsp.1 t ht ht0).2 (hv.trans e.symm)
  obtain ⟨p1, hp1, hport1⟩ : ∃ p1, same_vwire L s.vwire_id = [p1] ∧ s.port1 = p1.id := by
    rcases hinv.taken_ok s (mem_split_mid s pre post) h0 with ⟨p1, h1, h2, _⟩ | ⟨p1, p2, h1, _, _⟩
    · exact ⟨p1, h1, h2⟩
    · rw [same_vwire_snoc_eq, ← hv, h1] at hcap
      simp at hcap
  have hfull_old : slot_full L s = false := by
    simp [slot_full, hp1]
  have hfull_new : slot_full (L ++ [p]) { s with port2 := p.id } = true := by
    simp only [slot_full, hv, same_vwire_snoc_eq]
    rw [← hv, hp1]
    simp [h0]
  have hids : ∀ (P : Nat → Prop), (∃ t ∈ pre ++ s :: post, P t.vwire_id) →
      ∃ t ∈ pre ++ { s with port2 := p.id } :: post, P t.vwire_id := by
    intro P ⟨t, ht, hP⟩
    rcases mem_split_cases ht with h | h | h
    · exact ⟨t, mem_split_pre _ _ h, hP⟩
    · exact ⟨_, mem_split_mid _ pre post, by rw [h] at hP; exact hP⟩
    · exact ⟨t, mem_split_post _ _ h, hP⟩
  have hids' : ∀ (P : Nat → Prop), (∃ t ∈ pre ++ { s with port2 := p.id } :: post, P t.vwire_id) →
      ∃ t ∈ pre ++ s :: post, P t.vwire_id := by
    intro P ⟨t, ht, hP⟩
    rcases mem_split_cases ht with h | h | h
    · exact ⟨t, mem_split_pre _ _ h, hP⟩
    · exact ⟨_, mem_split_mid _ pre post, by rw [h] at hP; exact hP⟩
    · exact ⟨t, mem_split_post _ _ h, hP⟩
  have htaken : (pre ++ { s with port2 := p.id } :: post).countP slot_taken =
      (pre ++ s :: post).countP slot_taken := by
    simp [List.countP_append, List.countP_cons, slot_taken]
  refine ⟨?_, ?_, ?_, ?_, ?_, ?_, ?_⟩
  · intro t ht ht0
    rcases mem_split_cases ht with h | h | h
    · exact hinv.empty_port2 t (mem_split_pre _ _ h) ht0
    · rw [h] at ht0; exact absurd ht0 h0
    · exact hinv.empty_port2 t (mem_split_post _ _ h) ht0
  · intro t ht ht0
    rcases mem_split_cases ht with h | h | h
    · rw [same_vwire_snoc_ne L p t.vwire_id (fun e => (hpre t h).2 e.symm)]
      exact hinv.taken_ok t (mem_split_pre _ _ h) ht0
    · right
      refine ⟨p1, p, ?_, ?_, ?_⟩
      · rw [h]
        show same_vwire (L ++ [p]) s.vwire_id = [p1, p]
        rw [hv, same_vwire_snoc_eq, ← hv, hp1]
        rfl
      · rw [h]; exact hport1
      · rw [h]
    · rw [same_vwire_snoc_ne L p t.vwire_id (fun e => hpost t h e.symm)]
      exact hinv.taken_ok t (mem_split_post _ _ h) ht0
  · have h1 := (List.pairwise_map (f := fun t : vwire_pair_t => t.vwire_id)
      (R := fun a b : Nat => b ≠ 0 → a ≠ 0 ∧ a ≠ b)).2 hinv.order
    have hm : (pre ++ { s with port2 := p.id } :: post).map (fun t => t.vwire_id) =
        (pre ++ s :: post).map (fun t => t.vwire_id) := by simp
    rw [← hm] at h1
    exact List.pairwise_map.1 h1
  · have hpe := hinv.pairs_eq
    simp only [List.countP_append, List.countP_cons, hfull_old, hfull_new] at hpe ⊢
    have e1 : pre.countP (slot_full (L ++ [p])) = pre.countP (slot_full L) :=
      List.countP_congr (fun t ht => by rw [slot_full_snoc_ne L p t (hpre t ht).2])
    have e2 : post.countP (slot_full (L ++ [p])) = post.countP (slot_full L) :=
      List.countP_congr (fun t ht => by rw [slot_full_snoc_ne L p t (hpost t ht)])
    rw [e1, e2]
    simp at hpe ⊢
    omega
  · rw [htaken]
    have := hinv.count_le
    simp only [List.length_append, List.length_singleton]
    omega
  · intro hsum q hq
    rw [htaken] at hsum
    simp only [List.length_append, List.length_singleton] at hsum
    rcases List.mem_append.1 hq with hq | hq
    · exact hids (fun v => v ≠ 0 ∧ v = q.vwire) (hinv.bound (by omega) q hq)
    · rw [List.mem_singleton.1 hq]
      exact ⟨_, mem_split_mid _ pre post, h0, hv⟩
  · intro hex q hq hq0
    rcases List.mem_append.1 hq with hq | hq
    · exact hids (fun v => v = q.vwire)
        (hinv.seen (hids' (fun v => v = 0) hex) q hq hq0)
    · rw [List.mem_singleton.1 hq]
      exact ⟨_, mem_split_mid _ pre post, hv⟩

theorem vwire_inv_take (L : List port_config_t) (pre post : List vwire_pair_t)
    (s : vwire_pair_t) (pairs : Nat) (p : port_config_t)
    (hinv : vwire_inv L (pre ++ s :: post) pairs)
    (hpre : ∀ t ∈ pre, t.vwire_id ≠ 0 ∧ t.vwire_id ≠ p.vwire)
    (h0 : s.vwire_id = 0) :
    vwire_inv (L ++ [p]) (pre ++ { s with vwire_id := p.vwire, port1 := p.id } :: post)
      pairs := by
  have hord := List.pairwise_append.1 hinv.order
  have hsp := List.pairwise_cons.1 hord.2.1
  have hpost : ∀ t ∈ post, t.vwire_id = 0 := by
    intro t ht
    by_contra hne
    exact (hsp.1 t ht hne).1 h0
  have hs2 : s.port2 = 0 := hinv.empty_port2 s (mem_split_mid s pre post) h0
  have hold_in_pre : ∀ t ∈ pre ++ s :: post, t.vwire_id ≠ 0 → t ∈ pre := by
    intro t ht hne
    rcases mem_split_cases ht with h | h | h
    · exact h
    · rw [h] at hne; exact absurd h0 hne
    · exact absurd (hpost t h) hne
  have hfull_post : ∀ (L' : List port_config_t), post.countP (slot_full L') = 0 := by
    intro L'
    apply List.countP_eq_zero.2
    intro t ht
    simp [slot_full_empty L' t (hpost t ht)]
  have hfull_pre : pre.countP (slot_full (L ++ [p])) = pre.countP (slot_full L) :=
    List.countP_congr (fun t ht => by rw [slot_full_snoc_ne L p t (hpre t ht).2])
  have hseen_old : ∀ q ∈ L, q.vwire ≠ 0 → ∃ t ∈ pre, t.vwire_id = q.vwire := by
    intro q hq hq0
    obtain ⟨t, ht, hte⟩ := hinv.seen ⟨s, mem_split_mid s pre post, h0⟩ q hq hq0
    exact ⟨t, hold_in_pre t ht (by rw [hte]; exact hq0), hte⟩
  by_cases hp0 : p.vwire = 0
  · -- the port carries pair id 0: the slot stays unused
    have htaken : (pre ++ { s with vwire_id := p.vwire, port1 := p.id } :: post).countP slot_taken
        = (pre ++ s :: post).countP slot_taken := by
      simp [List.countP_append, List.countP_cons, slot_taken, hp0, h0]
    refine ⟨?_, ?_, ?_, ?_, ?_, ?_, ?_⟩
    · intro t ht ht0
      rcases mem_split_cases ht with h | h | h
      · exact hinv.empty_port2 t (mem_split_pre _ _ h) ht0
      · rw [h]; exact hs2
      · exact hinv.empty_port2 t (mem_split_post _ _ h) ht0
    · intro t ht ht0
      rcases mem_split_cases ht with h | h | h
      · rw [same_vwire_snoc_ne L p t.vwire_id (fun e => (hpre t h).2 e.symm)]
        exact hinv.taken_ok t (mem_split_pre _ _ h) ht0
      · rw [h] at ht0; exact absurd hp0 ht0
      · exact absurd (hpost t h) ht0
    · have h1 := (List.pairwise_map (f := fun t : vwire_pair_t => t.vwire_id)
        (R := fun a b : Nat => b ≠ 0 → a ≠ 0 ∧ a ≠ b)).2 hinv.order
      have hm : (pre ++ { s with vwire_id := p.vwire, port1 := p.id } :: post).map
          (fun t => t.vwire_id) = (pre ++ s :: post).map (fun t => t.vwire_id) := by
        simp [hp0, h0]
      rw [← hm] at h1
      exact List.pairwise_map.1 h1
    · have hpe := hinv.pairs_eq
      simp only [List.countP_append, List.countP_cons, hfull_post, hfull_pre,
        slot_full_empty L s h0] at hpe ⊢
      rw [slot_full_empty (L ++ [p]) { s with vwire_id := p.vwire, port1 := p.id } hp0]
      simpa using hpe
    · rw [htaken]
      have := hinv.count_le
      simp only [List.length_append, List.length_singleton]
      omega
    · intro hsum
      rw [htaken] at hsum
      have := hinv.count_le
      simp only [List.length_append, List.length_singleton] at hsum
      omega
    · intro _ q hq hq0
      rcases List.mem_append.1 hq with hq | hq
      · obtain ⟨t, ht, hte⟩ := hseen_old q hq hq0
        exact ⟨t, mem_split_pre _ _ ht, hte⟩
      · rw [List.mem_singleton.1 hq] at hq0
        exact absurd hp0 hq0
  · -- the port opens a new pair
    have hnone : same_vwire L p.vwire = [] := by
      apply List.eq_nil_iff_forall_not_mem.2
      intro q hq
      have hq' := List.mem_filter.1 hq
      have hqv : q.vwire = p.vwire := by simpa using hq'.2
      obtain ⟨t, ht, hte⟩ := hseen_old q hq'.1 (by rw [hqv]; exact hp0)
      exact (hpre t ht).2 (hte.trans hqv)
    have htaken : (pre ++ { s with vwire_id := p.vwire, port1 := p.id } :: post).countP slot_taken
        = (pre ++ s :: post).countP slot_taken + 1 := by
      simp [List.countP_append, List.countP_cons, slot_taken, hp0, h0]
      omega
    refine ⟨?_, ?_, ?_, ?_, ?_, ?_, ?_⟩
    · intro t ht ht0
      rcases mem_split_cases ht with h | h | h
      · exact hinv.empty_port2 t (mem_split_pre _ _ h) ht0
      · rw [h] at ht0; exact absurd ht0 hp0
      · exact hinv.empty_port2 t (mem_split_post _ _ h) ht0
    · intro t ht ht0
      rcases mem_split_cases ht with h | h | h
      · rw [same_vwire_snoc_ne L p t.vwire_id (fun e => (hpre t h).2 e.symm)]
        exact hinv.taken_ok t (mem_split_pre _ _ h) ht0
      · left
        refine ⟨p, ?_, ?_, ?_⟩
        · rw [h]
          show same_vwire (L ++ [p]) p.vwire = [p]
          rw [same_vwire_snoc_eq, hnone]
          rfl
        · rw [h]
        · rw [h]; exact hs2
      · exact absurd (hpost t h) ht0
    · apply List.pairwise_append.2
      refine ⟨hord.1, List.pairwise_cons.2 ⟨?_, hsp.2⟩, ?_⟩
      · intro t ht hne
        exact absurd (hpost t ht) hne
      · intro a ha b hb hb0
        rcases List.mem_cons.1 hb with e | e
        · rw [e]; exact hpre a ha
        · exact absurd (hpost b e) hb0
    · have hpe := hinv.pairs_eq
      simp only [List.countP_append, List.countP_cons, hfull_post, hfull_pre,
        slot_full_empty L s h0] at hpe ⊢
      have hnew : slot_full (L ++ [p]) { s with vwire_id := p.vwire, port1 := p.id } = false := by
        simp [slot_full, same_vwire_snoc_eq, hnone]
      rw [hnew]
      simpa using hpe
    · rw [htaken]
      have := hinv.count_le
      simp only [List.length_append, List.length_singleton]
      omega
    · intro hsum q hq
      rw [htaken] at hsum
      simp only [List.length_append, List.length_singleton] at hsum
      rcases List.mem_append.1 hq with hq | hq
      · obtain ⟨t, ht, ht0, hte⟩ := hinv.bound (by omega) q hq
        exact ⟨t, mem_split_pre _ _ (hold_in_pre t ht ht0), ht0, hte⟩
      · rw [List.mem_singleton.1 hq]
        exact ⟨_, mem_split_mid _ pre post, hp0, rfl⟩
    · intro _ q hq hq0
      rcases List.mem_append.1 hq with hq | hq
      · obtain ⟨t, ht, hte⟩ := hseen_old q hq hq0
        exact ⟨t, mem_split_pre _ _ ht, hte⟩
      · rw [List.mem_singleton.1 hq]
        exact ⟨_, mem_split_mid _ pre post, rfl⟩

theorem vwire_inv_step (L : List port_config_t) (slots : List vwire_pair_t) (pairs : Nat)
    (p : port_config_t) (r : List vwire_pair_t × Nat) (hinv : vwire_inv L slots pairs)
    (hcap : (same_vwire (L ++ [p]) p.vwire).length ≤ 2)
    (hb : vwire_bind p slots pairs = some r) :
    vwire_inv (L ++ [p]) r.1 r.2 := by
  rcases vwire_bind_shape p slots pairs r hb with
    ⟨hr, hall⟩ | ⟨pre, s, post, hsplit, hpre, ⟨h0, hr⟩ | ⟨h0, hv, _, hr⟩⟩
  · rw [hr]
    exact vwire_inv_ignored L slots pairs p hinv hall
  · rw [hr]
    rw [hsplit] at hinv
    exact vwire_inv_take L pre post s pairs p hinv hpre h0
  · rw [hr]
    rw [hsplit] at hinv
    exact vwire_inv_fill L pre post s pairs p hinv hpre h0 hv hcap

theorem vwire_bind_length (p : port_config_t) (slots : List vwire_pair_t) (pairs : Nat)
    (r : List vwire_pair_t × Nat) (hb : vwire_bind p slots pairs = some r) :
    r.1.length = slots.length := by
  rcases vwire_bind_shape p slots pairs r hb with
    ⟨hr, _⟩ | ⟨pre, s, post, hsplit, _, ⟨_, hr⟩ | ⟨_, _, _, hr⟩⟩
  · rw [hr]
  · rw [hr, hsplit]; simp
  · rw [hr, hsplit]; simp

theorem same_vwire_append_le (L V : List port_config_t) (v : Nat) :
    (same_vwire L v).length ≤ (same_vwire (L ++ V) v).length := by
  simp [same_vwire, List.filter_append]

theorem vwire_inv_ports (ports : List port_config_t) :
    ∀ (L : List port_config_t) (slots : List vwire_pair_t) (pairs : Nat)
      (r : List vwire_pair_t × Nat),
      vwire_inv L slots pairs →
      (∀ v, (same_vwire (L ++ vwire_ports ports) v).length ≤ 2) →
      vwire_bind_ports ports slots pairs = some r →
      vwire_inv (L ++ vwire_ports ports) r.1 r.2 ∧ r.1.length = slots.length := by
  induction ports with
  | nil =>
    intro L slots pairs r hinv _ hb
    simp only [vwire_bind_ports, Option.some.injEq] at hb
    rw [← hb]
    simpa [vwire_ports] using hinv
  | cons p ps ih =>
    intro L slots pairs r hinv hcap hb
    unfold vwire_bind_ports at hb
    by_cases hp : p.type = PORT_TYPE_VWIRE
    · have hvp : vwire_ports (p :: ps) = p :: vwire_ports ps := by
        simp [vwire_ports, is_vwire, hp]
      have happ : L ++ vwire_ports (p :: ps) = (L ++ [p]) ++ vwire_ports ps := by
        rw [hvp]; simp
      rw [if_pos hp] at hb
      cases h1 : vwire_bind p slots pairs with
      | none => rw [h1] at hb; exact absurd hb (by simp)
      | some r1 =>
        rw [h1] at hb
        simp only at hb
        have hstep := vwire_inv_step L slots pairs p r1 hinv
          (le_trans (same_vwire_append_le (L ++ [p]) (vwire_ports ps) p.vwire)
            (by rw [← happ]; exact hcap p.vwire)) h1
        have := ih (L ++ [p]) r1.1 r1.2 r hstep (by rw [← happ]; exact hcap) hb
        rw [happ]
        exact ⟨this.1, this.2.trans (vwire_bind_length p slots pairs r1 h1)⟩
    · have hvp : vwire_ports (p :: ps) = vwire_ports ps := by
        simp [vwire_ports, is_vwire, hp]
      rw [if_neg hp] at hb
      rw [hvp] at hcap ⊢
      exact ih L slots pairs r hinv hcap hb

theorem vwire_inv_initial (n : Nat) :
    vwire_inv [] (List.replicate n { vwire_id := 0, port1 := 0, port2 := 0 }) 0 := by
  have hz : ∀ s ∈ List.replicate n ({ vwire_id := 0, port1 := 0, port2 := 0 } : vwire_pair_t),
      s = { vwire_id := 0, port1 := 0, port2 := 0 } := fun s hs => List.eq_of_mem_replicate hs
  refine ⟨?_, ?_, ?_, ?_, ?_, ?_, ?_⟩
  · intro s hs _; rw [hz s hs]
  · intro s hs h0; rw [hz s hs] at h0; exact absurd rfl h0
  · apply List.Pairwise.imp_of_mem (R := fun _ _ => True)
    · intro a b _ hb _ hb0
      rw [hz b hb] at hb0
      exact absurd rfl hb0
    · exact List.pairwise_of_forall (fun _ _ => trivial)
  · symm
    apply List.countP_eq_zero.2
    intro s hs
    rw [hz s hs]
    simp [slot_full]
  · have : (List.replicate n ({ vwire_id := 0, port1 := 0, port2 := 0 } : vwire_pair_t)).countP
        slot_taken = 0 := by
      apply List.countP_eq_zero.2
      intro s hs
      rw [hz s hs]
      simp [slot_taken]
    rw [this]
    simp
  · intro _ p hp
    exact absurd hp (List.not_mem_nil p)
  · intro _ p hp
    exact absurd hp (List.not_mem_nil p)

theorem id_injective_of_nodup (V : List port_config_t) (hids : (V.map (fun p => p.id)).Nodup)
    (a b : port_config_t) (ha : a ∈ V) (hb : b ∈ V) (h : a.id = b.id) : a = b :=
  List.inj_on_of_nodup_map hids ha hb h

theorem vwire_pair_lookup_full (V : List port_config_t)
    (hids : (V.map (fun p => p.id)).Nodup) (P p1 p2 : port_config_t) (hP : P ∈ V)
    (hcls : same_vwire V P.vwire = [p1, p2]) (slots : List vwire_pair_t) :
    (∀ s ∈ slots, ∃ q1 q2, same_vwire V s.vwire_id = [q1, q2] ∧ s.port1 = q1.id ∧
      s.port2 = q2.id) →
    (∃ s ∈ slots, s.vwire_id = P.vwire) →
    vwire_pair_lookup P.id slots = if P.id = p1.id then p2.id else p1.id := by
  have hmem : ∀ (v : Nat) (q : port_config_t), q ∈ same_vwire V v → q ∈ V ∧ q.vwire = v := by
    intro v q hq
    have := List.mem_filter.1 hq
    exact ⟨this.1, by simpa using this.2⟩
  have hPcls : P = p1 ∨ P = p2 := by
    have : P ∈ same_vwire V P.vwire := List.mem_filter.2 ⟨hP, by simp⟩
    rw [hcls] at this
    simpa using this
  have hp1 : p1 ∈ V := (hmem P.vwire p1 (by rw [hcls]; simp)).1
  have hp2 : p2 ∈ V := (hmem P.vwire p2 (by rw [hcls]; simp)).1
  have hne : p1.id ≠ p2.id := by
    have hsub : List.Sublist [p1, p2] V := by
      rw [← hcls]; exact List.filter_sublist _
    have := (hsub.map (fun p => p.id)).nodup hids
    simpa using this
  induction slots with
  | nil => intro _ ⟨s, hs, _⟩; exact absurd hs (List.not_mem_nil s)
  | cons t rest ih =>
    intro hfull hex
    obtain ⟨q1, q2, hq, hq1, hq2⟩ := hfull t (List.mem_cons_self _ _)
    have hq1m := hmem t.vwire_id q1 (by rw [hq]; simp)
    have hq2m := hmem t.vwire_id q2 (by rw [hq]; simp)
    unfold vwire_pair_lookup
    by_cases h1 : t.port1 = P.id
    · rw [if_pos h1]
      have e : q1 = P := id_injective_of_nodup V hids q1 P hq1m.1 hP (hq1.symm.trans h1)
      have ev : t.vwire_id = P.vwire := by rw [← hq1m.2, e]
      rw [ev, hcls] at hq
      simp only [List.cons.injEq, and_true] at hq
      rw [hq2, ← hq.2, if_pos (by rw [hq.1, e])]
    · rw [if_neg h1]
      by_cases h2 : t.port2 = P.id
      · rw [if_pos h2]
        have e : q2 = P := id_injective_of_nodup V hids q2 P hq2m.1 hP (hq2.symm.trans h2)
        have ev : t.vwire_id = P.vwire := by rw [← hq2m.2, e]
        rw [ev, hcls] at hq
        simp only [List.cons.injEq, and_true] at hq
        have hP2 : P = p2 := by rw [← e, hq.2]
        rw [hq1, ← hq.1, if_neg (by rw [hP2]; exact fun h => hne h.symm)]
      · rw [if_neg h2]
        apply ih (fun s hs => hfull s (List.mem_cons_of_mem _ hs))
        obtain ⟨s, hs, hsv⟩ := hex
        rcases List.mem_cons.1 hs with e | e
        · exfalso
          rw [e] at hsv
          rw [hsv, hcls] at hq
          simp only [List.cons.injEq, and_true] at hq
          rcases hPcls with h | h
          · exact h1 (by rw [hq1, ← hq.1, h])
          · exact h2 (by rw [hq2, ← hq.2, h])
        · exact ⟨s, e, hsv⟩

theorem interface_vwire_init_ok (malloc_ok : Bool) (itfc itfc' : interface_config_t)
    (hok : interface_vwire_init malloc_ok itfc = (0, itfc')) :
    ∃ r, vwire_bind_ports itfc.ports
        (List.replicate itfc.vwire_pair_num.toNat { vwire_id := 0, port1 := 0, port2 := 0 }) 0
          = some r ∧
      (r.2 : Int) = itfc.vwire_pair_num ∧ itfc' = { itfc with vwire_pairs := some r.1 } := by
  unfold interface_vwire_init at hok
  cases malloc_ok with
  | false => simp at hok
  | true =>
    simp only [if_true] at hok
    cases hb : vwire_bind_ports itfc.ports
        (List.replicate itfc.vwire_pair_num.toNat { vwire_id := 0, port1 := 0, port2 := 0 }) 0 with
    | none => rw [hb] at hok; simp at hok
    | some r =>
      rw [hb] at hok
      simp only at hok
      by_cases hn : (r.2 : Int) = itfc.vwire_pair_num
      · rw [if_neg (by simpa using hn)] at hok
        exact ⟨r, rfl, hn, (Prod.mk.inj hok).2.symm⟩
      · rw [if_pos hn] at hok
        simp at hok

/-- C8 (amended). Let the virtual-wire ports of a port table have pairwise distinct
ids and let no pair id be carried by more than two of them. If
`interface_vwire_init`, run as `interface_load` runs it (with `vwire_pair_num` half
the number of virtual-wire ports), succeeds, then every virtual-wire port `P` has a
partner `Q = interface_vwire_pair(P)` that is another virtual-wire port of the table
with the same pair id, and `interface_vwire_pair(Q) = P`. -/
theorem vwire_pairing_symmetric (malloc_ok : Bool) (itfc itfc' : interface_config_t)
    (hnum : ((vwire_ports itfc.ports).length : Int) = 2 * itfc.vwire_pair_num)
    (hids : ((vwire_ports itfc.ports).map (fun p => p.id)).Nodup)
    (hshare : ∀ v, (same_vwire (vwire_ports itfc.ports) v).length ≤ 2)
    (hok : interface_vwire_init malloc_ok itfc = (0, itfc')) :
    vwire_pairing_ok itfc' := by
  obtain ⟨r, hb, hr2, hitfc⟩ := interface_vwire_init_ok malloc_ok itfc itfc' hok
  obtain ⟨hinv, hlen⟩ := vwire_inv_ports itfc.ports [] _ 0 r
    (vwire_inv_initial itfc.vwire_pair_num.toNat) (by simpa using hshare) hb
  simp only [List.nil_append, List.length_replicate] at hinv hlen
  have hN : itfc.vwire_pair_num.toNat = r.2 := by rw [← hr2]; simp
  have hVlen : (vwire_ports itfc.ports).length = 2 * r.2 := by
    rw [← hr2] at hnum
    exact_mod_cast hnum
  -- every slot is in use and holds two ports
  have hfull : ∀ s ∈ r.1, slot_full (vwire_ports itfc.ports) s = true := by
    apply List.countP_eq_length.1
    rw [← hinv.pairs_eq, hlen, hN]
  have htaken : r.1.countP slot_taken = r.1.length := by
    apply List.countP_eq_length.2
    intro s hs
    have := hfull s hs
    simp only [slot_full, Bool.and_eq_true] at this
    exact this.1
  have hslots : ∀ s ∈ r.1, ∃ q1 q2, same_vwire (vwire_ports itfc.ports) s.vwire_id = [q1, q2] ∧
      s.port1 = q1.id ∧ s.port2 = q2.id := by
    intro s hs
    have hf := hfull s hs
    simp only [slot_full, Bool.and_eq_true, decide_eq_true_eq] at hf
    rcases hinv.taken_ok s hs hf.1 with ⟨q1, h1, _, _⟩ | h
    · rw [h1] at hf
      simp at hf
    · exact h
  have hbound := hinv.bound (by rw [htaken, hlen, hN, hVlen]; omega)
  have hpair : ∀ x, interface_vwire_pair itfc' x = vwire_pair_lookup x r.1 := by
    intro x
    rw [hitfc]
    simp only [interface_vwire_pair, Option.getD_some]
    rw [List.take_of_length_le (by rw [hlen])]
  intro P hP hPt
  have hports : itfc'.ports = itfc.ports := by rw [hitfc]
  rw [hports] at hP
  have hPV : P ∈ vwire_ports itfc.ports :=
    List.mem_filter.2 ⟨hP, by simpa [is_vwire] using hPt⟩
  obtain ⟨s, hs, _, hsv⟩ := hbound P hPV
  obtain ⟨p1, p2, hcls, _, _⟩ := hslots s hs
  rw [hsv] at hcls
  have hmem : ∀ q, q ∈ [p1, p2] → q ∈ vwire_ports itfc.ports ∧ q.vwire = P.vwire := by
    intro q hq
    rw [← hcls] at hq
    have := List.mem_filter.1 hq
    exact ⟨this.1, by simpa using this.2⟩
  have hPcls : P = p1 ∨ P = p2 := by
    have : P ∈ same_vwire (vwire_ports itfc.ports) P.vwire :=
      List.mem_filter.2 ⟨hPV, by simp⟩
    rw [hcls] at this
    simpa using this
  have hne : p1.id ≠ p2.id := by
    have hsub : List.Sublist [p1, p2] (vwire_ports itfc.ports) := by
      rw [← hcls]; exact List.filter_sublist _
    have := (hsub.map (fun p => p.id)).nodup hids
    simpa using this
  have hlook : ∀ Q, Q ∈ [p1, p2] →
      interface_vwire_pair itfc' Q.id = if Q.id = p1.id then p2.id else p1.id := by
    intro Q hQ
    rw [hpair]
    have hQm := hmem Q hQ
    exact vwire_pair_lookup_full (vwire_ports itfc.ports) hids Q p1 p2 hQm.1
      (by rw [hQm.2]; exact hcls) r.1 hslots ⟨s, hs, by rw [hsv, hQm.2]⟩
  have hin : ∀ q, q ∈ [p1, p2] → q ∈ itfc'.ports ∧ q.type = PORT_TYPE_VWIRE := by
    intro q hq
    have := List.mem_filter.1 (hmem q hq).1
    rw [hports]
    exact ⟨this.1, by simpa [is_vwire] using this.2⟩
  rcases hPcls with h | h
  · refine ⟨p2, (hin p2 (by simp)).1, (hin p2 (by simp)).2, ?_, ?_, (hmem p2 (by simp)).2, ?_⟩
    · rw [hlook P (by rw [h]; simp), if_pos (by rw [h])]
    · rw [h]; exact fun e => hne e.symm
    · rw [hlook p2 (by simp), if_neg (fun e => hne e.symm), h]
  · refine ⟨p1, (hin p1 (by simp)).1, (hin p1 (by simp)).2, ?_, ?_, (hmem p1 (by simp)).2, ?_⟩
    · rw [hlook P (by rw [h]; simp), if_neg (by rw [h]; exact fun e => hne e.symm)]
    · rw [h]; exact hne
    · rw [hlook p1 (by simp), if_pos rfl, h]

/-- C8 (witness). Ports 0 and 1 on pair 7, ports 2 and 3 on pair 9, listed
interleaved: `interface_vwire_init` succeeds and the pairing is symmetric and total. -/
theorem vwire_pairing_symmetric_witness :
    ((vwire_ports itfc_two_pairs.ports).length : Int) = 2 * itfc_two_pairs.vwire_pair_num ∧
    ((vwire_ports itfc_two_pairs.ports).map (fun p => p.id)).Nodup ∧
    (interface_vwire_init true itfc_two_pairs).1 = 0 ∧
    vwire_pairing_ok (interface_vwire_init true itfc_two_pairs).2 :=
  ⟨by decide, by decide, by decide,
   vwire_pairing_symmetric true itfc_two_pairs (interface_vwire_init true itfc_two_pairs).2
     (by decide) (by decide)
     (by
       intro v
       simp only [itfc_two_pairs, vwire_ports, vwire_port, same_vwire, is_vwire, PORT_TYPE_VWIRE,
         List.filter_cons, decide_True, if_true, List.filter_nil]
       split_ifs <;> first | (simp; done) | (simp at *; omega))
     (by decide)⟩

/-! ## Registration of modules -/

theorem MODULE_REGISTER_apply {M : Type} (modules : module_table M) (m : module_t M) (j : Nat) :
    MODULE_REGISTER modules m j =
      if (MOD_ID_NONE < m.id ∧ m.id < MOD_ID_MAX ∧ (modules m.id).isNone = true) ∧ j = m.id
      then some m else modules j := by
  unfold MODULE_REGISTER
  by_cases hc : MOD_ID_NONE < m.id ∧ m.id < MOD_ID_MAX ∧ (modules m.id).isNone = true
  · rw [if_pos hc]
    by_cases hj : j = m.id
    · rw [if_pos ⟨hc, hj⟩, hj, Function.update_same]
    · rw [if_neg (fun h => hj h.2), Function.update_noteq hj]
  · rw [if_neg hc, if_neg (fun h => hc h.1)]

theorem modules_load_apply {M : Type} (sect : List (module_t M)) :
    ∀ (modules : module_table M) (id : Nat), MOD_ID_NONE < id → id < MOD_ID_MAX →
      modules_load sect modules id =
        match modules id with
        | some m => some m
        | none => sect.find? (fun m => decide (m.id = id)) := by
  induction sect with
  | nil =>
    intro modules id _ _
    simp only [modules_load, List.foldl_nil, List.find?_nil]
    cases modules id <;> rfl
  | cons m rest ih =>
    intro modules id h0 h1
    have hstep : modules_load (m :: rest) modules = modules_load rest (MODULE_REGISTER modules m) :=
      rfl
    rw [hstep, ih (MODULE_REGISTER modules m) id h0 h1, MODULE_REGISTER_apply]
    cases hm : modules id with
    | some m0 =>
      have : ¬ ((MOD_ID_NONE < m.id ∧ m.id < MOD_ID_MAX ∧ (modules m.id).isNone = true) ∧
          id = m.id) := by
        rintro ⟨⟨_, _, hnone⟩, hid⟩
        rw [← hid, hm] at hnone
        simp at hnone
      rw [if_neg this]
    | none =>
      by_cases hid : m.id = id
      · have : (MOD_ID_NONE < m.id ∧ m.id < MOD_ID_MAX ∧ (modules m.id).isNone = true) ∧
            id = m.id := by
          refine ⟨⟨by rw [hid]; exact h0, by rw [hid]; exact h1, ?_⟩, hid.symm⟩
          rw [hid, hm]; rfl
        rw [if_pos this]
        simp [List.find?_cons, hid]
      · rw [if_neg (fun h => hid h.2.symm)]
        simp [List.find?_cons, hid]

/-- C20. Registration is first-wins per id. For every module table and modules `m1`,
`m2` with the same id in the valid range, registering `m2` after `m1` changes nothing,
and if the slot was empty before, it then holds `m1`; registering a module whose id is
taken, or whose id is outside the valid range, leaves the whole table unchanged;
registering into an empty valid slot changes that slot only; and `modules_load` from
the empty table leaves in every valid slot the first module of the section with that
id. -/
theorem module_register_first_wins {M : Type} (modules : module_table M) (m1 m2 : module_t M) :
    (MOD_ID_NONE < m1.id → m1.id < MOD_ID_MAX → m2.id = m1.id →
      MODULE_REGISTER (MODULE_REGISTER modules m1) m2 = MODULE_REGISTER modules m1 ∧
      (modules m1.id = none →
        MODULE_REGISTER (MODULE_REGISTER modules m1) m2 m1.id = some m1)) ∧
    ((modules m1.id).isSome = true → MODULE_REGISTER modules m1 = modules) ∧
    ((m1.id ≤ MOD_ID_NONE ∨ MOD_ID_MAX ≤ m1.id) → MODULE_REGISTER modules m1 = modules) ∧
    (MOD_ID_NONE < m1.id → m1.id < MOD_ID_MAX → modules m1.id = none →
      MODULE_REGISTER modules m1 m1.id = some m1 ∧
      ∀ j, j ≠ m1.id → MODULE_REGISTER modules m1 j = modules j) ∧
    (∀ (sect : List (module_t M)) (id : Nat), MOD_ID_NONE < id → id < MOD_ID_MAX →
      modules_load sect (fun _ => none) id = sect.find? (fun m => decide (m.id = id))) := by
  refine ⟨?_, ?_, ?_, ?_, ?_⟩
  · intro h0 h1 hid
    have htaken : ((MODULE_REGISTER modules m1) m2.id).isSome = true := by
      rw [hid, MODULE_REGISTER_apply]
      by_cases hn : (modules m1.id).isNone = true
      · rw [if_pos ⟨⟨h0, h1, hn⟩, rfl⟩]; rfl
      · rw [if_neg (fun h => hn h.1.2.2)]
        cases hm : modules m1.id with
        | none => rw [hm] at hn; exact absurd rfl hn
        | some _ => rfl
    have hsame : MODULE_REGISTER (MODULE_REGISTER modules m1) m2 = MODULE_REGISTER modules m1 := by
      funext j
      rw [ MODULE_REGISTER_apply (MODULE_REGISTER modules m1) m2 j]
      rw [if_neg]
      rintro ⟨⟨_, _, hnone⟩, _⟩
      rw [Option.isNone_iff_eq_none] at hnone
      rw [hnone] at htaken
      exact absurd htaken (by simp)
    refine ⟨hsame, ?_⟩
    intro hempty
    rw [hsame, MODULE_REGISTER_apply, if_pos ⟨⟨h0, h1, by rw [hempty]; rfl⟩, rfl⟩]
  · intro hs
    funext j
    rw [ MODULE_REGISTER_apply, if_neg]
    rintro ⟨⟨_, _, hnone⟩, _⟩
    rw [Option.isNone_iff_eq_none] at hnone
    rw [hnone] at hs
    exact absurd hs (by simp)
  · intro hout
    funext j
    rw [ MODULE_REGISTER_apply, if_neg]
    rintro ⟨⟨h0, h1, _⟩, _⟩
    omega
  · intro h0 h1 hempty
    refine ⟨?_, ?_⟩
    · rw [ MODULE_REGISTER_apply, if_pos ⟨⟨h0, h1, by rw [hempty]; rfl⟩, rfl⟩]
    · intro j hj
      rw [ MODULE_REGISTER_apply, if_neg (fun h => hj h.2)]
  · intro sect id h0 h1
    rw [modules_load_apply sect (fun _ => none) id h0 h1]

/-- C20 (witness). Two decoder modules registered one after the other into the empty
table: the slot `MOD_ID_DECODER` holds the first. -/
theorem module_register_first_wins_witness :
    MODULE_REGISTER
        (MODULE_REGISTER (fun _ => none) (logging_module MOD_ID_DECODER "decoder"))
        (stealing_module MOD_ID_DECODER "decoder") MOD_ID_DECODER
      = some (logging_module MOD_ID_DECODER "decoder") :=
  ((module_register_first_wins (fun _ => none) (logging_module MOD_ID_DECODER "decoder")
      (stealing_module MOD_ID_DECODER "decoder")).1 (by decide) (by decide) rfl).2 rfl

/-! ## The interface module at the hooks -/

/-- C11 (the code at the failing input). In the table of the two virtual-wire ports
id 1 and id 2 (pair 7), port 2 is of virtual-wire type with partner 1, but
`interface_proc_prerouting` takes the type from the array entry `ports[port_in]`, and
`ports[2]` lies behind the two entries that were filled in: a packet received on port
2 leaves `interface_proc` at `MOD_HOOK_PREROUTING` unchanged, `port_out` still 0. -/
theorem interface_proc_type_by_index :
    (load_ports [vwire_port_json 1 7, vwire_port_json 2 7]).1 = 0 ∧
    (config_pair_1_2.itf_cfg.map (fun itfc =>
      (itfc.ports.filter (fun p => decide (p.id = 2))).map (fun p => p.type)))
        = some [PORT_TYPE_VWIRE] ∧
    (config_pair_1_2.itf_cfg.map (fun itfc => interface_vwire_pair itfc 2)) = some 1 ∧
    (config_pair_1_2.itf_cfg.map (fun itfc => (port_at itfc 2).type)) = some PORT_TYPE_NONE ∧
    interface_proc config_pair_1_2 packet_on_port_2 MOD_HOOK_PREROUTING
      = (MOD_RET_ACCEPT, packet_on_port_2) := by
  decide

/-! ## The inspection worker -/

/-- C12 (the code at the failing input). Ports 0 and 1 are not of virtual-wire type. A
packet received on port 1, queue 0, in a buffer whose metadata still holds
`port_out = 0`, is stamped by `RX` with `port_in = 1` and pushed to the inspection
ring; no module writes `port_out`, and `WORKER`, run with a hook table that has an
entry for every hook point (and a readable entry behind every hook array), enqueues
the packet into the transmit ring of (port 0, queue 0) and leaves the ring of (port 1,
queue 0) empty. With the hook table compiled in, the same call of `WORKER` is
undefined, and every call of `modules_proc` for the hooks
`MOD_HOOK_INGRESS .. MOD_HOOK_LOCALOUT` leaves the stamped packet as it was. -/
theorem worker_forwards_on_stale_port_out :
    (plain_run (modules_proc_with hooks_by_hook hook_size_by_hook (fun _ => some MOD_ID_NONE)
        interface_table)).map
        (fun r => (r.1, r.2.1.map (fun m => m.priv.map (fun p => (p.port_in, p.port_out))), r.2.2))
      = some (0, [some (1, 0)], []) ∧
    plain_run (modules_proc interface_table) = none ∧
    (∀ hook ∈ [1, 2, 3, 4, 5, 6],
      modules_proc_run interface_table plain_config (rx_stamp 1 0 stale_buffer) hook
        = some (none, rx_stamp 1 0 stale_buffer)) := by
  refine ⟨by decide, by decide, by decide⟩

/-- C19 (the code at the failing input). `WORKER` hands `tx_queues[port_out][queue_id]`
to `rte_ring_enqueue` without testing it: when the entry is `NULL` the call is made on
no ring, and neither the release of the buffer nor the error return is reached. In the
snapshot of `plain_setup`, where (port 0, queue 1) has no transmit ring, a buffer for
(0, 1) that passes every hook makes `WORKER` undefined. A buffer without metadata is
released and `WORKER` returns -1. -/
theorem worker_enqueues_on_absent_ring :
    (∀ (config : config_t) (rings : ring_env) (mbuf : rte_mbuf) (p : packet_t),
      mbuf.priv = some p → tx_queue_at config p.port_out p.queue_id = some none →
      WORKER_forward config rings mbuf = none) ∧
    (∀ (config : config_t) (rings : ring_env) (mbuf : rte_mbuf), mbuf.priv = none →
      WORKER_forward config rings mbuf = some (-1, rings, { mbuf with freed := true })) ∧
    tx_queue_at plain_config 0 1 = some none ∧
    (WORKER_with accept_everywhere plain_config 2 plain_rings_queue_1).isNone = true := by
  refine ⟨?_, ?_, by decide, by decide⟩
  · intro config rings mbuf p hp htx
    simp [WORKER_forward, hp, htx, rte_ring_enqueue]
  · intro config rings mbuf hp
    simp [WORKER_forward, hp]

/-! ## The receive role -/

/-- C18 (the code at the failing input). The loop that stamps the packets of a burst
counts with `i`, the variable of the loop over the ports, and leaves the number of
packets in it. The `RTX` worker of `plain_setup` owns the ports 0 and 1 and the queue 0:
when no burst returns a packet both pairs (0, 0) and (1, 0) are polled, but when the
burst on (0, 0) returns two packets the loop over the ports ends and (1, 0) is not
polled. The two packets are stamped with port 0, queue 0. -/
theorem rx_skips_ports_after_burst :
    (RX no_packets plain_config 1 8 { rings := plain_rings, bursts := [] }).map
        (fun st => st.bursts) = some [(0, 0), (1, 0)] ∧
    (RX two_packets_first plain_config 1 8 { rings := plain_rings, bursts := [] }).map
        (fun st => (st.bursts,
          (st.rings.queue 3).map (fun m => m.priv.map (fun p => (p.port_in, p.queue_id)))))
      = some ([(0, 0)], [some (0, 0), some (0, 0)]) := by
  decide

/-! ## Loading and setting up the workers -/

theorem worker_load_entries_missing (es : List json_lcore) (e : json_lcore) (s : String)
    (he : e ∈ es) (hrole : e.role = some s)
    (howns : role_owns_queues (role_of_string s) = true)
    (hmiss : e.ports = none ∨ e.queues = none) :
    ∀ (i : Nat) (map : List Int) (ws : List worker_t) (r : Int × List Int × List worker_t),
      worker_load_entries es i map ws = some r → r.1 = -1 := by
  induction es with
  | nil => exact absurd he (List.not_mem_nil e)
  | cons jo rest ih =>
    intro i map ws r h
    unfold worker_load_entries at h
    cases hl : jo.lcore_id with
    | none =>
      rw [hl] at h
      simp only [Option.some.injEq] at h
      rw [← h]
    | some lcore_id =>
      cases hr : jo.role with
      | none =>
        rw [hl, hr] at h
        simp only [Option.some.injEq] at h
        rw [← h]
      | some role_str =>
        rw [hl, hr] at h
        simp only at h
        have hstore : ∀ (w : worker_t),
            (if 0 ≤ lcore_id ∧ lcore_id < MAX_WORKER_NUM then
              worker_load_entries rest (i + 1) (map.set lcore_id.toNat (i : Int)) (ws ++ [w])
            else none) = some r → e ∈ rest → r.1 = -1 := by
          intro w hw hin
          by_cases hrange : 0 ≤ lcore_id ∧ lcore_id < MAX_WORKER_NUM
          · rw [if_pos hrange] at hw
            exact ih hin _ _ _ r hw
          · rw [if_neg hrange] at hw
            exact absurd hw (by simp)
        by_cases ho : role_owns_queues (role_of_string role_str) = true
        · rw [if_pos ho] at h
          cases hp : jo.ports with
          | none =>
            rw [hp] at h
            simp only [Option.some.injEq] at h
            rw [← h]
          | some ports_str =>
            rw [hp] at h
            simp only at h
            by_cases h1 : (worker_split_port_by_comma ports_str MAX_PORT_NUM).length = 0
            · rw [if_pos h1] at h
              simp only [Option.some.injEq] at h
              rw [← h]
            · rw [if_neg h1] at h
              cases hq : jo.queues with
              | none =>
                rw [hq] at h
                simp only [Option.some.injEq] at h
                rw [← h]
              | some queues_str =>
                rw [hq] at h
                simp only at h
                by_cases h2 : (worker_split_queue_by_comma queues_str MAX_QUEUE_NUM).length = 0
                · rw [if_pos h2] at h
                  simp only [Option.some.injEq] at h
                  rw [← h]
                · rw [if_neg h2] at h
                  rcases List.mem_cons.1 he with e1 | e1
                  · exfalso
                    rcases hmiss with hm | hm
                    · rw [e1, hp] at hm
                      exact absurd hm (by simp)
                    · rw [e1, hq] at hm
                      exact absurd hm (by simp)
                  · exact hstore _ h e1
        · rw [if_neg ho] at h
          rcases List.mem_cons.1 he with e1 | e1
          · exfalso
            rw [e1, hr] at hrole
            rw [Option.some.inj hrole] at ho
            exact ho howns
          · exact hstore _ h e1

theorem worker_load_entries_defined (es : List json_lcore)
    (hids : ∀ x ∈ es, ∀ id, x.lcore_id = some id → 0 ≤ id ∧ id < MAX_WORKER_NUM) :
    ∀ (i : Nat) (map : List Int) (ws : List worker_t),
      (worker_load_entries es i map ws).isSome = true := by
  induction es with
  | nil => intro i map ws; rfl
  | cons jo rest ih =>
    intro i map ws
    have ih' := ih (fun x hx => hids x (List.mem_cons_of_mem _ hx))
    unfold worker_load_entries
    cases hl : jo.lcore_id with
    | none => rfl
    | some lcore_id =>
      cases hr : jo.role with
      | none => rfl
      | some role_str =>
        have hrange := hids jo (List.mem_cons_self _ _) lcore_id hl
        simp only [if_pos hrange]
        split_ifs
        · cases jo.ports with
          | none => rfl
          | some ports_str =>
            simp only
            split_ifs
            · rfl
            · cases jo.queues with
              | none => rfl
              | some queues_str =>
                simp only
                split_ifs
                · rfl
                · exact ih' _ _ _
        · exact ih' _ _ _

/-- C14 (counterexample). A `worker.json` whose only entry is lcore 3 with role `WORKER`
and neither a `ports` nor a `queues` field: `worker_load` returns 0 with a worker of
`port_num = 0` and `queue_num = 0`, and `worker_init` returns 0. -/
theorem worker_load_accepts_bare_worker :
    (worker_load true (worker_json [lcore_json 3 "WORKER" none none]) config_a_init).map
        (fun r => (r.1, r.2.workers))
      = some (0, some [{ lcore_id := 3, role := .ROLE_WORKER, ports := [], queues := [],
                         port_num := 0, queue_num := 0, work_queue := none }]) ∧
    (worker_init true (worker_json [lcore_json 3 "WORKER" none none]) config_a_init
        rings_initial).map (fun r => r.1) = some 0 := by
  decide

/-- C14 (amended). A `worker.json` with an entry whose role is `RX`, `TX`, `RTX` or
`RTX_WORKER` and whose `ports` or `queues` field is absent is never accepted:
`worker_load`, and hence `worker_init`, return -1 whenever they return, and they do
return when the lcore ids of the entries lie in `0 .. MAX_WORKER_NUM - 1`. The entry
of lcore 3 with role `WORKER` and neither field is accepted, with `port_num = 0` and
`queue_num = 0`. -/
theorem worker_load_lists_by_role (malloc_ok : Bool) (es : List json_lcore) (config : config_t)
    (rings : ring_env) (e : json_lcore) (s : String) (he : e ∈ es) (hrole : e.role = some s)
    (howns : role_owns_queues (role_of_string s) = true)
    (hmiss : e.ports = none ∨ e.queues = none) :
    (∀ r, worker_load malloc_ok (worker_json es) config = some r → r.1 = -1) ∧
    (∀ r, worker_init malloc_ok (worker_json es) config rings = some r → r.1 = -1) ∧
    ((∀ x ∈ es, ∀ id, x.lcore_id = some id → 0 ≤ id ∧ id < MAX_WORKER_NUM) →
      (worker_load malloc_ok (worker_json es) config).isSome = true ∧
      (worker_init malloc_ok (worker_json es) config rings).isSome = true) ∧
    (worker_load true (worker_json [lcore_json 3 "WORKER" none none]) config_a_init).map
        (fun r => (r.1, (r.2.workers.getD []).map (fun w => (w.role, w.port_num, w.queue_num))))
      = some (0, [(.ROLE_WORKER, 0, 0)]) := by
  have hload : ∀ r, worker_load malloc_ok (worker_json es) config = some r → r.1 = -1 := by
    intro r h
    unfold worker_load worker_json at h
    by_cases hw : config.workers.isSome = true
    · rw [if_pos hw] at h
      simp only [Option.some.injEq] at h
      rw [← h]
    · rw [if_neg hw] at h
      simp only at h
      cases malloc_ok with
      | false =>
        simp only [Bool.false_eq_true, if_false, Option.some.injEq] at h
        rw [← h]
      | true =>
        simp only [if_true] at h
        cases hle : worker_load_entries es 0 config.worker_map [] with
        | none => rw [hle] at h; exact absurd h (by simp)
        | some l =>
          rw [hle] at h
          simp only at h
          have hl := worker_load_entries_missing es e s he hrole howns hmiss 0 _ _ l hle
          rw [if_pos (by rw [hl]; decide)] at h
          simp only [Option.some.injEq] at h
          rw [← h]
  have hinit : ∀ r, worker_init malloc_ok (worker_json es) config rings = some r → r.1 = -1 := by
    intro r h
    unfold worker_init at h
    by_cases hw : config.workers.isSome = true
    · rw [if_pos hw] at h
      simp only [Option.some.injEq] at h
      rw [← h]
    · rw [if_neg hw] at h
      cases hl : worker_load malloc_ok (worker_json es) config with
      | none => rw [hl] at h; exact absurd h (by simp)
      | some l =>
        rw [hl] at h
        simp only at h
        have h1 := hload l hl
        rw [if_pos (by rw [h1]; decide)] at h
        simp only [Option.some.injEq] at h
        rw [← h]
        exact h1
  refine ⟨hload, hinit, ?_, by decide⟩
  intro hids
  have hsome : (worker_load malloc_ok (worker_json es) config).isSome = true := by
    unfold worker_load worker_json
    by_cases hw : config.workers.isSome = true
    · rw [if_pos hw]; rfl
    · rw [if_neg hw]
      simp only
      cases malloc_ok with
      | false => rfl
      | true =>
        simp only [if_true]
        have hd := worker_load_entries_defined es hids 0 config.worker_map []
        cases hle : worker_load_entries es 0 config.worker_map [] with
        | none => rw [hle] at hd; exact absurd hd (by simp)
        | some l =>
          simp only
          split_ifs <;> rfl
  refine ⟨hsome, ?_⟩
  unfold worker_init
  by_cases hw : config.workers.isSome = true
  · rw [if_pos hw]; rfl
  · rw [if_neg hw]
    cases hl : worker_load malloc_ok (worker_json es) config with
    | none => rw [hl] at hsome; exact absurd hsome (by simp)
    | some l =>
      simp only
      rw [if_pos (by rw [hload l hl]; decide)]
      rfl

/-- C14 (witness). The entry of lcore 3 with role `RX` and without `ports` and `queues`:
`worker_load` and `worker_init` return -1. -/
theorem worker_load_lists_by_role_witness :
    (worker_load true (worker_json [lcore_json 3 "RX" none none]) config_a_init).map
        (fun r => r.1) = some (-1) ∧
    (∀ r, worker_init true (worker_json [lcore_json 3 "RX" none none]) config_a_init
        rings_initial = some r → r.1 = -1) :=
  ⟨by decide,
   (worker_load_lists_by_role true [lcore_json 3 "RX" none none] config_a_init rings_initial
      (lcore_json 3 "RX" none none) "RX" (List.mem_singleton.2 rfl) rfl (by decide)
      (Or.inl rfl)).2.1⟩

/-- C15 (the code at the failing input). The clean-up loops of `worker_setup` run up to
`config->rxq_num` and `config->txq_num`, which are still 0 when a ring creation fails.
With two `WORKER` workers and the second creation failing, `worker_setup` returns -1
and the first inspection ring is still in `rx_queues[0]` and alive; with an `RX` worker
owning port 0 and the queues 0 and 1, the transmit ring of (0, 0) is still in
`tx_queues[0][0]` and alive. -/
theorem worker_setup_keeps_rings_on_failure :
    ((worker_load true (worker_json [lcore_json 2 "WORKER" none none,
          lcore_json 3 "WORKER" none none]) config_a_init).bind
        (fun l => worker_setup l.2 rings_one_creation)).map
        (fun r => (r.1, r.2.1.rx_queues[0]?, r.2.2.requests, r.2.2.live))
      = some (-1, some (some 1), [.rx 0, .rx 1], [1]) ∧
    ((worker_load true (worker_json [lcore_json 1 "RX" (some "0") (some "0,1")])
          config_a_init).bind
        (fun l => worker_setup l.2 rings_one_creation)).map
        (fun r => (r.1, tx_queue_at r.2.1 0 0, r.2.2.requests, r.2.2.live))
      = some (-1, some (some 1), [.tx 0 0, .tx 0 1], [1]) ∧
    config_a_init.rx_queues[0]? = some none ∧ tx_queue_at config_a_init 0 0 = some none := by
  refine ⟨?_, ?_, ?_, ?_⟩ <;> decide

/-! ## Ring creation in `worker_setup` -/

theorem tx_queue_at_set (c : config_t) (p q : Nat) (v x : Option Nat)
    (h : tx_queue_at c p q = some x) (p' q' : Nat) :
    tx_queue_at { c with tx_queues := c.tx_queues.set p ((c.tx_queues.getD p []).set q v) } p' q'
      = if p' = p ∧ q' = q then some v else tx_queue_at c p' q' := by
  unfold tx_queue_at at h ⊢
  simp only
  cases hrow : c.tx_queues[p]? with
  | none => rw [hrow] at h; exact absurd h (by simp)
  | some row =>
    rw [hrow] at h
    simp only at h
    have hp : p < c.tx_queues.length := by
      by_contra hn
      rw [List.getElem?_eq_none (by omega)] at hrow
      exact absurd hrow (by simp)
    have hq : q < row.length := by
      by_contra hn
      rw [List.getElem?_eq_none (by omega)] at h
      exact absurd h (by simp)
    rw [List.getD_eq_getElem?_getD, hrow, Option.getD_some, List.getElem?_set]
    by_cases e : p = p'
    · subst e
      rw [if_pos rfl, if_pos hp]
      simp only
      rw [List.getElem?_set]
      by_cases e2 : q = q'
      · subst e2
        rw [if_pos rfl, if_pos hq]
        simp
      · rw [if_neg e2]
        have e3 : ¬ (q' = q) := fun hh => e2 hh.symm
        simp [e3, hrow]
    · rw [if_neg e, if_neg (fun hh => e hh.1.symm)]

theorem tx_has_set (c : config_t) (p q hd : Nat)
    (h : tx_queue_at c p q = some none) (p' q' : Nat) :
    tx_has { c with tx_queues := c.tx_queues.set p ((c.tx_queues.getD p []).set q (some hd)) } p' q'
      = (decide (p' = p ∧ q' = q) || tx_has c p' q') := by
  unfold tx_has
  rw [tx_queue_at_set c p q (some hd) none h p' q']
  by_cases e : p' = p ∧ q' = q
  · simp [e]
  · simp [e]

theorem rte_ring_create_requests (env : ring_env) (name : ring_name) :
    (rte_ring_create env name).2.requests = env.requests ++ [name] := by
  unfold rte_ring_create
  simp only
  split_ifs <;> rfl

theorem setup_tx_spec (l : List (Nat × Nat)) :
    ∀ (s s' : setup_state), setup_tx l s = .next s' →
      s'.rxq = s.rxq ∧ s'.config.rx_queues = s.config.rx_queues ∧
      s'.config.workers = s.config.workers ∧
      (∀ p q, tx_has s'.config p q = (tx_has s.config p q || decide ((p, q) ∈ l))) ∧
      (∃ new, s'.rings.requests = s.rings.requests ++ new ∧
        (∀ n, new.count (.rx n) = 0) ∧
        ∀ p q, new.count (.tx p q) =
          if (p, q) ∈ l ∧ tx_has s.config p q = false then 1 else 0) := by
  induction l with
  | nil =>
    intro s s' h
    simp only [setup_tx, setup_step.next.injEq] at h
    rw [← h]
    exact ⟨rfl, rfl, rfl, by simp, [], by simp, by simp, by simp⟩
  | cons pq rest ih =>
    intro s s' h
    obtain ⟨p, q⟩ := pq
    unfold setup_tx at h
    cases htx : tx_queue_at s.config p q with
    | none => rw [htx] at h; exact absurd h (by simp)
    | some entry =>
      cases entry with
      | some h0 =>
        rw [htx] at h
        simp only at h
        obtain ⟨h1, h2, h3, h4, new, h5, h6, h7⟩ := ih s s' h
        have hhas : tx_has s.config p q = true := by
          unfold tx_has
          rw [htx]
        refine ⟨h1, h2, h3, ?_, new, h5, h6, ?_⟩
        · intro p' q'
          rw [h4]
          by_cases e : (p', q') = (p, q)
          · have e' := e
            rw [Prod.mk.injEq] at e'
            rw [e'.1, e'.2, hhas]
            simp
          · simp [List.mem_cons, e]
        · intro p' q'
          rw [h7]
          by_cases e : (p', q') = (p, q)
          · have e' := e
            rw [Prod.mk.injEq] at e'
            rw [e'.1, e'.2, hhas]
            simp
          · simp [List.mem_cons, e]
      | none =>
        rw [htx] at h
        simp only at h
        have hreq := rte_ring_create_requests s.rings (.tx p q)
        cases hcr : rte_ring_create s.rings (.tx p q) with
        | mk r rings =>
          rw [hcr] at h hreq
          simp only at hreq
          cases r with
          | none => exact absurd h (by simp)
          | some hd =>
            simp only at h
            obtain ⟨h1, h2, h3, h4, new, h5, h6, h7⟩ := ih _ s' h
            simp only at h1 h2 h3 h5
            have hnot : tx_has s.config p q = false := by
              unfold tx_has
              rw [htx]
            refine ⟨h1, h2, h3, ?_, ring_name.tx p q :: new, ?_, ?_, ?_⟩
            · intro p' q'
              rw [h4, tx_has_set s.config p q hd htx]
              by_cases e : (p', q') = (p, q)
              · have e' := e
                rw [Prod.mk.injEq] at e'
                simp [e']
              · have e' := e
                rw [Prod.mk.injEq] at e'
                simp [List.mem_cons, e, e']
            · rw [h5, hreq]
              simp
            · intro n
              rw [List.count_cons, h6]
              simp
            · intro p' q'
              rw [List.count_cons, h7, tx_has_set s.config p q hd htx]
              by_cases e : (p', q') = (p, q)
              · have e' := e
                rw [Prod.mk.injEq] at e'
                rw [e'.1, e'.2]
                simp [hnot]
              · have e' := e
                rw [Prod.mk.injEq] at e'
                have e2 : ¬ (p = p' ∧ q = q') := fun hh => e' ⟨hh.1.symm, hh.2.symm⟩
                simp [List.mem_cons, e, e', e2]

theorem rte_ring_create_handle (env env' : ring_env) (name : ring_name) (h : Nat)
    (hc : rte_ring_create env name = (some h, env')) : h = env.requests.length + 1 := by
  unfold rte_ring_create at hc
  simp only at hc
  split_ifs at hc
  · rw [Prod.mk.injEq, Option.some.injEq] at hc
    exact hc.1.symm
  · rw [Prod.mk.injEq] at hc
    exact absurd hc.1 (by simp)

theorem inspects_iff (w : worker_t) :
    inspects w = true ↔ (w.role = .ROLE_WORKER ∨ w.role = .ROLE_RTX_WORKER) := by
  unfold inspects
  simp

theorem setup_rx_spec (w w1 : worker_t) (s s1 : setup_state)
    (h : setup_rx w s = (.next s1, w1)) :
    (s1 = s ∧ w1 = w ∧
      (inspects w = true → ∃ r, s.config.rx_queues[s.rxq]? = some (some r))) ∨
    (inspects w = true ∧ s.config.rx_queues[s.rxq]? = some none ∧
      w1 = { w with work_queue := some (s.rings.requests.length + 1) } ∧
      s1.rxq = s.rxq + 1 ∧
      s1.config.rx_queues = s.config.rx_queues.set s.rxq (some (s.rings.requests.length + 1)) ∧
      s1.config.tx_queues = s.config.tx_queues ∧
      s1.rings.requests = s.rings.requests ++ [.rx s.rxq]) := by
  unfold setup_rx at h
  by_cases hr : w.role = .ROLE_WORKER ∨ w.role = .ROLE_RTX_WORKER
  · rw [if_pos hr] at h
    cases hq : s.config.rx_queues[s.rxq]? with
    | none => rw [hq] at h; exact absurd h (by simp)
    | some entry =>
      cases entry with
      | some r =>
        rw [hq] at h
        simp only [Prod.mk.injEq, setup_step.next.injEq] at h
        exact Or.inl ⟨h.1.symm, h.2.symm, fun _ => ⟨r, rfl⟩⟩
      | none =>
        rw [hq] at h
        simp only at h
        have hreq := rte_ring_create_requests s.rings (.rx s.rxq)
        cases hcr : rte_ring_create s.rings (.rx s.rxq) with
        | mk r rings =>
          rw [hcr] at h hreq
          simp only at hreq
          cases r with
          | none => exact absurd h (by simp)
          | some hd =>
            have hh := rte_ring_create_handle _ _ _ _ hcr
            simp only [Prod.mk.injEq, setup_step.next.injEq] at h
            right
            refine ⟨(inspects_iff w).2 hr, rfl, ?_, ?_, ?_, ?_, ?_⟩
            · rw [← h.2, hh]
            · rw [← h.1]
            · rw [← h.1, hh]
            · rw [← h.1]
            · rw [← h.1]
              exact hreq
  · rw [if_neg hr] at h
    simp only [Prod.mk.injEq, setup_step.next.injEq] at h
    refine Or.inl ⟨h.1.symm, h.2.symm, fun hi => absurd ((inspects_iff w).1 hi) hr⟩

theorem setup_tx_nil (s : setup_state) : setup_tx [] s = .next s := rfl

theorem setup_workers_cons (w : worker_t) (rest visited out : List worker_t)
    (s s' : setup_state)
    (h : setup_workers (w :: rest) s visited = (.next s', out)) :
    ∃ s1 w1 s2, setup_rx w s = (.next s1, w1) ∧
      setup_tx (if role_owns_queues w1.role then worker_pairs w1 else []) s1 = .next s2 ∧
      setup_workers rest s2 (visited ++ [w1]) = (.next s', out) := by
  unfold setup_workers at h
  cases hrx : setup_rx w s with
  | mk st w1 =>
    rw [hrx] at h
    cases st with
    | undefined => exact absurd h (by simp)
    | failed s1 => exact absurd h (by simp)
    | next s1 =>
      simp only at h
      by_cases ho : role_owns_queues w1.role = true
      · rw [if_pos ho] at h
        cases htx : setup_tx (worker_pairs w1) s1 with
        | undefined => rw [htx] at h; exact absurd h (by simp)
        | failed s2 => rw [htx] at h; exact absurd h (by simp)
        | next s2 =>
          rw [htx] at h
          exact ⟨s1, w1, s2, rfl, by rw [if_pos ho]; exact htx, h⟩
      · rw [if_neg ho] at h
        exact ⟨s1, w1, s1, rfl, by rw [if_neg ho]; rfl, h⟩

theorem setup_workers_nil (s s' : setup_state) (visited out : List worker_t)
    (h : setup_workers [] s visited = (.next s', out)) : s' = s ∧ out = visited := by
  unfold setup_workers at h
  simp only [Prod.mk.injEq, setup_step.next.injEq] at h
  exact ⟨h.1.symm, h.2.symm⟩

theorem no_rings_rx (config : config_t) (h : no_rings config = true) (k r : Nat) :
    config.rx_queues[k]? ≠ some (some r) := by
  unfold no_rings at h
  rw [Bool.and_eq_true, List.all_eq_true, List.all_eq_true] at h
  intro hk
  have := h.1 _ (List.getElem?_mem hk)
  simp at this

theorem inspects_without_queue (w1 w : worker_t)
    (h : without_queue w1 = without_queue w) : inspects w1 = inspects w := by
  have e : w1.role = w.role := by
    have h2 := congrArg worker_t.role h
    exact h2
  unfold inspects
  rw [e]

theorem setup_worker_step (w w1 : worker_t) (s s1 s2 : setup_state) (l : List (Nat × Nat))
    (hrx : setup_rx w s = (.next s1, w1)) (htx : setup_tx l s1 = .next s2)
    (hnull : ∀ r, s.config.rx_queues[s.rxq]? ≠ some (some r)) :
    without_queue w1 = without_queue w ∧
    s2.rxq = s.rxq + (if inspects w = true then 1 else 0) ∧
    (∀ k, k ≠ s.rxq → s2.config.rx_queues[k]? = s.config.rx_queues[k]?) ∧
    s.rings.requests.length ≤ s2.rings.requests.length ∧
    (inspects w = true →
      w1.work_queue = some (s.rings.requests.length + 1) ∧
      s2.config.rx_queues[s.rxq]? = some (some (s.rings.requests.length + 1)) ∧
      s.rings.requests.length + 1 ≤ s2.rings.requests.length) := by
  obtain ⟨t1, t2, _, _, new, t3, _, _⟩ := setup_tx_spec l s1 s2 htx
  rcases setup_rx_spec w w1 s s1 hrx with ⟨e1, e2, e3⟩ | ⟨e1, e2, e3, e4, e5, _, e6⟩
  · have hni : ¬ (inspects w = true) := by
      intro hi
      obtain ⟨r, hr⟩ := e3 hi
      exact hnull r hr
    rw [e1] at t1 t2 t3
    refine ⟨by rw [e2], by rw [t1, if_neg hni]; rfl, fun k _ => by rw [t2], ?_,
      fun hi => absurd hi hni⟩
    rw [t3, List.length_append]
    omega
  · have hlt : s.rxq < s.config.rx_queues.length := by
      by_contra hn
      rw [List.getElem?_eq_none (by omega)] at e2
      exact absurd e2 (by simp)
    have hlen : s2.rings.requests.length = s.rings.requests.length + 1 + new.length := by
      rw [t3, e6, List.length_append, List.length_append]
      rfl
    refine ⟨by rw [e3]; rfl, by rw [t1, e4, if_pos e1], ?_, by omega, fun _ => ⟨by rw [e3], ?_, by omega⟩⟩
    · intro k hk
      rw [t2, e5, List.getElem?_set_ne (fun hh => hk hh.symm)]
    · rw [t2, e5, List.getElem?_set, if_pos rfl, if_pos hlt]

theorem setup_workers_rx (ws : List worker_t) :
    ∀ (s s' : setup_state) (visited out : List worker_t),
      setup_workers ws s visited = (.next s', out) →
      (∀ k r, s.rxq ≤ k → s.config.rx_queues[k]? ≠ some (some r)) →
      ∃ tail, out = visited ++ tail ∧
        tail.map without_queue = ws.map without_queue ∧
        s'.rxq = s.rxq + (ws.filter inspects).length ∧
        (∀ k, k < s.rxq → s'.config.rx_queues[k]? = s.config.rx_queues[k]?) ∧
        s.rings.requests.length ≤ s'.rings.requests.length ∧
        (∀ i w, tail[i]? = some w → inspects w = true →
          ∃ h, w.work_queue = some h ∧
            s'.config.rx_queues[s.rxq + ((ws.take i).filter inspects).length]?
              = some (some h) ∧
            s.rings.requests.length < h ∧ h ≤ s'.rings.requests.length) ∧
        (∀ (i j : Nat) wi wj, i < j → tail[i]? = some wi → tail[j]? = some wj →
          inspects wi = true → inspects wj = true →
          ∃ hi hj, wi.work_queue = some hi ∧ wj.work_queue = some hj ∧ hi < hj) := by
  induction ws with
  | nil =>
    intro s s' visited out h _
    obtain ⟨h1, h2⟩ := setup_workers_nil s s' visited out h
    rw [h1, h2]
    refine ⟨[], by simp, rfl, by simp, fun _ _ => rfl, le_refl _, ?_, ?_⟩
    · intro i w hw
      simp at hw
    · intro i j wi wj _ hw
      simp at hw
  | cons w rest ih =>
    intro s s' visited out h hnull
    obtain ⟨s1, w1, s2, hrx, htx, hrest⟩ := setup_workers_cons w rest visited out s s' h
    obtain ⟨a1, a2, a3, a4, a5⟩ :=
      setup_worker_step w w1 s s1 s2 _ hrx htx (fun r => hnull s.rxq r (le_refl _))
    have hi1 : inspects w1 = inspects w := inspects_without_queue w1 w a1
    have hnull2 : ∀ k r, s2.rxq ≤ k → s2.config.rx_queues[k]? ≠ some (some r) := by
      intro k r hk
      by_cases e : k = s.rxq
      · by_cases hi : inspects w = true
        · rw [a2, if_pos hi] at hk
          omega
        · rw [e]
          intro hh
          have hne := hnull s.rxq r (le_refl _)
          rcases setup_rx_spec w w1 s s1 hrx with ⟨e1, _, _⟩ | ⟨e1, _⟩
          · obtain ⟨_, t2, _⟩ := setup_tx_spec _ s1 s2 htx
            rw [t2, e1] at hh
            exact hne hh
          · exact hi e1
      · rw [a3 k e]
        exact hnull k r (by rw [a2] at hk; omega)
    obtain ⟨tail, b1, b2, b3, b4, b5, b6, b7⟩ := ih s2 s' _ out hrest hnull2
    refine ⟨w1 :: tail, ?_, ?_, ?_, ?_, by omega, ?_, ?_⟩
    · rw [b1]
      simp
    · rw [List.map_cons, List.map_cons, a1, b2]
    · rw [b3, a2, List.filter_cons]
      by_cases hi : inspects w = true
      · rw [if_pos hi, if_pos hi, List.length_cons]
        omega
      · rw [if_neg hi, if_neg hi]
        omega
    · intro k hk
      rw [b4 k (by rw [a2]; omega), a3 k (by omega)]
    · intro i x hx hix
      cases i with
      | zero =>
        simp only [List.getElem?_cons_zero, Option.some.injEq] at hx
        rw [← hx] at hix ⊢
        rw [hi1] at hix
        obtain ⟨c1, c2, c3⟩ := a5 hix
        refine ⟨_, c1, ?_, by omega, by omega⟩
        simp only [List.take_zero, List.filter_nil, List.length_nil, Nat.add_zero]
        rw [b4 s.rxq (by rw [a2, if_pos hix]; omega)]
        exact c2
      | succ i =>
        simp only [List.getElem?_cons_succ] at hx
        obtain ⟨hd, c1, c2, c3, c4⟩ := b6 i x hx hix
        refine ⟨hd, c1, ?_, by omega, c4⟩
        rw [← c2, a2, List.take_succ_cons, List.filter_cons]
        by_cases hi : inspects w = true
        · rw [if_pos hi, if_pos hi, List.length_cons]
          congr 1
          omega
        · rw [if_neg hi, if_neg hi]
          rfl
    · intro i j wi wj hij hwi hwj hii hij2
      cases j with
      | zero => omega
      | succ j =>
        simp only [List.getElem?_cons_succ] at hwj
        obtain ⟨hj, d1, _, d3, _⟩ := b6 j wj hwj hij2
        cases i with
        | zero =>
          simp only [List.getElem?_cons_zero, Option.some.injEq] at hwi
          rw [← hwi, hi1] at hii
          obtain ⟨c1, _, c3⟩ := a5 hii
          rw [← hwi]
          exact ⟨_, hj, c1, d1, by omega⟩
        | succ i =>
          simp only [List.getElem?_cons_succ] at hwi
          exact b7 i j wi wj (by omega) hwi hwj hii hij2

theorem worker_setup_success (config config' : config_t) (rings rings' : ring_env)
    (ws : List worker_t) (hws : config.workers = some ws)
    (hres : worker_setup config rings = some (0, config', rings')) :
    config.worker_num.toNat ≤ ws.length ∧
    ∃ s out, setup_workers (ws.take config.worker_num.toNat)
        { config := config, rings := rings, rxq := 0, txq := 0 } [] = (.next s, out) ∧
      config' = { s.config with
        workers := some (out ++ ws.drop config.worker_num.toNat),
        rxq_num := s.rxq, txq_num := (s.txq : Int) + 1 } ∧
      rings' = s.rings := by
  unfold worker_setup at hres
  rw [hws] at hres
  simp only at hres
  split_ifs at hres with hn
  refine ⟨hn, ?_⟩
  cases hsw : setup_workers (ws.take config.worker_num.toNat)
      { config := config, rings := rings, rxq := 0, txq := 0 } [] with
  | mk st out =>
    rw [hsw] at hres
    cases st with
    | undefined => exact absurd hres (by simp)
    | failed s =>
      simp only at hres
      split at hres
      · exact absurd hres (by simp)
      · split at hres
        · exact absurd hres (by simp)
        · simp only [Option.some.injEq, Prod.mk.injEq] at hres
          exact absurd hres.1 (by decide)
    | next s =>
      simp only [Option.some.injEq, Prod.mk.injEq, true_and] at hres
      exact ⟨s, out, rfl, hres.1.symm, hres.2.symm⟩

/-- Claim C17: after a successful `worker_setup` on a snapshot with no rings, `rxq_num`
is the number of workers whose role is `WORKER` or `RTX_WORKER`; the worker table is
the one before the call up to the `work_queue` fields; the worker at index `i` with
such a role, `k` such workers standing before it in the table, has as `work_queue`
the ring in `rx_queues[k]`; and two such workers at different indices have different
rings. -/
theorem worker_setup_rx_rings (config config' : config_t) (rings rings' : ring_env)
    (ws : List worker_t) (hws : config.workers = some ws)
    (hno : no_rings config = true)
    (hres : worker_setup config rings = some (0, config', rings')) :
    config'.rxq_num = (((ws.take config.worker_num.toNat).filter inspects).length : Int) ∧
    ∃ ws', config'.workers = some ws' ∧
      ws'.map without_queue = ws.map without_queue ∧
      (∀ (i : Nat) w, i < config.worker_num.toNat → ws'[i]? = some w → inspects w = true →
        ∃ h, w.work_queue = some h ∧
          config'.rx_queues[((ws.take i).filter inspects).length]? = some (some h)) ∧
      (∀ (i j : Nat) wi wj, i < config.worker_num.toNat → j < config.worker_num.toNat →
        i ≠ j → ws'[i]? = some wi → ws'[j]? = some wj →
        inspects wi = true → inspects wj = true → wi.work_queue ≠ wj.work_queue) := by
  obtain ⟨hn, s, out, hsw, hc, _⟩ := worker_setup_success config config' rings rings' ws hws hres
  obtain ⟨tail, b1, b2, b3, _, _, b6, b7⟩ :=
    setup_workers_rx _ _ _ _ _ hsw (fun k r _ => no_rings_rx config hno k r)
  simp only [List.nil_append] at b1
  simp only [Nat.zero_add] at b3 b6
  have hlen : tail.length = config.worker_num.toNat := by
    have := congrArg List.length b2
    rw [List.length_map, List.length_map, List.length_take] at this
    omega
  have hget : ∀ i, i < config.worker_num.toNat →
      (tail ++ ws.drop config.worker_num.toNat)[i]? = tail[i]? := by
    intro i hi
    exact List.getElem?_append_left (by omega)
  rw [hc]
  refine ⟨by simp only; rw [b3], tail ++ ws.drop config.worker_num.toNat, by rw [b1],
    ?_, ?_, ?_⟩
  · rw [List.map_append, b2, ← List.map_append, List.take_append_drop]
  · intro i w hi hw hiw
    rw [hget i hi] at hw
    obtain ⟨h, c1, c2, _⟩ := b6 i w hw hiw
    refine ⟨h, c1, ?_⟩
    rw [List.take_take, Nat.min_eq_left (by omega)] at c2
    exact c2
  · intro i j wi wj hi hj hij hwi hwj hii hij2
    rw [hget i hi] at hwi
    rw [hget j hj] at hwj
    rcases Nat.lt_or_gt_of_ne hij with hlt | hgt
    · obtain ⟨a, b, e1, e2, e3⟩ := b7 i j wi wj hlt hwi hwj hii hij2
      rw [e1, e2]
      intro hh
      rw [Option.some.injEq] at hh
      omega
    · obtain ⟨a, b, e1, e2, e3⟩ := b7 j i wj wi hgt hwj hwi hij2 hii
      rw [e1, e2]
      intro hh
      rw [Option.some.injEq] at hh
      omega

theorem worker_setup_rx_rings_witness :
    ∃ ws config' rings', shared_pair_config.workers = some ws ∧
      no_rings shared_pair_config = true ∧
      worker_setup shared_pair_config rings_initial = some (0, config', rings') ∧
      (config'.rxq_num =
        (((ws.take shared_pair_config.worker_num.toNat).filter inspects).length : Int) ∧
      ∃ ws', config'.workers = some ws' ∧
        ws'.map without_queue = ws.map without_queue ∧
        (∀ (i : Nat) w, i < shared_pair_config.worker_num.toNat → ws'[i]? = some w →
          inspects w = true →
          ∃ h, w.work_queue = some h ∧
            config'.rx_queues[((ws.take i).filter inspects).length]? = some (some h)) ∧
        (∀ (i j : Nat) wi wj, i < shared_pair_config.worker_num.toNat →
          j < shared_pair_config.worker_num.toNat →
          i ≠ j → ws'[i]? = some wi → ws'[j]? = some wj →
          inspects wi = true → inspects wj = true → wi.work_queue ≠ wj.work_queue)) :=
  ⟨_, _, _, rfl, by decide, rfl,
    worker_setup_rx_rings shared_pair_config _ rings_initial _ _ rfl (by decide) rfl⟩

/-! ## The life-cycle loops of the module table -/

theorem after_calls_cons (e : Nat × (config_t → Int × config_t))
    (fs : List (Nat × (config_t → Int × config_t))) (config : config_t) :
    after_calls (e :: fs) config = after_calls fs (e.2 config).2 :=
  rfl

theorem callback_entry_due {M : Type} (modules : module_table M)
    (cb : module_t M → Option (config_t → Int × config_t)) (id : Nat) :
    (callback_entry modules cb id = none ∧ callback_due modules cb id = false) ∨
    (∃ m f, modules id = some m ∧ m.enabled = true ∧ cb m = some f ∧
      callback_entry modules cb id = some (id, f) ∧ callback_due modules cb id = true) := by
  unfold callback_entry callback_due
  cases hm : modules id with
  | none => exact Or.inl ⟨rfl, rfl⟩
  | some m =>
    cases hf : cb m with
    | none =>
      left
      simp [hf]
    | some f =>
      by_cases he : m.enabled = true
      · right
        exact ⟨m, f, rfl, he, hf, by simp [he, hf], by simp [he, hf]⟩
      · left
        simp [he]

theorem due_callbacks_ids {M : Type} (modules : module_table M)
    (cb : module_t M → Option (config_t → Int × config_t)) (ids : List Nat) :
    (due_callbacks modules cb ids).map Prod.fst = ids.filter (callback_due modules cb) ∧
    ∀ e ∈ due_callbacks modules cb ids,
      ∃ m, modules e.1 = some m ∧ m.enabled = true ∧ cb m = some e.2 := by
  induction ids with
  | nil => exact ⟨rfl, fun e he => absurd he (List.not_mem_nil e)⟩
  | cons id tl ih =>
    unfold due_callbacks at ih ⊢
    rcases callback_entry_due modules cb id with ⟨h1, h2⟩ | ⟨m, f, h1, h2, h3, h4, h5⟩
    · rw [List.filterMap_cons, h1, List.filter_cons_of_neg (by rw [h2]; simp)]
      exact ih
    · rw [List.filterMap_cons, h4, List.filter_cons_of_pos h5, List.map_cons, ih.1]
      refine ⟨rfl, ?_⟩
      intro e he
      rcases List.mem_cons.1 he with e1 | e1
      · rw [e1]
        exact ⟨m, h1, h2, h3⟩
      · exact ih.2 e e1

theorem modules_foreach_spec {M : Type} (modules : module_table M)
    (cb : module_t M → Option (config_t → Int × config_t)) (ids : List Nat) :
    ∀ config : config_t,
      ∃ called rest, due_callbacks modules cb ids = called ++ rest ∧
        (modules_foreach modules cb ids config).2 = after_calls called config ∧
        (∀ pre e post, called = pre ++ e :: post → post ≠ [] →
          (e.2 (after_calls pre config)).1 = 0) ∧
        ((∃ pre e, called = pre ++ [e] ∧ (e.2 (after_calls pre config)).1 ≠ 0 ∧
            (modules_foreach modules cb ids config).1 = -1) ∨
         (rest = [] ∧
            (∀ pre e post, called = pre ++ e :: post →
              (e.2 (after_calls pre config)).1 = 0) ∧
            (modules_foreach modules cb ids config).1 = 0)) := by
  induction ids with
  | nil =>
    intro config
    refine ⟨[], [], rfl, rfl, ?_, Or.inr ⟨rfl, ?_, rfl⟩⟩
    · intro pre e post h
      exact absurd h (by simp)
    · intro pre e post h
      exact absurd h (by simp)
  | cons id tl ih =>
    intro config
    rcases callback_entry_due modules cb id with ⟨h1, _⟩ | ⟨m, f, hm, he, hf, h4, _⟩
    · have hp : due_callbacks modules cb (id :: tl) = due_callbacks modules cb tl := by
        unfold due_callbacks
        rw [List.filterMap_cons, h1]
      have hl : modules_foreach modules cb (id :: tl) config
          = modules_foreach modules cb tl config := by
        unfold callback_entry at h1
        rw [modules_foreach]
        cases hm : modules id with
        | none => rfl
        | some m =>
          rw [hm] at h1
          simp only at h1 ⊢
          cases hf : cb m with
          | none => rfl
          | some f =>
            rw [hf] at h1
            simp only
            by_cases he : m.enabled = true
            · rw [if_pos he] at h1
              exact absurd h1 (by simp)
            · rw [if_neg he]
      rw [hp, hl]
      exact ih config
    · have hp : due_callbacks modules cb (id :: tl)
          = (id, f) :: due_callbacks modules cb tl := by
        unfold due_callbacks
        rw [List.filterMap_cons, h4]
      by_cases hz : (f config).1 ≠ 0
      · have hl : modules_foreach modules cb (id :: tl) config = (-1, (f config).2) := by
          rw [modules_foreach]
          simp only [hm, hf, he, if_true, if_pos hz]
        rw [hp, hl]
        refine ⟨[(id, f)], due_callbacks modules cb tl, rfl, rfl, ?_,
          Or.inl ⟨[], (id, f), rfl, hz, rfl⟩⟩
        intro pre e post h hne
        cases pre with
        | nil =>
          simp only [List.nil_append, List.cons.injEq] at h
          exact absurd h.2.symm hne
        | cons x pre =>
          simp only [List.cons_append, List.cons.injEq] at h
          exact absurd h.2 (by simp)
      · have hz0 : (f config).1 = 0 := not_not.1 hz
        have hl : modules_foreach modules cb (id :: tl) config
            = modules_foreach modules cb tl (f config).2 := by
          rw [modules_foreach]
          simp only [hm, hf, he, if_true, if_neg hz]
        obtain ⟨called, rest, h1, h2, h3, h5⟩ := ih (f config).2
        rw [hp, hl]
        have hall : ∀ (P : Prop),
            (∀ pre e post, called = pre ++ e :: post → (post ≠ [] ∨ P) →
              (e.2 (after_calls pre (f config).2)).1 = 0) →
            ∀ pre e post, (id, f) :: called = pre ++ e :: post → (post ≠ [] ∨ P) →
              (e.2 (after_calls pre config)).1 = 0 := by
          intro P hh pre e post h hne
          cases pre with
          | nil =>
            simp only [List.nil_append, List.cons.injEq] at h
            rw [← h.1]
            exact hz0
          | cons x pre =>
            simp only [List.cons_append, List.cons.injEq] at h
            rw [← h.1, after_calls_cons]
            exact hh pre e post h.2 hne
        refine ⟨(id, f) :: called, rest, by rw [h1]; rfl, by rw [h2]; rfl, ?_, ?_⟩
        · intro pre e post h hne
          exact hall False (fun pre e post h hn => h3 pre e post h (hn.resolve_right not_false))
            pre e post h (Or.inl hne)
        · rcases h5 with ⟨pre, e, c1, c2, c3⟩ | ⟨c1, c2, c3⟩
          · exact Or.inl ⟨(id, f) :: pre, e, by rw [c1]; rfl,
              by rw [after_calls_cons]; exact c2, c3⟩
          · refine Or.inr ⟨c1, ?_, c3⟩
            intro pre e post h
            exact hall True (fun pre e post h _ => c2 pre e post h) pre e post h
              (Or.inr trivial)

/-- Claim C21: let `run` be the result of `modules_init`, `modules_conf` or `modules_free`
and `cb` the callback `init`, `conf` resp. `free`. The callbacks due are those of the
entries with an id in `0 .. MOD_ID_MAX - 1` that are registered, enabled and have the
callback, in increasing order of the ids. The callbacks invoked are an initial part of
them, each invoked on the snapshot as the one before left it, and the snapshot returned
is the one the last of them left. Every callback invoked before the last one returned
0. Either the last one returned non-zero, no callback of a larger id was invoked and the
function returns -1, or every callback due was invoked and returned 0 and the function
returns 0. -/
theorem modules_lifecycle_fail_fast {M : Type} (modules : module_table M) (config : config_t)
    (cb : module_t M → Option (config_t → Int × config_t)) (run : Int × config_t)
    (hrun : (cb = (fun m => m.init) ∧ run = modules_init modules config) ∨
      (cb = (fun m => m.conf) ∧ run = modules_conf modules config) ∨
      (cb = (fun m => m.free) ∧ run = modules_free modules config)) :
    (due_callbacks modules cb (List.range MOD_ID_MAX)).map Prod.fst
      = (List.range MOD_ID_MAX).filter (callback_due modules cb) ∧
    ((due_callbacks modules cb (List.range MOD_ID_MAX)).map Prod.fst).Pairwise
      (fun a b => a < b) ∧
    (∀ e ∈ due_callbacks modules cb (List.range MOD_ID_MAX),
      ∃ m, modules e.1 = some m ∧ m.enabled = true ∧ cb m = some e.2) ∧
    ∃ called rest, due_callbacks modules cb (List.range MOD_ID_MAX) = called ++ rest ∧
      run.2 = after_calls called config ∧
      (∀ pre e post, called = pre ++ e :: post → post ≠ [] →
        (e.2 (after_calls pre config)).1 = 0) ∧
      ((∃ pre e, called = pre ++ [e] ∧ (e.2 (after_calls pre config)).1 ≠ 0 ∧ run.1 = -1) ∨
       (rest = [] ∧
          (∀ pre e post, called = pre ++ e :: post → (e.2 (after_calls pre config)).1 = 0) ∧
          run.1 = 0)) := by
  have hrun2 : run = modules_foreach modules cb (List.range MOD_ID_MAX) config := by
    rcases hrun with ⟨h1, h2⟩ | ⟨h1, h2⟩ | ⟨h1, h2⟩
    · rw [h1, h2]
      rfl
    · rw [h1, h2]
      rfl
    · rw [h1, h2]
      rfl
  obtain ⟨d1, d2⟩ := due_callbacks_ids modules cb (List.range MOD_ID_MAX)
  refine ⟨d1, ?_, d2, ?_⟩
  · rw [d1]
    exact List.Pairwise.filter _ (List.pairwise_lt_range MOD_ID_MAX)
  · rw [hrun2]
    exact modules_foreach_spec modules cb (List.range MOD_ID_MAX) config

theorem modules_lifecycle_fail_fast_witness :
    modules_conf conf_table config_a_init = (-1, { config_a_init with cli_sockfd := 12 }) ∧
    ∃ called rest,
      due_callbacks conf_table (fun m => m.conf) (List.range MOD_ID_MAX) = called ++ rest ∧
      (modules_conf conf_table config_a_init).2 = after_calls called config_a_init ∧
      (∀ pre e post, called = pre ++ e :: post → post ≠ [] →
        (e.2 (after_calls pre config_a_init)).1 = 0) ∧
      ((∃ pre e, called = pre ++ [e] ∧ (e.2 (after_calls pre config_a_init)).1 ≠ 0 ∧
          (modules_conf conf_table config_a_init).1 = -1) ∨
       (rest = [] ∧
          (∀ pre e post, called = pre ++ e :: post →
            (e.2 (after_calls pre config_a_init)).1 = 0) ∧
          (modules_conf conf_table config_a_init).1 = 0)) :=
  ⟨by decide,
   (modules_lifecycle_fail_fast conf_table config_a_init (fun m => m.conf)
      (modules_conf conf_table config_a_init) (Or.inr (Or.inl ⟨rfl, rfl⟩))).2.2.2⟩

/-! ## The reload: frame and generation counter -/

/-- Claim C22: for either slot `c`, `config_reload(c)` leaves `c` as it was and writes
the other slot, which afterwards holds the copy of `c` as the `conf` callbacks left it
with `reload_mark` and `switch_mark` both 0; when the callbacks leave the copy as it
is, the other slot equals `c` in every field but these two. The generation table
`_config_index` and the pointers `config` and `_config` are left alone. -/
theorem config_reload_writes_other_slot {M : Type} (modules : module_table M) (g : Globals)
    (c : config_ref) :
    (config_reload modules g c).2.get c = g.get c ∧
    (config_reload modules g c).2.get c.other
      = { (modules_conf modules (g.get c)).2 with reload_mark := 0, switch_mark := 0 } ∧
    ((modules_conf modules (g.get c)).2 = g.get c →
      (config_reload modules g c).2.get c.other
        = { g.get c with reload_mark := 0, switch_mark := 0 }) ∧
    (config_reload modules g c).2._config_index = g._config_index ∧
    (config_reload modules g c).2.config = g.config ∧
    (config_reload modules g c).2._config = g._config := by
  have h2 : (config_reload modules g c).2.get c.other
      = { (modules_conf modules (g.get c)).2 with reload_mark := 0, switch_mark := 0 } := by
    cases c <;> rfl
  refine ⟨by cases c <;> rfl, h2, ?_, by cases c <;> rfl, by cases c <;> rfl,
    by cases c <;> rfl⟩
  intro h
  rw [h2, h]

theorem config_reload_writes_other_slot_witness :
    (modules_conf interface_table (globals_two_workers.get .a)).2 = globals_two_workers.get .a ∧
    (globals_two_workers.get .a).reload_mark = 1 ∧
    (config_reload interface_table globals_two_workers .a).2.get .b
      = { globals_two_workers.get .a with reload_mark := 0, switch_mark := 0 } :=
  ⟨by decide, by decide,
   (config_reload_writes_other_slot interface_table globals_two_workers .a).2.2.1 (by decide)⟩

/-- Claim C23: `config_reload` always returns 1 and sets `config_index` to 1 when it was
`<= 0` and to `config_index + 1` otherwise, so that for every prior value below `INT_MAX`
the value after the reload is strictly greater. Nothing else writes `config_index`: the
worker side of `config_switch`, the retirement that ends its management side, and the
start and the switch check of `main_loop` leave it as it is, and the management side of
`config_switch` returns with the value it was left at during its wait. -/
theorem config_index_strictly_increasing {M : Type} (modules : module_table M)
    (env : Nat → Globals → Globals) (fuel : Nat) (g : Globals) (c : config_ref) :
    (config_reload modules g c).1 = 1 ∧
    (g.config_index ≤ 0 → (config_reload modules g c).2.config_index = 1) ∧
    (0 < g.config_index → g.config_index < INT_MAX →
      (config_reload modules g c).2.config_index = g.config_index + 1) ∧
    (g.config_index < INT_MAX →
      g.config_index < (config_reload modules g c).2.config_index) ∧
    (∀ lcore_id r, lcore_id ≠ -1 → config_switch modules env fuel g c lcore_id = some r →
      r.2.config_index = g.config_index) ∧
    (∀ r, config_switch modules env fuel g c (-1) = some r →
      ∃ k, r.2.config_index = (observed env 0 g k).config_index) ∧
    (retire modules g c).config_index = g.config_index ∧
    (∀ arg lcore_id g1, main_loop_enter g arg lcore_id = some g1 →
      g1.config_index = g.config_index) ∧
    (∀ lcore_id g1, main_loop_switch modules g lcore_id = some g1 →
      g1.config_index = g.config_index) := by
  have hci : (config_reload modules g c).2.config_index
      = if g.config_index ≤ 0 then 1 else wrap_int (g.config_index + 1) := by
    cases c <;> rfl
  have hle : g.config_index ≤ 0 → (config_reload modules g c).2.config_index = 1 := by
    intro h
    rw [hci, if_pos h]
  have hgt : 0 < g.config_index → g.config_index < INT_MAX →
      (config_reload modules g c).2.config_index = g.config_index + 1 := by
    intro h0 h1
    rw [hci, if_neg (by omega), wrap_int_succ _ h0 h1]
  have hworker : ∀ lcore_id r, lcore_id ≠ -1 →
      config_switch modules env fuel g c lcore_id = some r →
      r.2.config_index = g.config_index := by
    intro lcore_id r hne h
    unfold config_switch at h
    rw [if_neg hne] at h
    by_cases hr : 0 ≤ lcore_id ∧ lcore_id < MAX_WORKER_NUM
    · rw [dif_pos hr] at h
      simp only [Option.some.injEq] at h
      rw [← h]
    · rw [dif_neg hr] at h
      exact absurd h (by simp)
  refine ⟨rfl, hle, hgt, ?_, hworker, ?_, retire_config_index modules g c, ?_, ?_⟩
  · intro h
    by_cases h0 : g.config_index ≤ 0
    · rw [hle h0]
      omega
    · rw [hgt (by omega) h]
      omega
  · intro r h
    rw [config_switch_mgmt_eq] at h
    obtain ⟨k, _, _, _, hr⟩ := wait_some modules env c fuel 0 g r h
    exact ⟨k, by rw [hr]; exact retire_config_index modules _ c⟩
  · intro arg lcore_id g1 h
    unfold main_loop_enter at h
    by_cases hr : 0 ≤ lcore_id ∧ lcore_id < MAX_WORKER_NUM
    · rw [dif_pos hr] at h
      simp only [Option.some.injEq] at h
      rw [← h]
    · rw [dif_neg hr] at h
      exact absurd h (by simp)
  · intro lcore_id g1 h
    unfold main_loop_switch at h
    by_cases hr : 0 ≤ lcore_id ∧ lcore_id < MAX_WORKER_NUM
    · rw [dif_pos hr] at h
      simp only at h
      by_cases hm : (g.get (g._config ⟨lcore_id.toNat, by omega⟩)).switch_mark ≠ 0
      · rw [if_pos hm] at h
        cases hs : config_switch modules (fun _ x => x) 0 g
            (g._config ⟨lcore_id.toNat, by omega⟩) lcore_id with
        | none => rw [hs] at h; exact absurd h (by simp)
        | some r =>
          rw [hs] at h
          simp only [Option.some.injEq] at h
          rw [← h]
          unfold config_switch at hs
          rw [if_neg (by omega), dif_pos hr] at hs
          simp only [Option.some.injEq] at hs
          rw [← hs]
      · rw [if_neg hm] at h
        simp only [Option.some.injEq] at h
        rw [← h]
    · rw [dif_neg hr] at h
      exact absurd h (by simp)

theorem config_index_strictly_increasing_witness :
    globals_one_behind.config_index = 1 ∧
    (config_reload failing_conf_table globals_one_behind .a).2.config_index = 2 :=
  ⟨by decide,
   (config_index_strictly_increasing failing_conf_table (fun _ x => x) 0 globals_one_behind
      .a).2.2.1 (by decide) (by decide)⟩

/-! ## The transmit-queue count of `worker_setup` -/

/-- C25 (the code at the failing input). The tables `hooks` and `hook_size` have seven
entries, for the hooks `hook_ingress .. hook_egress`, while `mod_hook_t` has the nine
values `MOD_HOOK_RECV = 0 .. MOD_HOOK_SEND = 8`: the lookups `hooks[hook]` and
`hook_size[hook]` are inside the tables for the hooks 0 .. 6 and outside for
`MOD_HOOK_EGRESS = 7`, which `WORKER` dispatches, and for `MOD_HOOK_SEND = 8`, where
`modules_proc` is undefined whatever the module table, the snapshot and the packet. -/
theorem hook_tables_miss_egress_and_send :
    hooks.length = 7 ∧ hook_size.length = 7 ∧
    MOD_HOOK_RECV = 0 ∧ MOD_HOOK_EGRESS = 7 ∧ MOD_HOOK_SEND = 8 ∧
    (∀ hook, hook < 7 → (hooks[hook]?).isSome = true ∧ (hook_size[hook]?).isSome = true) ∧
    hooks[ MOD_HOOK_EGRESS]? = none ∧ hook_size[ MOD_HOOK_EGRESS]? = none ∧
    hooks[ MOD_HOOK_SEND]? = none ∧ hook_size[ MOD_HOOK_SEND]? = none ∧
    MOD_HOOK_EGRESS ∈ WORKER_hook_range ∧
    (∀ (modules : module_table rte_mbuf) (config : config_t) (pkt : rte_mbuf),
      modules_proc modules config pkt MOD_HOOK_EGRESS = none ∧
      modules_proc modules config pkt MOD_HOOK_SEND = none) := by
  refine ⟨by decide, by decide, by decide, by decide, by decide, by decide, by decide,
    by decide, by decide, by decide, by decide, ?_⟩
  intro modules config pkt
  exact ⟨rfl, rfl⟩

/-- C26 (the code at the failing input). `worker_setup` accepts a worker table with an
`RTX` worker and no `WORKER` or `RTX_WORKER`, and leaves `rxq_num = 0`. When a burst then
returns a packet, `RX` computes `queue_id % config->rxq_num` with `rxq_num = 0`: the call
is undefined, for every bound on the iterations of its loops. When no burst returns a
packet the division is not reached and `RX` returns. -/
theorem rx_ring_index_divides_by_zero :
    receive_only_setup.map (fun r => (r.1, r.2.1.rxq_num,
        (r.2.1.workers.getD []).map (fun w => w.role)))
      = some (0, 0, [.ROLE_RTX]) ∧
    (∀ fuel, receive_only_setup.bind (fun r =>
        RX two_packets_first r.2.1 1 fuel { rings := r.2.2, bursts := [] }) = none) ∧
    (receive_only_setup.bind (fun r =>
        RX no_packets r.2.1 1 8 { rings := r.2.2, bursts := [] })).map (fun st => st.bursts)
      = some [(0, 0)] := by
  refine ⟨by decide, ?_, by decide⟩
  intro fuel
  cases fuel <;> rfl

/-- C30 (the code at the failing input). `worker_load` stores `worker_map[lcore_id] = i`
without comparing `lcore_id` with the size of the array: an entry with lcore id 7 is
accepted, and for an entry with lcore id 8, or -1, the write is made outside the
`MAX_WORKER_NUM` entries of `worker_map` (the result is undefined, not the error -1).
`main_loop` and `config_switch` on lcore 8 access `_config_index[8]` outside that table
as well. -/
theorem worker_load_lcore_id_unchecked :
    MAX_WORKER_NUM = 8 ∧ config_a_init.worker_map.length = MAX_WORKER_NUM ∧
    (worker_load true (worker_json [lcore_json 7 "WORKER" none none]) config_a_init).map
        (fun r => (r.1, (r.2.workers.getD []).map (fun w => w.lcore_id), r.2.worker_map))
      = some (0, [7], [0, 0, 0, 0, 0, 0, 0, 0]) ∧
    worker_load true (worker_json [lcore_json 8 "WORKER" none none]) config_a_init = none ∧
    worker_load true (worker_json [lcore_json (-1) "WORKER" none none]) config_a_init = none ∧
    main_loop_enter Globals.initial .a 8 = none ∧
    config_switch failing_conf_table (fun _ x => x) 0 Globals.initial .a 8 = none := by
  refine ⟨by decide, by decide, by decide, by decide, by decide, rfl, rfl⟩

/-! ## Splitting a port or queue list at its commas -/

theorem char_toNat_comma (c : Char) : c.toNat = 44 ↔ c = ',' := by
  constructor
  · intro h
    apply Char.ext
    apply UInt32.ext
    exact h
  · intro h
    rw [h]
    rfl

theorem comma_fields_ne_nil (cs : List Char) : comma_fields cs ≠ [] := by
  cases cs with
  | nil => simp [comma_fields]
  | cons c cs =>
    unfold comma_fields
    split_ifs
    · simp
    · split <;> simp

theorem comma_fields_eq_splitOn (cs : List Char) : comma_fields cs = cs.splitOn ',' := by
  induction cs with
  | nil => rfl
  | cons c cs ih =>
    unfold comma_fields
    rw [List.splitOn, List.splitOnP_cons]
    by_cases h : c.toNat = 44
    · rw [if_pos h, if_pos (by rw [(char_toNat_comma c).1 h]; rfl), ih]
      rfl
    · have hne : ¬ ((c == ',') = true) := by
        intro hh
        exact h ((char_toNat_comma c).2 (by simpa using hh))
      rw [if_neg h, if_neg hne]
      have hnn := comma_fields_ne_nil cs
      rw [ih] at hnn ⊢
      rw [List.splitOn] at hnn ⊢
      cases hs : List.splitOnP (fun x => x == ',') cs with
      | nil => exact absurd hs hnn
      | cons f fs => rfl

theorem comma_fields_length (cs : List Char) :
    (comma_fields cs).length = cs.count ',' + 1 := by
  induction cs with
  | nil => rfl
  | cons c cs ih =>
    unfold comma_fields
    by_cases h : c.toNat = 44
    · rw [if_pos h, List.length_cons, ih, (char_toNat_comma c).1 h, List.count_cons_self]
    · have hne : c ≠ ',' := fun hh => h ((char_toNat_comma c).2 hh)
      rw [if_neg h, List.count_cons_of_ne hne.symm, ← ih]
      have hnn := comma_fields_ne_nil cs
      cases hs : comma_fields cs with
      | nil => exact absurd hs hnn
      | cons f fs => rfl

/-- Claim C29: for every string of fewer than 512 bytes and every `max >= 1`,
`worker_split_port_by_comma` returns `min (number of commas + 1, max)`, which is at
least 1, and `out[i]` holds, for every `i` below the result, the `atoi` value of the
`i`-th comma-separated field converted to 16 bits; for the empty string it returns 1
and stores 0; for a string of 512 bytes or more it returns 0 and stores nothing. -/
theorem worker_split_port_by_comma_fields (s : String) (max : Nat) (hmax : 1 ≤ max) :
    (s.utf8ByteSize < 512 →
      (worker_split_port_by_comma s max).length = min (s.toList.count ',' + 1) max ∧
      1 ≤ (worker_split_port_by_comma s max).length ∧
      ∀ i, i < (worker_split_port_by_comma s max).length →
        (worker_split_port_by_comma s max)[i]?
          = ((comma_separated_fields s)[i]?).map (fun f => (atoi f % 65536).toNat)) ∧
    (512 ≤ s.utf8ByteSize → worker_split_port_by_comma s max = []) ∧
    worker_split_port_by_comma "" max = [0] := by
  refine ⟨?_, ?_, ?_⟩
  · intro hlen
    have hdef : worker_split_port_by_comma s max
        = ((comma_fields s.toList).take max).map (fun f => (atoi f % 65536).toNat) := by
      unfold worker_split_port_by_comma
      rw [if_neg (by omega)]
    have hl : (worker_split_port_by_comma s max).length
        = min (s.toList.count ',' + 1) max := by
      rw [hdef, List.length_map, List.length_take, comma_fields_length, Nat.min_comm]
    refine ⟨hl, by rw [hl]; omega, ?_⟩
    intro i hi
    rw [hl] at hi
    rw [hdef, List.getElem?_map, List.getElem?_take, if_pos (by omega)]
    unfold comma_separated_fields
    rw [comma_fields_eq_splitOn]
  · intro hlen
    unfold worker_split_port_by_comma
    rw [if_pos (by omega)]
  · obtain ⟨k, hk⟩ : ∃ k, max = k + 1 := ⟨max - 1, by omega⟩
    rw [hk]
    have h0 : ¬ ("".utf8ByteSize ≥ 512) := by decide
    unfold worker_split_port_by_comma
    rw [if_neg h0]
    have hf : comma_fields "".toList = [[]] := by decide
    rw [hf, List.take_succ_cons, List.take_nil]
    decide

theorem worker_split_port_by_comma_fields_witness :
    worker_split_port_by_comma "3,70000,x" 2 = [3, 4464] ∧
    (worker_split_port_by_comma "3,70000,x" 2).length
      = min ("3,70000,x".toList.count ',' + 1) 2 :=
  ⟨by decide,
   ((worker_split_port_by_comma_fields "3,70000,x" 2 (by decide)).1 (by decide)).1⟩

/-! ## The resource pools of the flow API -/

theorem getD_set_eq {α : Type} (l : List α) (i j : Nat) (v d : α) (hi : i < l.length) :
    (l.set i v).getD j d = if j = i then v else l.getD j d := by
  rw [List.getD_eq_getElem?_getD, List.getD_eq_getElem?_getD, List.getElem?_set]
  by_cases h : i = j
  · rw [if_pos h, if_pos hi, if_pos h.symm]
    rfl
  · rw [if_neg h, if_neg (fun e => h e.symm)]

theorem res_grows_refl (res : flow_nic_res) : res_grows res res :=
  ⟨rfl, rfl, rfl, fun _ => Or.inl ⟨rfl, rfl⟩⟩

theorem res_grows_trans (a b c : flow_nic_res) (h1 : res_grows a b) (h2 : res_grows b c) :
    res_grows a c := by
  obtain ⟨a1, a2, a3, a4⟩ := h1
  obtain ⟨b1, b2, b3, b4⟩ := h2
  refine ⟨b1.trans a1, b2.trans a2, b3.trans a3, ?_⟩
  intro i
  rcases b4 i with ⟨e1, e2⟩ | e
  · rcases a4 i with ⟨f1, f2⟩ | ⟨f1, f2⟩
    · exact Or.inl ⟨e1.trans f1, e2.trans f2⟩
    · exact Or.inr ⟨e1.trans f1, e2.trans f2⟩
  · exact Or.inr e

theorem res_take_grows (res r : flow_nic_res) (index : Nat)
    (hb : res.alloc_bm.length = res.resource_count) (hr : res.ref.length = res.resource_count)
    (h : res_take res index = .inr r) : res_grows res r := by
  unfold res_take flow_nic_mark_resource_used res_ref_set at h
  by_cases hi : index < res.resource_count
  · rw [if_pos hi] at h
    simp only at h
    rw [if_pos hi] at h
    simp only [Sum.inr.injEq] at h
    rw [← h]
    refine ⟨rfl, by simp, by simp, ?_⟩
    intro i
    simp only
    rw [getD_set_eq _ _ _ _ _ (by omega), getD_set_eq _ _ _ _ _ (by omega)]
    by_cases e : i = index
    · rw [if_pos e, if_pos e]
      exact Or.inr ⟨rfl, rfl⟩
    · rw [if_neg e, if_neg e]
      exact Or.inl ⟨rfl, rfl⟩
  · rw [if_neg hi] at h
    exact absurd h (by simp)

theorem res_grows_lengths (res r : flow_nic_res) (h : res_grows res r)
    (hb : res.alloc_bm.length = res.resource_count) (hr : res.ref.length = res.resource_count) :
    r.alloc_bm.length = r.resource_count ∧ r.ref.length = r.resource_count := by
  obtain ⟨a1, a2, a3, _⟩ := h
  exact ⟨by rw [a2, a1, hb], by rw [a3, a1, hr]⟩

theorem res_grows_consistent (res r : flow_nic_res) (h : res_grows res r)
    (hc : res_consistent res) : res_consistent r := by
  obtain ⟨c1, c2, c3⟩ := hc
  obtain ⟨l1, l2⟩ := res_grows_lengths res r h c1 c2
  obtain ⟨a1, _, _, a4⟩ := h
  refine ⟨l1, l2, ?_⟩
  intro i hi
  rw [a1] at hi
  rcases a4 i with ⟨e1, e2⟩ | ⟨e1, e2⟩
  · rw [e1, e2]
    exact c3 i hi
  · rw [e1, e2]
    exact ⟨by decide, by simp⟩

theorem alloc_loop_grows (res : flow_nic_res) (alignment : Nat)
    (hb : res.alloc_bm.length = res.resource_count) (hr : res.ref.length = res.resource_count) :
    ∀ (fuel i : Nat) (r : Int) (res1 : flow_nic_res),
      flow_nic_alloc_resource_loop res alignment fuel i = .ret r res1 → res_grows res res1 := by
  intro fuel
  induction fuel with
  | zero =>
    intro i r res1 h
    simp [flow_nic_alloc_resource_loop] at h
  | succ fuel ih =>
    intro i r res1 h
    unfold flow_nic_alloc_resource_loop at h
    by_cases hi : i < res.resource_count
    · rw [if_pos hi] at h
      cases hu : flow_nic_is_resource_used res i with
      | none => rw [hu] at h; simp at h
      | some used =>
        rw [hu] at h
        cases used with
        | true => exact ih _ r res1 h
        | false =>
          simp only at h
          cases ht : res_take res i with
          | inl slot => rw [ht] at h; simp at h
          | inr r2 =>
            rw [ht] at h
            simp only [res_result.ret.injEq] at h
            rw [← h.2]
            exact res_take_grows res r2 i hb hr ht
    · rw [if_neg hi] at h
      simp only [res_result.ret.injEq] at h
      rw [← h.2]
      exact res_grows_refl res

theorem alloc_config_mark_grows (res_idx num : Nat) :
    ∀ (n idx_offs : Nat) (res r : flow_nic_res),
      res.alloc_bm.length = res.resource_count → res.ref.length = res.resource_count →
      alloc_config_mark res_idx num n idx_offs res = .inr r → res_grows res r := by
  intro n
  induction n with
  | zero =>
    intro idx_offs res r _ _ h
    simp only [alloc_config_mark, Sum.inr.injEq] at h
    rw [← h]
    exact res_grows_refl res
  | succ n ih =>
    intro idx_offs res r hb hr h
    unfold alloc_config_mark at h
    by_cases hi : idx_offs < num
    · rw [if_pos hi] at h
      cases ht : res_take res (u32_add res_idx idx_offs) with
      | inl slot => rw [ht] at h; simp at h
      | inr r2 =>
        rw [ht] at h
        simp only at h
        have g1 := res_take_grows res r2 _ hb hr ht
        obtain ⟨l1, l2⟩ := res_grows_lengths res r2 g1 hb hr
        exact res_grows_trans res r2 r g1 (ih _ r2 r l1 l2 h)
    · rw [if_neg hi] at h
      simp only [Sum.inr.injEq] at h
      rw [← h]
      exact res_grows_refl res

theorem alloc_config_loop_grows (res : flow_nic_res) (num alignment : Nat)
    (hb : res.alloc_bm.length = res.resource_count) (hr : res.ref.length = res.resource_count) :
    ∀ (fuel res_idx : Nat) (r : Int) (res1 : flow_nic_res),
      flow_nic_alloc_resource_config_loop res num alignment fuel res_idx = .ret r res1 →
      res_grows res res1 := by
  intro fuel
  induction fuel with
  | zero =>
    intro i r res1 h
    simp [flow_nic_alloc_resource_config_loop] at h
  | succ fuel ih =>
    intro i r res1 h
    rw [flow_nic_alloc_resource_config_loop] at h
    by_cases hi : i < u32_sub res.resource_count (u32_sub num 1)
    · rw [if_pos hi] at h
      cases hu : flow_nic_is_resource_used res i with
      | none => rw [hu] at h; simp at h
      | some used =>
        rw [hu] at h
        cases used with
        | true => exact ih _ r res1 h
        | false =>
          simp only at h
          cases hs : alloc_config_scan res i num num 1 with
          | inl slot => rw [hs] at h; simp at h
          | inr idx_offs =>
            rw [hs] at h
            simp only at h
            by_cases hlt : idx_offs < num
            · rw [if_pos hlt] at h
              exact ih _ r res1 h
            · rw [if_neg hlt] at h
              cases hm : alloc_config_mark i num num 0 res with
              | inl slot => rw [hm] at h; simp at h
              | inr r2 =>
                rw [hm] at h
                simp only [res_result.ret.injEq] at h
                rw [← h.2]
                exact alloc_config_mark_grows i num num 0 res r2 hb hr hm
    · rw [if_neg hi] at h
      simp only [res_result.ret.injEq] at h
      rw [← h.2]
      exact res_grows_refl res

theorem u32_add_one (r : Nat) (h : r < UINT32_MAX) : u32_add r 1 = r + 1 := by
  unfold UINT32_MAX at h
  unfold u32_add
  omega

theorem u32_sub_one (r : Nat) (h0 : r ≠ 0) (h : r ≤ UINT32_MAX) : u32_sub r 1 = r - 1 := by
  unfold UINT32_MAX at h
  unfold u32_sub
  omega

theorem ref_resource_eq (res : flow_nic_res) (i : Nat) (hi : i < res.resource_count)
    (hu : res.alloc_bm.getD i false = true) :
    flow_nic_ref_resource res (i : Int) =
      if res.ref.getD i 0 = UINT32_MAX then .ret (-1) res
      else .ret 0 { res with ref := res.ref.set i (u32_add (res.ref.getD i 0) 1) } := by
  unfold flow_nic_ref_resource flow_nic_is_resource_used res_ref_get res_ref_set
  rw [if_neg (by omega), Int.toNat_ofNat, if_pos hi, if_pos hi]
  simp only [hu, if_true, if_pos hi]

theorem deref_resource_eq (res : flow_nic_res) (i : Nat) (hi : i < res.resource_count)
    (hu : res.alloc_bm.getD i false = true) (hr : res.ref.getD i 0 ≠ 0) :
    flow_nic_deref_resource res (i : Int) =
      if u32_sub (res.ref.getD i 0) 1 = 0 then
        .ret 0 { res with ref := res.ref.set i (u32_sub (res.ref.getD i 0) 1),
                          alloc_bm := res.alloc_bm.set i false }
      else .ret 1 { res with ref := res.ref.set i (u32_sub (res.ref.getD i 0) 1) } := by
  unfold flow_nic_deref_resource flow_nic_is_resource_used res_ref_get res_ref_set
    flow_nic_free_resource flow_nic_mark_resource_unused
  rw [if_neg (by omega), Int.toNat_ofNat, if_pos hi, if_pos hi]
  simp only [hu, if_true, if_pos hi, if_neg hr]
  split_ifs <;> simp_all

theorem ref_deref_ret (res : flow_nic_res) (index : Int) (r : Int) (res1 : flow_nic_res)
    (h : flow_nic_ref_resource res index = .ret r res1 ∨
      flow_nic_deref_resource res index = .ret r res1) :
    ∃ i : Nat, index = (i : Int) ∧ i < res.resource_count ∧
      res.alloc_bm.getD i false = true := by
  by_cases hneg : index < 0
  · rcases h with h | h
    · unfold flow_nic_ref_resource at h
      rw [if_pos hneg] at h
      simp at h
    · unfold flow_nic_deref_resource at h
      rw [if_pos hneg] at h
      simp at h
  · refine ⟨index.toNat, by omega, ?_⟩
    by_cases hi : index.toNat < res.resource_count
    · refine ⟨hi, ?_⟩
      by_contra hu
      have hu1 : res.alloc_bm.getD index.toNat false = false := by
        cases hb : res.alloc_bm.getD index.toNat false with
        | true => exact absurd hb hu
        | false => rfl
      rcases h with h | h
      · unfold flow_nic_ref_resource flow_nic_is_resource_used res_ref_get at h
        rw [if_neg hneg, if_pos hi, if_pos hi, hu1] at h
        simp at h
      · unfold flow_nic_deref_resource flow_nic_is_resource_used res_ref_get at h
        rw [if_neg hneg, if_pos hi, if_pos hi, hu1] at h
        simp at h
    · rcases h with h | h
      · unfold flow_nic_ref_resource flow_nic_is_resource_used res_ref_get at h
        rw [if_neg hneg, if_neg hi] at h
        simp at h
      · unfold flow_nic_deref_resource flow_nic_is_resource_used res_ref_get at h
        rw [if_neg hneg, if_neg hi] at h
        simp at h

theorem ref_resource_consistent (res : flow_nic_res) (index : Int) (r : Int)
    (res1 : flow_nic_res) (hc : res_consistent res)
    (h : flow_nic_ref_resource res index = .ret r res1) : res_consistent res1 := by
  obtain ⟨i, e, hi, hu⟩ := ref_deref_ret res index r res1 (Or.inl h)
  rw [e, ref_resource_eq res i hi hu] at h
  obtain ⟨c1, c2, c3⟩ := hc
  by_cases hm : res.ref.getD i 0 = UINT32_MAX
  · rw [if_pos hm] at h
    simp only [res_result.ret.injEq] at h
    rw [← h.2]
    exact ⟨c1, c2, c3⟩
  · rw [if_neg hm] at h
    simp only [res_result.ret.injEq] at h
    rw [← h.2]
    have hlt : res.ref.getD i 0 < UINT32_MAX := lt_of_le_of_ne (c3 i hi).1 hm
    refine ⟨c1, by simp [c2], ?_⟩
    intro j hj
    simp only
    rw [getD_set_eq _ _ _ _ _ (by omega), u32_add_one _ hlt]
    by_cases ej : j = i
    · rw [if_pos ej, ej, hu]
      exact ⟨by omega, by simp⟩
    · rw [if_neg ej]
      exact c3 j hj

theorem deref_resource_consistent (res : flow_nic_res) (index : Int) (r : Int)
    (res1 : flow_nic_res) (hc : res_consistent res)
    (h : flow_nic_deref_resource res index = .ret r res1) : res_consistent res1 := by
  obtain ⟨i, e, hi, hu⟩ := ref_deref_ret res index r res1 (Or.inr h)
  obtain ⟨c1, c2, c3⟩ := hc
  have hpos : 0 < res.ref.getD i 0 := (c3 i hi).2.1 hu
  rw [e, deref_resource_eq res i hi hu (by omega),
    u32_sub_one _ (by omega) (c3 i hi).1] at h
  by_cases hz : res.ref.getD i 0 - 1 = 0
  · rw [if_pos hz] at h
    simp only [res_result.ret.injEq] at h
    rw [← h.2]
    refine ⟨by simp [c1], by simp [c2], ?_⟩
    intro j hj
    simp only
    rw [getD_set_eq _ _ _ _ _ (by omega), getD_set_eq _ _ _ _ _ (by omega)]
    by_cases ej : j = i
    · rw [if_pos ej, if_pos ej, hz]
      exact ⟨by decide, by simp⟩
    · rw [if_neg ej, if_neg ej]
      exact c3 j hj
  · rw [if_neg hz] at h
    simp only [res_result.ret.injEq] at h
    rw [← h.2]
    refine ⟨c1, by simp [c2], ?_⟩
    intro j hj
    simp only
    rw [getD_set_eq _ _ _ _ _ (by omega)]
    by_cases ej : j = i
    · rw [if_pos ej, ej, hu]
      have := (c3 i hi).1
      exact ⟨by omega, ⟨fun _ => by omega, fun _ => rfl⟩⟩
    · rw [if_neg ej]
      exact c3 j hj

theorem res_apply_consistent (res : flow_nic_res) (op : res_op) (r : Int)
    (res1 : flow_nic_res) (hc : res_consistent res) (h : res_apply res op = .ret r res1) :
    res_consistent res1 := by
  cases op with
  | alloc alignment fuel =>
    exact res_grows_consistent res res1
      (alloc_loop_grows res alignment hc.1 hc.2.1 fuel 0 r res1 h) hc
  | alloc_config num alignment fuel =>
    exact res_grows_consistent res res1
      (alloc_config_loop_grows res num alignment hc.1 hc.2.1 fuel 0 r res1 h) hc
  | ref_resource index => exact ref_resource_consistent res index r res1 hc h
  | deref_resource index => exact deref_resource_consistent res index r res1 hc h

theorem res_initial_consistent (count : Nat) : res_consistent (res_initial count) := by
  refine ⟨by simp [res_initial], by simp [res_initial], ?_⟩
  intro i hi
  have hi2 : i < count := hi
  simp only [res_initial]
  rw [List.getD_eq_getElem?_getD, List.getD_eq_getElem?_getD,
    List.getElem?_replicate, List.getElem?_replicate, if_pos hi2, if_pos hi2]
  exact ⟨by decide, by simp⟩

theorem res_run_consistent (ops : List res_op) :
    ∀ (res res1 : flow_nic_res), res_consistent res → res_run ops res = some res1 →
      res_consistent res1 := by
  induction ops with
  | nil =>
    intro res res1 hc h
    simp only [res_run, Option.some.injEq] at h
    rw [← h]
    exact hc
  | cons op ops ih =>
    intro res res1 hc h
    unfold res_run at h
    cases ha : res_apply res op with
    | outside slot => rw [ha] at h; simp at h
    | aborted => rw [ha] at h; simp at h
    | running => rw [ha] at h; simp at h
    | ret r res2 =>
      rw [ha] at h
      exact ih res2 res1 (res_apply_consistent res op r res2 hc ha) h

/-- Claim C28: the pool that `init_resource_elements` builds has every used bit clear
and every reference count 0, and every sequence of returning calls of
`flow_nic_alloc_resource`, `flow_nic_alloc_resource_config`, `flow_nic_ref_resource` and
`flow_nic_deref_resource` from it leaves, for every slot, the slot marked used if and
only if its reference count is greater than 0. On a used slot of such a pool,
`flow_nic_ref_resource` returns -1 and changes nothing at the count 2^32 - 1 and
otherwise adds 1 and returns 0, and `flow_nic_deref_resource` subtracts 1, and frees
the slot and returns 0 when the count was 1, and returns 1 otherwise. -/
theorem resource_used_iff_referenced (count : Nat) :
    init_resource_elements true count = (0, some (res_initial count)) ∧
    (∀ i, i < count → (res_initial count).alloc_bm.getD i false = false ∧
      (res_initial count).ref.getD i 0 = 0) ∧
    (∀ ops res, res_run ops (res_initial count) = some res → res_consistent res) ∧
    (∀ res op r res1, res_consistent res → res_apply res op = .ret r res1 →
      res_consistent res1) ∧
    (∀ res (i : Nat), res_consistent res → i < res.resource_count →
      res.alloc_bm.getD i false = true →
      (res.ref.getD i 0 = 4294967295 → flow_nic_ref_resource res (i : Int) = .ret (-1) res) ∧
      (res.ref.getD i 0 ≠ 4294967295 → flow_nic_ref_resource res (i : Int)
        = .ret 0 { res with ref := res.ref.set i (res.ref.getD i 0 + 1) }) ∧
      (res.ref.getD i 0 = 1 → flow_nic_deref_resource res (i : Int)
        = .ret 0 { res with ref := res.ref.set i 0, alloc_bm := res.alloc_bm.set i false }) ∧
      (res.ref.getD i 0 ≠ 1 → flow_nic_deref_resource res (i : Int)
        = .ret 1 { res with ref := res.ref.set i (res.ref.getD i 0 - 1) } ∧
          0 < res.ref.getD i 0 - 1)) := by
  refine ⟨rfl, ?_, ?_, ?_, ?_⟩
  · intro i hi
    simp only [res_initial]
    rw [List.getD_eq_getElem?_getD, List.getD_eq_getElem?_getD,
      List.getElem?_replicate, List.getElem?_replicate, if_pos hi, if_pos hi]
    exact ⟨rfl, rfl⟩
  · intro ops res h
    exact res_run_consistent ops _ res (res_initial_consistent count) h
  · intro res op r res1 hc h
    exact res_apply_consistent res op r res1 hc h
  · intro res i hc hi hu
    have hle := (hc.2.2 i hi).1
    have hpos : 0 < res.ref.getD i 0 := (hc.2.2 i hi).2.1 hu
    unfold UINT32_MAX at hle
    refine ⟨?_, ?_, ?_, ?_⟩
    · intro hm
      rw [ref_resource_eq res i hi hu, if_pos (by rw [hm]; rfl)]
    · intro hm
      rw [ref_resource_eq res i hi hu, if_neg (by unfold UINT32_MAX; exact hm),
        u32_add_one _ (by unfold UINT32_MAX; omega)]
    · intro h1
      rw [deref_resource_eq res i hi hu (by omega),
        u32_sub_one _ (by omega) (by unfold UINT32_MAX; omega), h1]
      rfl
    · intro h1
      rw [deref_resource_eq res i hi hu (by omega),
        u32_sub_one _ (by omega) (by unfold UINT32_MAX; omega), if_neg (by omega)]
      exact ⟨rfl, by omega⟩

theorem resource_used_iff_referenced_witness :
    ∃ res, res_run [.alloc 1 8, .alloc_config 2 2 8, .ref_resource 0, .deref_resource 2,
        .deref_resource 0] (res_initial 4) = some res ∧
      res = { alloc_bm := [true, false, false, true], ref := [1, 0, 0, 1],
              resource_count := 4 } ∧
      res_consistent res :=
  ⟨_, by decide, rfl,
   (resource_used_iff_referenced 4).2.2.1
     [.alloc 1 8, .alloc_config 2 2 8, .ref_resource 0, .deref_resource 2, .deref_resource 0]
     _ (by decide)⟩

/-- C27 (the code at the failing input). The bound of the outer loop,
`resource_count - (num - 1)`, is computed in `unsigned int`: when `num` exceeds
`resource_count + 1` it wraps around to a large value and the loop is entered. On the
all-free pool of 4 slots with `num = 6` and `alignment = 1` the call reads the slot 4,
outside the pool, instead of returning -1; with one slot and `num = 3` it reads the
slot 1. With `num = resource_count + 1` it returns -1 and changes nothing, and with
`num = 2`, `alignment = 2` on a pool whose slots 0, 1, 3 and 5 are used it returns 6
and takes the slots 6 and 7. -/
theorem alloc_resource_config_wraps_bound :
    u32_sub 4 (u32_sub 6 1) = 4294967295 ∧
    (∀ fuel, flow_nic_alloc_resource_config (res_initial 4) 6 1 (fuel + 1) = .outside 4) ∧
    (∀ fuel, flow_nic_alloc_resource_config (res_initial 1) 3 1 (fuel + 1) = .outside 1) ∧
    flow_nic_alloc_resource_config (res_initial 4) 5 1 8 = .ret (-1) (res_initial 4) ∧
    flow_nic_alloc_resource_config
        { alloc_bm := [true, true, false, true, false, true, false, false],
          ref := [1, 1, 0, 1, 0, 1, 0, 0], resource_count := 8 } 2 2 8
      = .ret 6 { alloc_bm := [true, true, false, true, false, true, true, true],
                 ref := [1, 1, 0, 1, 0, 1, 1, 1], resource_count := 8 } := by
  refine ⟨by decide, fun _ => rfl, fun _ => rfl, by decide, by decide⟩

end Firewall
